import Mathlib

/-!
# Transformer core of marian (`src/models/transformer.h`)

A shallow embedding of the transformer decoder code (the layers it shares with the
encoder, the decoder state and the decoding step) and of the parts of the tensor
engine it calls, followed by theorems about it.

Conventions of the embedding.

* An `Expr` of the engine is a nullable pointer to a graph node; a node is
  modelled by the tensor it evaluates to: its shape and its values in row-major
  order.  The values live in an arbitrary type `α` (a field where the code does
  arithmetic), that is, `float` arithmetic is taken to be exact.
* `ABORT`, `ABORT_IF` and reads that C++ leaves undefined (out-of-bounds
  `operator[]`, `front()` of an empty vector, a null `Expr`, a division by
  zero) are failures of the `Result` monad.
* Sizes, positions and tensor dimensions are natural numbers (`int` and
  `size_t` far from their limits).
-/

namespace Marian

/-! ## Failure -/

/-- How a call fails to return. -/
inductive Failure where
  /-- `ABORT(msg)` or `ABORT_IF(cond, msg)` was reached. -/
  | abort (msg : String)
  /-- The code did something C++ leaves undefined. -/
  | undefined (what : String)
  deriving DecidableEq, Repr

/-- Result of a call that may fail. -/
abbrev Result (β : Type) := Except Failure β

/-- A failure raised by the `ABORT` macro. -/
def Failure.isAbort : Failure → Bool
  | .abort _ => true
  | .undefined _ => false

/-- The call returned. -/
def Result.isOk {β : Type} : Result β → Bool
  | .ok _ => true
  | .error _ => false

/-- The call ended in `ABORT`. -/
def Result.aborts {β : Type} : Result β → Bool
  | .ok _ => false
  | .error e => e.isAbort

/-- A `for` loop over a vector that pushes one result per element and stops at
the first failure. -/
def forEach {β γ : Type} (f : β → Result γ) : List β → Result (List γ)
  | [] => .ok []
  | a :: l =>
    match f a with
    | .error e => .error e
    | .ok y =>
      match forEach f l with
      | .error e => .error e
      | .ok ys => .ok (y :: ys)

/-! ## Tensors of the engine -/

/-- Value of a graph node: shape and row-major values. -/
structure Tensor (α : Type) where
  shape : List Nat
  data : List α
  deriving DecidableEq, Repr

/-- An `Expr` is a pointer to a node and may be null. -/
abbrev Expr (α : Type) := Option (Tensor α)

/-- The buffer of a tensor holds one value per element of its shape. -/
def Tensor.WellFormed {α : Type} (t : Tensor α) : Prop :=
  t.data.length = t.shape.prod

/-- Modelled from the spec: `Shape::elements()` of the engine is not under src/;
a shape is the ordered list of dimension sizes (§3) and its elements are their
product. -/
def elements (s : List Nat) : Nat := s.prod

/-- Modelled from the spec: `Shape::operator[]` with a negative index is not
under src/; `shape()[-k]` reads the `k`-th dimension from the end (§3, axis
order `[beam, batch, length, feature]` outermost to innermost), and reading an
axis the shape does not have fails. -/
def dimBack (s : List Nat) (k : Nat) : Result Nat :=
  if k = 0 ∨ s.length < k then .error (.abort "shape index out of bounds")
  else match s[s.length - k]? with
    | some d => .ok d
    | none => .error (.abort "shape index out of bounds")

/-- A read that C++ leaves undefined when there is nothing to read. -/
def orFail {β : Type} (o : Option β) (e : Failure) : Result β :=
  match o with
  | some a => .ok a
  | none => .error e

/-- Division `a / b` of machine integers: by zero it is undefined. -/
def divide (a b : Nat) : Result Nat :=
  if b = 0 then .error (.undefined "division by zero") else .ok (a / b)

/-- Dereference of an `Expr`: a null pointer has no node. -/
def deref {α : Type} (e : Expr α) : Result (Tensor α) :=
  match e with
  | some t => .ok t
  | none => .error (.undefined "null Expr")

/-- Modelled from the spec: `reshape` of the engine is not under src/; it keeps
the values in row-major order and gives them a new shape (§6 "reshape"), and a
shape with a different number of elements is a fatal shape mismatch (§7). -/
def reshape {α : Type} (a : Tensor α) (shape : List Nat) : Result (Tensor α) :=
  if elements a.shape = elements shape then .ok { shape := shape, data := a.data }
  else .error (.abort "Reshape must not change the number of elements")

/-- Modelled from the spec: `flatten_2d` of the engine is not under src/; it
reshapes to two axes, all leading axes folded into the first and the feature
axis kept. -/
def flatten_2d {α : Type} (a : Tensor α) : Result (Tensor α) := do
  let last ← dimBack a.shape 1
  let first ← divide (elements a.shape) last
  reshape a [first, last]

/-- Modelled from the spec: `rows` of the engine is not under src/; it gathers
the rows of a two-axis tensor named by the index list, in the order of the list
(§4.7 "rows are gathered by hypothesis index"); an index that is not a row of
the tensor is an undefined read. -/
def rows {α : Type} (a : Tensor α) (indices : List Nat) : Result (Tensor α) :=
  match a.shape with
  | [n, cols] =>
    if indices.all (fun i => decide (i < n)) then
      .ok { shape := [indices.length, cols],
            data := indices.flatMap (fun i => (a.data.drop (i * cols)).take cols) }
    else .error (.undefined "row index out of range")
  | _ => .error (.abort "rows expects a matrix")

/-- Modelled from the spec: `graph->constant(shape, inits::from_vector(v))` of
the engine is not under src/; the node holds the values of `v` under the given
shape. -/
def constant {α : Type} (shape : List Nat) (v : List α) : Tensor α :=
  { shape := shape, data := v }

/-! ## Decoder state -/

/-- Declaration `rnn::State` (not under src/): the cached output of one layer
and an unused cell. -/
structure State (α : Type) where
  output : Expr α
  cell : Expr α
  deriving DecidableEq, Repr

/-- Declaration `EncoderState` (not under src/): context, mask and a reference
to the batch. -/
structure EncoderState (α : Type) where
  context : Expr α
  mask : Expr α
  batch : Nat
  deriving DecidableEq, Repr

/-- The class `TransformerState`, with the members of its base class `DecoderState`
(declared outside src/): layer states, logits, encoder states, the batch (a reference,
modelled by an identifier), the target embeddings and mask set by the driver, and the
position counter. -/
structure TransformerState (α : Type) where
  states_ : List (State α)
  probs_ : Expr α
  encStates_ : List (EncoderState α)
  batch_ : Nat
  targetEmbeddings_ : Expr α := none
  targetMask_ : Expr α := none
  position_ : Nat := 0
  deriving DecidableEq, Repr

/-- The constructor call `New<TransformerState>(states, probs, encStates, batch)`: it
leaves the target embeddings and mask null and the position at 0. -/
def TransformerState.new {α : Type} (states : List (State α)) (probs : Expr α)
    (encStates : List (EncoderState α)) (batch : Nat) : TransformerState α :=
  { states_ := states, probs_ := probs, encStates_ := encStates, batch_ := batch }

/-- Modelled from the spec: `DecoderState::setPosition` is not under src/; it writes the
position counter of the state (§3 "DecoderState"). -/
def TransformerState.setPosition {α : Type} (s : TransformerState α) (p : Nat) :
    TransformerState α :=
  { s with position_ := p }

/-- Modelled from the spec: `DecoderState::getPosition` is not under src/; it reads the
position counter of the state (§3 "DecoderState"). -/
def TransformerState.getPosition {α : Type} (s : TransformerState α) : Nat :=
  s.position_

/-- The loop of `select` that expands hypothesis indices into row indices:
`for(auto i : selIdx) for(int j = 0; j < dimTime; ++j) selIdx2.push_back(i * dimTime + j)`. -/
def selectRows (selIdx : List Nat) (dimTime : Nat) : List Nat :=
  selIdx.flatMap (fun i => (List.range dimTime).map (fun j => i * dimTime + j))

/-- Body of the loop `for(auto state : states_)` of `select`: gather the rows of
one layer cache and give them the shape `{beamSize, dimBatch, dimTime, dimDepth}`. -/
def selectState {α : Type} (selIdx2 : List Nat) (beamSize dimBatch dimTime dimDepth : Nat)
    (state : State α) : Result (State α) := do
  let out ← deref state.output
  let flat ← flatten_2d out
  let sel ← rows flat selIdx2
  let sel ← reshape sel [beamSize, dimBatch, dimTime, dimDepth]
  pure { output := some sel, cell := none }

/-- Source function `TransformerState::select(selIdx, beamSize)`. -/
def TransformerState.select {α : Type} (self : TransformerState α)
    (selIdx : List Nat) (beamSize : Nat) : Result (TransformerState α) := do
  let state0 ← orFail self.states_[0]? (.undefined "states_[0] of an empty vector")
  let first ← deref state0.output
  let dimDepth ← dimBack first.shape 1
  let dimTime ← dimBack first.shape 2
  let dimBatch ← divide selIdx.length beamSize
  let selIdx2 := selectRows selIdx dimTime
  let selectedStates ← forEach (selectState selIdx2 beamSize dimBatch dimTime dimDepth) self.states_
  let selectedState := TransformerState.new selectedStates self.probs_ self.encStates_ self.batch_
  pure (selectedState.setPosition self.getPosition)

/-! ## Masks -/

/-- The fill loop of `triangleMask`: a zero buffer of `length * length` floats in
which `vMask[i * length + j] = 1` is written for `i < length`, `j <= i`. -/
def triangleMaskBuffer {α : Type} [Zero α] [One α] (length : Nat) : List α :=
  (List.range length).foldl
    (fun vMask i => (List.range (i + 1)).foldl (fun vMask j => vMask.set (i * length + j) 1) vMask)
    (List.replicate (length * length) 0)

/-- Source function `Transformer::triangleMask(length)`. -/
def triangleMask {α : Type} [Zero α] [One α] (length : Nat) : Tensor α :=
  constant [1, length, length] (triangleMaskBuffer length)

/-! ## Arithmetic of the engine

The operations of the tensor engine that the transformer code calls.  None of
them is under src/; each is modelled on tensors in row-major order. -/

/-- Scalar functions and data sources of the engine that are not arithmetic of a
field: transcendental functions of `float`, the rectifier, the random dropout
masks and the values held by the named parameters of the graph. -/
structure Kernels (α : Type) where
  exp : α → α
  log : α → α
  sin : α → α
  cos : α → α
  sqrt : α → α
  relu : α → α
  dropoutMask : ℚ → List Nat → List α
  param : String → List Nat → List α

/-- A shape padded on the left with ones up to `n` axes. -/
def padShape (n : Nat) (s : List Nat) : List Nat :=
  List.replicate (n - s.length) 1 ++ s

/-- Axis by axis broadcast of two shapes of the same length. -/
def broadcastDims : List Nat → List Nat → Result (List Nat)
  | [], [] => .ok []
  | x :: xs, y :: ys =>
    match broadcastDims xs ys with
    | .error e => .error e
    | .ok rest =>
      if x = y then .ok (x :: rest)
      else if x = 1 then .ok (y :: rest)
      else if y = 1 then .ok (x :: rest)
      else .error (.abort "Shapes cannot be broadcasted")
  | _, _ => .error (.abort "Shapes cannot be broadcasted")

/-- Modelled from the spec: `Shape::broadcast` of the engine is not under src/;
shapes are aligned at the innermost axis, an axis of size 1 stretches to the
other size (§3 "exact shape/broadcast semantics"), and any other mismatch is a
fatal shape mismatch (§7). -/
def broadcastShape (a b : List Nat) : Result (List Nat) :=
  broadcastDims (padShape (max a.length b.length) a) (padShape (max a.length b.length) b)

/-- Multi-index of the row-major position `p` in a tensor of the given shape. -/
def unravel : List Nat → Nat → List Nat
  | [], _ => []
  | d :: ds, p => (p / elements ds) % d :: unravel ds p

/-- Row-major position of a multi-index, an index on an axis of size 1 reading
position 0 of that axis. -/
def ravel : List Nat → List Nat → Nat
  | d :: ds, i :: is => (i % d) * elements ds + ravel ds is
  | _, _ => 0

/-- The value a tensor contributes at position `p` of a result of shape `s` it is
broadcast to. -/
def readB {α : Type} [Zero α] (t : Tensor α) (s : List Nat) (p : Nat) : α :=
  t.data.getD (ravel (padShape s.length t.shape) (unravel s p)) 0

/-- Modelled from the spec: the element-wise binary operators of the engine
(`+`, `*`, `/` on `Expr`) are not under src/; they apply the scalar operation
entry by entry after broadcasting (§6 "elementwise arithmetic"). -/
def zipWithB {α : Type} [Zero α] (f : α → α → α) (a b : Tensor α) : Result (Tensor α) :=
  match broadcastShape a.shape b.shape with
  | .error e => .error e
  | .ok s => .ok { shape := s,
                   data := (List.range (elements s)).map (fun p => f (readB a s p) (readB b s p)) }

/-- Modelled from the spec: `a + b` on expressions is not under src/; the sum entry by
entry after broadcasting (§6 "elementwise arithmetic"). -/
def add {α : Type} [Field α] (a b : Tensor α) : Result (Tensor α) := zipWithB (· + ·) a b

/-- Modelled from the spec: `a * b` on expressions is not under src/; the product entry
by entry after broadcasting (§6 "elementwise arithmetic"). -/
def mul {α : Type} [Field α] (a b : Tensor α) : Result (Tensor α) := zipWithB (· * ·) a b

/-- Modelled from the spec: `a / b` on expressions is not under src/; the quotient entry
by entry after broadcasting (§6 "elementwise arithmetic"). -/
def div {α : Type} [Field α] (a b : Tensor α) : Result (Tensor α) := zipWithB (· / ·) a b

/-- An operation of an expression with a scalar, or a scalar function applied to
every entry. -/
def mapT {α : Type} (f : α → α) (a : Tensor α) : Tensor α :=
  { shape := a.shape, data := a.data.map f }

/-- Modelled from the spec: `sum(a, axis=-1)` of the engine is not under src/;
it adds up the innermost axis, which keeps size 1 (§4.5 "each row sums to 1"). -/
def sumLast {α : Type} [Field α] (a : Tensor α) : Result (Tensor α) := do
  let last ← dimBack a.shape 1
  pure { shape := a.shape.dropLast ++ [1],
         data := (List.range (elements a.shape.dropLast)).map
           (fun r => ((a.data.drop (r * last)).take last).sum) }

/-- Modelled from the spec: `bdot(a, b, transA, transB, scale)` of the engine is
not under src/; it multiplies the matrices held by the two innermost axes, batch
by batch, and scales the product (§6 "batched-dot"); the result takes the
leading axes of `a`, and inner dimensions that differ are a fatal shape mismatch
(§7). -/
def bdot {α : Type} [Field α] (a b : Tensor α) (transA transB : Bool) (scale : α) :
    Result (Tensor α) := do
  let a1 ← dimBack a.shape 1
  let a2 ← dimBack a.shape 2
  let b1 ← dimBack b.shape 1
  let b2 ← dimBack b.shape 2
  let m := if transA then a1 else a2
  let k := if transA then a2 else a1
  let k' := if transB then b1 else b2
  let n := if transB then b2 else b1
  if k ≠ k' then .error (.abort "matrix product requires dimensions to match")
  else
    let lead := a.shape.dropLast.dropLast
    let batchB := elements b.shape.dropLast.dropLast
    let readA := fun (β i l : Nat) =>
      a.data.getD (β * (m * k) + (if transA then l * m + i else i * k + l)) 0
    let readB := fun (β l j : Nat) =>
      b.data.getD (β * (k * n) + (if transB then j * k + l else l * n + j)) 0
    pure { shape := lead ++ [m, n],
           data := (List.range (elements lead * m * n)).map (fun p =>
             scale * ((List.range k).map (fun l =>
               readA (p / (m * n)) (p / n % m) l * readB (p / (m * n) % batchB) l (p % n))).sum) }

/-- Modelled from the spec: `affine(x, W, b)` of the engine is not under src/; it
is the linear projection `x W + b` of the feature axis (§4.2 step 1), and a
feature width that differs from the rows of `W` is a fatal shape mismatch (§7). -/
def affine {α : Type} [Field α] (x W b : Tensor α) : Result (Tensor α) := do
  let k ← dimBack x.shape 1
  let wk ← dimBack W.shape 2
  let n ← dimBack W.shape 1
  if k ≠ wk then .error (.abort "matrix product requires dimensions to match")
  else
    let lead := x.shape.dropLast
    let y : Tensor α :=
      { shape := lead ++ [n],
        data := (List.range (elements lead * n)).map (fun p =>
          ((List.range k).map (fun l => x.data.getD (p / n * k + l) 0 * W.data.getD (l * n + p % n) 0)).sum) }
    add y b

/-- Modelled from the spec: `softmax` of the engine is not under src/; it
normalises the exponentials along the innermost axis (§4.2 step 4). -/
def softmax {α : Type} [Field α] (K : Kernels α) (z : Tensor α) : Result (Tensor α) := do
  let n ← dimBack z.shape 1
  pure { shape := z.shape,
         data := (List.range (elements z.shape)).map (fun p =>
           K.exp (z.data.getD p 0) / (((z.data.drop (p / n * n)).take n).map K.exp).sum) }

/-- Modelled from the spec: `marian::layerNorm(x, scale, bias, eps)` of the engine
is not under src/; it is the usual mean/variance normalisation of the feature
axis with learned scale and bias and a small epsilon (§4.3 `n`). -/
def layerNormOp {α : Type} [Field α] (K : Kernels α) (x scale bias : Tensor α) (eps : α) :
    Result (Tensor α) := do
  let n ← dimBack x.shape 1
  pure { shape := x.shape,
         data := (List.range (elements x.shape)).map (fun p =>
           let row := (x.data.drop (p / n * n)).take n
           let mean := row.sum / (n : α)
           let var := (row.map (fun v => (v - mean) * (v - mean))).sum / (n : α)
           (x.data.getD p 0 - mean) / K.sqrt (var + eps) * scale.data.getD (p % n) 0
             + bias.data.getD (p % n) 0) }

/-- Modelled from the spec: `dropout(x, dropProb, shape)` of the engine is not
under src/; with probability 0 it is the identity (§4.3 `d`: "no-op ... when
probability is 0"), otherwise it multiplies by a random mask of the given shape. -/
def dropoutShaped {α : Type} [Field α] (K : Kernels α) (x : Tensor α) (dropProb : ℚ)
    (shape : List Nat) : Result (Tensor α) :=
  if dropProb = 0 then .ok x
  else mul x { shape := shape, data := K.dropoutMask dropProb shape }

/-- Modelled from the spec: `dropout(x, dropProb)` of the engine is not under src/; it is
`dropout(x, dropProb, shape)` with a mask of the shape of `x`. -/
def dropout {α : Type} [Field α] (K : Kernels α) (x : Tensor α) (dropProb : ℚ) :
    Result (Tensor α) :=
  dropoutShaped K x dropProb x.shape

/-- Modelled from the spec: `sigmoid` of the engine is not under src/; the logistic
function entry by entry (§4.5 "sigmoid gates"). -/
def sigmoid {α : Type} [Field α] (K : Kernels α) (x : Tensor α) : Tensor α :=
  mapT (fun v => 1 / (1 + K.exp (-v))) x

/-- Modelled from the spec: `relu` of the engine is not under src/; the rectifier entry
by entry (§4.4 "configured nonlinearity"). -/
def relu {α : Type} (K : Kernels α) (x : Tensor α) : Tensor α :=
  mapT K.relu x

/-- Modelled from the spec: `swish` of the engine is not under src/; `x * sigmoid(x)`
entry by entry (§4.4 "configured nonlinearity"). -/
def swish {α : Type} [Field α] (K : Kernels α) (x : Tensor α) : Tensor α :=
  mapT (fun v => v * (1 / (1 + K.exp (-v)))) x

/-- Modelled from the spec: `highway(y, x, t)` of the engine is not under src/; it
blends `y` and `x` by the gate `sigmoid(t)` (§4.3 `h`). -/
def highway {α : Type} [Field α] (K : Kernels α) (y x t : Tensor α) : Result (Tensor α) := do
  let g := sigmoid K t
  let gy ← mul g y
  let gx ← mul (mapT (fun v => 1 - v) g) x
  add gy gx

/-- Modelled from the spec: `concatenate(nodes, axis)` of the engine is not under
src/; it lays the tensors one after the other along the axis, here the `k`-th
from the end (§4.7 "concatenating the cached prior context with the current
input along the length axis"); the tensors must agree on every other axis. -/
def concatenate {α : Type} (nodes : List (Tensor α)) (k : Nat) : Result (Tensor α) :=
  match nodes with
  | [] => .error (.undefined "concatenate of an empty vector")
  | t :: _ => do
    let _ ← dimBack t.shape k
    let pos := t.shape.length - k
    if nodes.all (fun u => decide (u.shape.set pos 0 = t.shape.set pos 0)) then
      let inner := elements (t.shape.drop (pos + 1))
      pure { shape := t.shape.set pos ((nodes.map (fun u => u.shape.getD pos 0)).sum),
             data := (List.range (elements (t.shape.take pos))).flatMap (fun o =>
               nodes.flatMap (fun u =>
                 (u.data.drop (o * (u.shape.getD pos 0 * inner))).take (u.shape.getD pos 0 * inner))) }
    else .error (.abort "concatenate: shapes differ off the axis")

/-- Modelled from the spec: `repeat(a, repeats, axis)` of the engine is not under
src/; it replicates the tensor along the axis (§4.2 step 3 "broadcast-replicate"). -/
def repeatOp {α : Type} (a : Tensor α) (repeats : Nat) (k : Nat) : Result (Tensor α) :=
  if repeats = 1 then .ok a else concatenate (List.replicate repeats a) k

/-- Modelled from the spec: `transpose(a, axes)` of the engine is not under src/;
axis `i` of the result is axis `axes[i]` of the argument (§6 "transpose"). -/
def transpose {α : Type} [Zero α] (a : Tensor α) (axes : List Nat) : Result (Tensor α) :=
  if axes.length = a.shape.length ∧ axes.Perm (List.range a.shape.length) then
    let s := axes.map (fun ax => a.shape.getD ax 0)
    .ok { shape := s,
          data := (List.range (elements s)).map (fun p =>
            a.data.getD (ravel a.shape
              ((List.range a.shape.length).map (fun m => (unravel s p).getD (axes.indexOf m) 0))) 0) }
  else .error (.abort "transpose: axes do not match the shape")

/-- Modelled from the spec: `atleast_nd(a, n)` of the engine is not under src/; it
pads the shape on the left with ones up to `n` axes. -/
def atleast_nd {α : Type} (a : Tensor α) (n : Nat) : Tensor α :=
  { shape := padShape n a.shape, data := a.data }

/-- Modelled from the spec: `graph->param(name, shape, init)` of the engine is not
under src/; parameters are keyed by name, created on first use and reused
thereafter (§3 "Parameters"): the node holds the values the graph keeps under
that name. -/
def graphParam {α : Type} (K : Kernels α) (name : String) (shape : List Nat) : Tensor α :=
  { shape := shape, data := K.param name shape }

/-! ## Options and the transformer object -/

/-- The options read through `opt<T>(key)`; the field of key `"a-b"` is `a_b`. -/
structure Options where
  transformer_heads : Nat
  transformer_no_projection : Bool
  transformer_dropout : ℚ
  transformer_dropout_attention : ℚ
  transformer_dropout_ffn : ℚ
  transformer_preprocess : String
  transformer_postprocess : String
  transformer_postprocess_emb : String
  transformer_dim_ffn : Nat
  transformer_ffn_depth : Int
  transformer_ffn_activation : String
  transformer_dim_aan : Nat
  transformer_aan_depth : Int
  transformer_aan_activation : String
  transformer_aan_nogate : Bool
  transformer_decoder_autoreg : String
  dropout_trg : ℚ
  dec_depth : Int
  dim_vocabs : List Nat
  tied_embeddings : Bool
  tied_embeddings_all : Bool
  tied_embeddings_src : Bool
  deriving DecidableEq, Repr

/-- Declaration `mlp::MLP` holding one output layer (not under src/): the name
prefix of its parameters, the vocabulary size, the prefix of the embedding matrix
its weight is tied to, and the shortlist. -/
structure OutputLayer where
  layerPrefix : String
  dim : Nat
  tiedPrefix : Option String
  shortlist : Option (List Nat)
  deriving DecidableEq, Repr

/-- The members of `Transformer<DecoderBase>` and `DecoderTransformer`: options,
the inference flag, the name prefix, the index of the target sub-batch, the
shortlist, the graph (a reference, modelled by an identifier) and the lazily
created output layer. -/
structure DecoderTransformer where
  options_ : Options
  inference_ : Bool
  prefix_ : String
  batchIndex_ : Nat
  shortlist_ : Option (List Nat) := none
  graph_ : Option Nat := none
  output_ : Option OutputLayer := none
  deriving DecidableEq, Repr

/-! ## Positional signal -/

/-- The buffer `vPos` filled by the loops of `addPositionalEmbeddings`. -/
def positionalSignal {α : Type} [Field α] (K : Kernels α) (dimEmb dimWords start : Nat) :
    List α :=
  let num_timescales := dimEmb / 2
  let log_timescale_increment := K.log 10000 / ((num_timescales : α) - 1)
  (List.range' start dimWords).foldl
    (fun (vPos : List α) (p : Nat) => (List.range num_timescales).foldl
      (fun (vPos : List α) (i : Nat) =>
        let v := (p : α) * K.exp ((i : α) * -log_timescale_increment)
        (vPos.set ((p - start) * dimEmb + i) (K.sin v)).set
          ((p - start) * dimEmb + num_timescales + i) (K.cos v))
      vPos)
    (List.replicate (dimEmb * dimWords) 0)

/-- Source function `Transformer::addPositionalEmbeddings(input, start)`. -/
def addPositionalEmbeddings {α : Type} [Field α] (K : Kernels α) (input : Tensor α)
    (start : Nat) : Result (Tensor α) := do
  let dimEmb ← dimBack input.shape 1
  let dimWords ← dimBack input.shape 3
  let signal := constant [dimWords, 1, dimEmb] (positionalSignal K dimEmb dimWords start)
  add input signal

/-- Source function `Transformer::transposeTimeBatch(input)`. -/
def transposeTimeBatch {α : Type} [Zero α] (input : Tensor α) : Result (Tensor α) :=
  transpose input [0, 2, 1, 3]

/-- Source function `Transformer::transposedLogMask(mask)`.  The literal `-99999999.f` is a
`float`: the floats of that magnitude are the multiples of 8, 99999999 is not one of them,
and the literal denotes the nearest one, -100000000. -/
def transposedLogMask {α : Type} [Field α] (mask : Tensor α) : Result (Tensor α) := do
  let ms := mask.shape
  let mask := mapT (fun m => (1 - m) * (-100000000)) mask
  let ms3 ← dimBack ms 3
  let ms2 ← dimBack ms 2
  let ms1 ← dimBack ms 1
  reshape mask [ms3, 1, ms2, ms1]

/-! ## Heads -/

/-- Source function `Transformer::SplitHeads(input, dimHeads)`. -/
def SplitHeads {α : Type} [Zero α] (input : Tensor α) (dimHeads : Nat) : Result (Tensor α) := do
  let dimModel ← dimBack input.shape 1
  let dimSteps ← dimBack input.shape 2
  let dimBatch ← dimBack input.shape 3
  let dimBeam ← dimBack input.shape 4
  let dimDepth ← divide dimModel dimHeads
  let output ← reshape input [dimBatch * dimBeam, dimSteps, dimHeads, dimDepth]
  transpose output [0, 2, 1, 3]

/-- Source function `Transformer::JoinHeads(input, dimBeam)`. -/
def JoinHeads {α : Type} [Zero α] (input : Tensor α) (dimBeam : Nat) : Result (Tensor α) := do
  let dimDepth ← dimBack input.shape 1
  let dimSteps ← dimBack input.shape 2
  let dimHeads ← dimBack input.shape 3
  let dimBatchBeam ← dimBack input.shape 4
  let dimModel := dimHeads * dimDepth
  let dimBatch ← divide dimBatchBeam dimBeam
  let output ← transpose input [0, 2, 1, 3]
  reshape output [dimBeam, dimBatch, dimSteps, dimModel]

/-! ## Sublayer wrappers -/

/-- Source function `Transformer::dense(x, prefix, suffix, outDim, actFn, dropProb)`; a null
`actFn` is `none`. -/
def dense {α : Type} [Field α] (K : Kernels α) (x : Tensor α) (pre suffix : String)
    (outDim : Nat) (actFn : Option (Tensor α → Tensor α)) (dropProb : ℚ) :
    Result (Tensor α) := do
  let dimIn ← dimBack x.shape 1
  let W := graphParam K (pre ++ "_W" ++ suffix) [dimIn, outDim]
  let b := graphParam K (pre ++ "_b" ++ suffix) [1, outDim]
  let x ← affine x W b
  let x := match actFn with
    | some f => f x
    | none => x
  if dropProb ≠ 0 then dropout K x dropProb else pure x

/-- Source function `Transformer::layerNorm(x, prefix, suffix)`. -/
def layerNorm {α : Type} [Field α] (K : Kernels α) (x : Tensor α) (pre : String)
    (suffix : String) : Result (Tensor α) := do
  let dimModel ← dimBack x.shape 1
  let scale := graphParam K (pre ++ "_ln_scale" ++ suffix) [1, dimModel]
  let bias := graphParam K (pre ++ "_ln_bias" ++ suffix) [1, dimModel]
  layerNormOp K x scale bias (1 / 1000000)

/-- One iteration of the loop of `preProcess` on the operation `op`. -/
def preProcessOp {α : Type} [Field α] (K : Kernels α) (pre : String) (dropProb : ℚ)
    (output : Tensor α) (op : Char) : Result (Tensor α) :=
  if op = 'd' ∧ dropProb > 0 then dropout K output dropProb
  else if op = 'n' then layerNorm K output pre "_pre"
  else .error (.abort ("Unknown pre-processing operation " ++ op.toString))

/-- The loop `for(auto op : ops)` over the running value `output`. -/
def processOps {α : Type} (body : Tensor α → Char → Result (Tensor α)) :
    List Char → Tensor α → Result (Tensor α)
  | [], output => .ok output
  | op :: ops, output =>
    match body output op with
    | .error e => .error e
    | .ok output => processOps body ops output

/-- Source function `Transformer::preProcess(prefix, ops, input, dropProb)`. -/
def preProcess {α : Type} [Field α] (K : Kernels α) (pre ops : String) (input : Tensor α)
    (dropProb : ℚ) : Result (Tensor α) :=
  processOps (preProcessOp K pre dropProb) ops.toList input

/-- One iteration of the loop of `postProcess` on the operation `op`. -/
def postProcessOp {α : Type} [Field α] (K : Kernels α) (pre : String) (input prevInput : Tensor α)
    (dropProb : ℚ) (output : Tensor α) (op : Char) : Result (Tensor α) :=
  if op = 'd' ∧ dropProb > 0 then dropout K output dropProb
  else if op = 'a' then add output prevInput
  else if op = 'h' then do
    let dimModel ← dimBack input.shape 1
    let t ← dense K prevInput pre "h" dimModel none 0
    highway K output prevInput t
  else if op = 'n' then layerNorm K output pre ""
  else .error (.abort ("Unknown pre-processing operation " ++ op.toString))

/-- Source function `Transformer::postProcess(prefix, ops, input, prevInput, dropProb)`. -/
def postProcess {α : Type} [Field α] (K : Kernels α) (pre ops : String)
    (input prevInput : Tensor α) (dropProb : ℚ) : Result (Tensor α) :=
  processOps (postProcessOp K pre input prevInput dropProb) ops.toList input

/-! ## Attention -/

/-- Source function `Transformer::Attention(prefix, q, k, v, values, mask)`. -/
def Attention {α : Type} [Field α] (K : Kernels α) (self : DecoderTransformer) (_pre : String)
    (q k v _values mask : Tensor α) : Result (Tensor α) := do
  let dk ← dimBack k.shape 1
  let dimBeamQ ← dimBack q.shape 4
  let dimBeamK ← dimBack k.shape 4
  let dimBeam ← divide dimBeamQ dimBeamK
  let k ← (if dimBeam > 1 then repeatOp k dimBeam 4 else pure k)
  let v ← (if dimBeam > 1 then repeatOp v dimBeam 4 else pure v)
  let scale : α := 1 / K.sqrt (dk : α)
  let z ← bdot q k false true scale
  let z ← add z mask
  let weights ← softmax K z
  let dropProb : ℚ := if self.inference_ then 0 else self.options_.transformer_dropout_attention
  let weights ← dropout K weights dropProb
  bdot weights v false false 1

/-- Body of the loop `for(int i = 0; i < keys.size(); ++i)` of `MultiHead`. -/
def MultiHeadSource {α : Type} [Field α] (K : Kernels α) (self : DecoderTransformer)
    (pre : String) (dimHeads : Nat) (q qh : Tensor α) (dimModel : Nat)
    (keys values masks : List (Tensor α)) (i : Nat) : Result (Tensor α) := do
  let prefixProj := if i > 0 then pre ++ "_enc" ++ toString (i + 1) else pre
  let Wk := graphParam K (prefixProj ++ "_Wk") [dimModel, dimModel]
  let bk := graphParam K (prefixProj ++ "_bk") [1, dimModel]
  let Wv := graphParam K (prefixProj ++ "_Wv") [dimModel, dimModel]
  let bv := graphParam K (prefixProj ++ "_bv") [1, dimModel]
  let key ← orFail keys[i]? (.undefined "keys[i] out of bounds")
  let value ← orFail values[i]? (.undefined "values[i] out of bounds")
  let kh ← affine key Wk bk
  let vh ← affine value Wv bv
  let kh ← SplitHeads kh dimHeads
  let vh ← SplitHeads vh dimHeads
  let mask ← orFail masks[i]? (.undefined "masks[i] out of bounds")
  let output ← Attention K self pre qh kh vh value mask
  let dimBeam ← dimBack q.shape 4
  JoinHeads output dimBeam

/-- Source function `Transformer::MultiHead(prefix, dimOut, dimHeads, q, keys, values, masks)`. -/
def MultiHead {α : Type} [Field α] (K : Kernels α) (self : DecoderTransformer) (pre : String)
    (dimOut dimHeads : Nat) (q : Tensor α) (keys values masks : List (Tensor α)) :
    Result (Tensor α) := do
  let dimModel ← dimBack q.shape 1
  let Wq := graphParam K (pre ++ "_Wq") [dimModel, dimModel]
  let bq := graphParam K (pre ++ "_bq") [1, dimModel]
  let qh ← affine q Wq bq
  let qh ← SplitHeads qh dimHeads
  let outputs ← forEach (MultiHeadSource K self pre dimHeads q qh dimModel keys values masks)
    (List.range keys.length)
  let output ← (if outputs.length > 1 then concatenate outputs 1
    else orFail outputs.head? (.undefined "front() of an empty vector"))
  let dimAtt ← dimBack output.shape 1
  let project := !self.options_.transformer_no_projection
  if project ∨ dimAtt ≠ dimOut then
    let Wo := graphParam K (pre ++ "_Wo") [dimAtt, dimOut]
    let bo := graphParam K (pre ++ "_bo") [1, dimOut]
    affine output Wo bo
  else pure output

/-- Source function `Transformer::LayerAttention_(prefix, input, keys, values, masks)`. -/
def LayerAttention_ {α : Type} [Field α] (K : Kernels α) (self : DecoderTransformer)
    (pre : String) (input : Tensor α) (keys values masks : List (Tensor α)) :
    Result (Tensor α) := do
  let dimModel ← dimBack input.shape 1
  let dropProb : ℚ := if self.inference_ then 0 else self.options_.transformer_dropout
  let opsPre := self.options_.transformer_preprocess
  let output ← preProcess K (pre ++ "_Wo") opsPre input dropProb
  let heads := self.options_.transformer_heads
  let output ← MultiHead K self pre dimModel heads output keys values masks
  let opsPost := self.options_.transformer_postprocess
  postProcess K (pre ++ "_Wo") opsPost output input dropProb

/-- Source function `Transformer::LayerAttention(prefix, input, keys, values, mask)`. -/
def LayerAttention {α : Type} [Field α] (K : Kernels α) (self : DecoderTransformer)
    (pre : String) (input keys values mask : Tensor α) : Result (Tensor α) :=
  LayerAttention_ K self pre input [keys] [values] [mask]

/-- Source function `Transformer::DecoderLayerSelfAttention(decoderState, prevDecoderState, prefix,
input, selfMask, startPos)`: the first component is `decoderState` after the call. -/
def DecoderLayerSelfAttention {α : Type} [Field α] (K : Kernels α) (self : DecoderTransformer)
    (decoderState prevDecoderState : State α) (pre : String) (input selfMask : Tensor α)
    (startPos : Nat) : Result (State α × Tensor α) := do
  let selfMask ← transposedLogMask selfMask
  let values ← (if startPos > 0 then do
      let prev ← deref prevDecoderState.output
      concatenate [prev, input] 2
    else pure input)
  let decoderState := { decoderState with output := some values }
  let out ← LayerAttention K self pre input values values selfMask
  pure (decoderState, out)

/-! ## Feed-forward and average attention -/

/-- Source function `Transformer::activationByName(actName)`. -/
def activationByName {α : Type} [Field α] (K : Kernels α) (actName : String) :
    Result (Tensor α → Tensor α) :=
  if actName = "relu" then .ok (fun x => relu K x)
  else if actName = "swish" then .ok (fun x => swish K x)
  else .error (.abort ("Invalid activation name " ++ actName))

/-- The loop `for(int i = 1; i < depth; ++i) x = dense(x, prefix, to_string(i), dim, actFn,
dropProb)` shared by `LayerFFN` and `LayerAAN`, over the list of its indices. -/
def denseStack {α : Type} [Field α] (K : Kernels α) (pre : String) (dim : Nat)
    (actFn : Tensor α → Tensor α) (dropProb : ℚ) : List Nat → Tensor α → Result (Tensor α)
  | [], x => .ok x
  | i :: is, x =>
    match dense K x pre (toString i) dim (some actFn) dropProb with
    | .error e => .error e
    | .ok x => denseStack K pre dim actFn dropProb is x

/-- Source function `Transformer::LayerFFN(prefix, input)`. -/
def LayerFFN {α : Type} [Field α] (K : Kernels α) (self : DecoderTransformer) (pre : String)
    (input : Tensor α) : Result (Tensor α) := do
  let dimModel ← dimBack input.shape 1
  let dropProb : ℚ := if self.inference_ then 0 else self.options_.transformer_dropout
  let opsPre := self.options_.transformer_preprocess
  let output ← preProcess K (pre ++ "_ffn") opsPre input dropProb
  let dimFfn := self.options_.transformer_dim_ffn
  let depthFfn := self.options_.transformer_ffn_depth
  let actFn ← activationByName K self.options_.transformer_ffn_activation
  let ffnDropProb : ℚ := if self.inference_ then 0 else self.options_.transformer_dropout_ffn
  if depthFfn < 1 then .error (.abort "Filter depth is smaller than 1")
  else do
    let output ← denseStack K pre dimFfn actFn ffnDropProb
      ((List.range (depthFfn.toNat - 1)).map (· + 1)) output
    let output ← dense K output pre (toString depthFfn) dimModel none 0
    let opsPost := self.options_.transformer_postprocess
    postProcess K (pre ++ "_ffn") opsPost output input dropProb

/-- Source function `Transformer::LayerAAN(prefix, x, y)`. -/
def LayerAAN {α : Type} [Field α] (K : Kernels α) (self : DecoderTransformer) (pre : String)
    (x y : Tensor α) : Result (Tensor α) := do
  let dimModel ← dimBack x.shape 1
  let dropProb : ℚ := if self.inference_ then 0 else self.options_.transformer_dropout
  let opsPre := self.options_.transformer_preprocess
  let y ← preProcess K (pre ++ "_ffn") opsPre y dropProb
  let dimAan := self.options_.transformer_dim_aan
  let depthAan := self.options_.transformer_aan_depth
  let actFn ← activationByName K self.options_.transformer_aan_activation
  let aanDropProb : ℚ := if self.inference_ then 0 else self.options_.transformer_dropout_ffn
  let y ← denseStack K pre dimAan actFn aanDropProb
    ((List.range (depthAan.toNat - 1)).map (· + 1)) y
  let dimY ← dimBack y.shape 1
  let y ← (if dimY ≠ dimModel then dense K y pre (toString depthAan) dimModel none 0
    else pure y)
  let noGate := self.options_.transformer_aan_nogate
  let y ← (if !noGate then do
      let gi ← dense K x pre "i" dimModel (some (fun t => sigmoid K t)) 0
      let gf ← dense K y pre "f" dimModel (some (fun t => sigmoid K t)) 0
      let gix ← mul gi x
      let gfy ← mul gf y
      add gix gfy
    else pure y)
  let opsPost := self.options_.transformer_postprocess
  postProcess K (pre ++ "_ffn") opsPost y x dropProb

/-- The running average that `DecoderLayerAAN` stores in `decoderState.output`. -/
def DecoderLayerAANAverage {α : Type} [Field α] (prevDecoderState : State α)
    (input selfMask : Tensor α) (startPos : Nat) : Result (Tensor α) := do
  if startPos > 0 then do
    let prev ← deref prevDecoderState.output
    let s ← add (mapT (fun v => v * (startPos : α)) prev) input
    pure (mapT (fun v => v / ((startPos + 1 : Nat) : α)) s)
  else do
    let dimSteps ← dimBack input.shape 2
    if startPos = 0 ∧ dimSteps > 1 then do
      let total ← sumLast selfMask
      let selfMask ← div selfMask total
      bdot selfMask input false false 1
    else pure input

/-- Source function `Transformer::DecoderLayerAAN(decoderState, prevDecoderState, prefix, input, selfMask,
startPos)`: the first component is `decoderState` after the call. -/
def DecoderLayerAAN {α : Type} [Field α] (K : Kernels α) (self : DecoderTransformer)
    (decoderState prevDecoderState : State α) (pre : String) (input selfMask : Tensor α)
    (startPos : Nat) : Result (State α × Tensor α) := do
  let output ← DecoderLayerAANAverage prevDecoderState input selfMask startPos
  let decoderState := { decoderState with output := some output }
  let out ← LayerAAN K self pre input output
  pure (decoderState, out)

/-! ## Decoder -/

/-- The weight matrix of the output layer, one row per vocabulary entry: the embedding
matrix when tied, the transposed matrix of the layer otherwise. -/
def outputWeight {α : Type} [Field α] (K : Kernels α) (layer : OutputLayer) (dimIn : Nat) :
    Result (Tensor α) :=
  match layer.tiedPrefix with
  | some tied => .ok (graphParam K tied [layer.dim, dimIn])
  | none => transpose (graphParam K (layer.layerPrefix ++ "_W") [dimIn, layer.dim]) [1, 0]

/-- Modelled from the spec: `mlp::MLP::apply` of the output layer is not under
src/; it projects the feature axis to vocabulary-sized logits, with a weight
matrix that may be the transposed embedding matrix and, under a shortlist, only
the shortlisted vocabulary entries (§4.7). -/
def OutputLayer.apply {α : Type} [Field α] (K : Kernels α) (layer : OutputLayer)
    (x : Tensor α) : Result (Tensor α) := do
  let dimIn ← dimBack x.shape 1
  let Wt ← outputWeight K layer dimIn
  let b := graphParam K (layer.layerPrefix ++ "_b") [1, layer.dim]
  match layer.shortlist with
  | none => do
    let W ← transpose Wt [1, 0]
    affine x W b
  | some indices => do
    let Wt ← rows Wt indices
    let W ← transpose Wt [1, 0]
    let bt ← transpose b [1, 0]
    let bt ← rows bt indices
    let b ← transpose bt [1, 0]
    affine x W b

/-- Source function `DecoderTransformer::LazyCreateOutputLayer(prefix)`. -/
def DecoderTransformer.LazyCreateOutputLayer (self : DecoderTransformer) (_pre : String) :
    Result DecoderTransformer :=
  match self.output_ with
  | some _ => .ok self
  | none =>
    match self.options_.dim_vocabs[self.batchIndex_]? with
    | none => .error (.undefined "dim-vocabs[batchIndex_] out of bounds")
    | some dimTrgVoc =>
      let tied : Option String :=
        if self.options_.tied_embeddings ∨ self.options_.tied_embeddings_all then
          if self.options_.tied_embeddings_all ∨ self.options_.tied_embeddings_src then some "Wemb"
          else some (self.prefix_ ++ "_Wemb")
        else none
      .ok { self with output_ := some { layerPrefix := self.prefix_ ++ "_ff_logit_out",
                                        dim := dimTrgVoc, tiedPrefix := tied,
                                        shortlist := self.shortlist_ } }

/-- Source function `DecoderTransformer::startState(graph, batch, encStates)`: the decoder after the
call, and the returned state. -/
def DecoderTransformer.startState {α : Type} (self : DecoderTransformer) (graph : Nat)
    (batch : Nat) (encStates : List (EncoderState α)) :
    DecoderTransformer × TransformerState α :=
  ({ self with graph_ := some graph }, TransformerState.new [] none encStates batch)

/-- Body of the loop `for(auto encoderState : state->getEncoderStates())` of `step`: the
context and the mask pushed to `encoderContexts` and `encoderMasks`. -/
def encoderContextAndMask {α : Type} [Field α] (dimBatch dimBeam : Nat)
    (encoderState : EncoderState α) : Result (Tensor α × Tensor α) := do
  let encoderContext ← deref encoderState.context
  let encoderMask ← deref encoderState.mask
  let encoderContext ← transposeTimeBatch encoderContext
  let dimSrcWords ← dimBack encoderContext.shape 2
  let encoderMask := atleast_nd encoderMask 4
  let encoderMask ← transposeTimeBatch encoderMask
  let encoderMask ← reshape encoderMask [1, dimBatch, 1, dimSrcWords]
  let encoderMask ← transposedLogMask encoderMask
  let encoderMask ← (if dimBeam > 1 then repeatOp encoderMask dimBeam 4 else pure encoderMask)
  pure (encoderContext, encoderMask)

/-- The loop `for(int j = 0; j < encoderContexts.size(); ++j)` of `step`: the
source-target attention blocks, one after another. -/
def contextAttention {α : Type} [Field α] (K : Kernels α) (self : DecoderTransformer) (i : Nat) :
    List (Nat × (Tensor α × Tensor α)) → Tensor α → Result (Tensor α)
  | [], query => .ok query
  | (j, (encoderContext, encoderMask)) :: rest, query =>
    let pre := self.prefix_ ++ "_l" ++ toString i ++ "_context"
    let pre := if j > 0 then pre ++ "_enc" ++ toString (j + 1) else pre
    match LayerAttention K self pre query encoderContext encoderContext encoderMask with
    | .error e => .error e
    | .ok query => contextAttention K self i rest query

/-- Body of the loop `for(int i = 1; i <= decDepth; ++i)` of `step`: the state pushed to
`decoderStates` and the new `query`. -/
def decoderLayer {α : Type} [Field α] (K : Kernels α) (self : DecoderTransformer)
    (prevDecoderStates : List (State α)) (selfMask : Tensor α) (startPos : Nat)
    (encoders : List (Tensor α × Tensor α)) (i : Nat) (query : Tensor α) :
    Result (State α × Tensor α) := do
  let decoderState : State α := { output := none, cell := none }
  let prevDecoderState ← (if prevDecoderStates.length > 0 then
      orFail prevDecoderStates[i - 1]? (.undefined "prevDecoderStates[i - 1] out of bounds")
    else pure ({ output := none, cell := none } : State α))
  let layerType := self.options_.transformer_decoder_autoreg
  let (decoderState, query) ←
    (if layerType = "self-attention" then
      DecoderLayerSelfAttention K self decoderState prevDecoderState
        (self.prefix_ ++ "_l" ++ toString i ++ "_self") query selfMask startPos
    else if layerType = "average-attention" then
      DecoderLayerAAN K self decoderState prevDecoderState
        (self.prefix_ ++ "_l" ++ toString i ++ "_aan") query selfMask startPos
    else .error (.abort ("Unknown auto-regressive layer type in transformer decoder "
      ++ layerType)))
  let query ← contextAttention K self i encoders.enum query
  let query ← LayerFFN K self (self.prefix_ ++ "_l" ++ toString i ++ "_ffn") query
  pure (decoderState, query)

/-- The loop `for(int i = 1; i <= decDepth; ++i)` of `step` over the list of its indices:
the states pushed to `decoderStates`, in order, and the final `query`. -/
def decoderLayers {α : Type} [Field α] (K : Kernels α) (self : DecoderTransformer)
    (prevDecoderStates : List (State α)) (selfMask : Tensor α) (startPos : Nat)
    (encoders : List (Tensor α × Tensor α)) :
    List Nat → Tensor α → Result (List (State α) × Tensor α)
  | [], query => .ok ([], query)
  | i :: is, query =>
    match decoderLayer K self prevDecoderStates selfMask startPos encoders i query with
    | .error e => .error e
    | .ok (decoderState, query) =>
      match decoderLayers K self prevDecoderStates selfMask startPos encoders is query with
      | .error e => .error e
      | .ok (decoderStates, query) => .ok (decoderState :: decoderStates, query)

/-- The list of the values of `query` at the entry of the iterations of the loop
`for(int i = 1; i <= decDepth; ++i)` of `step`, up to the first iteration that fails. -/
def decoderLayerInputs {α : Type} [Field α] (K : Kernels α) (self : DecoderTransformer)
    (prevDecoderStates : List (State α)) (selfMask : Tensor α) (startPos : Nat)
    (encoders : List (Tensor α × Tensor α)) : List Nat → Tensor α → List (Tensor α)
  | [], _ => []
  | i :: is, query =>
    query :: match decoderLayer K self prevDecoderStates selfMask startPos encoders i query with
      | .error _ => []
      | .ok (_, query) =>
        decoderLayerInputs K self prevDecoderStates selfMask startPos encoders is query

/-- The block `if(decoderMask) ...` of `step`: the triangle mask multiplied by the target
mask when there is one. -/
def maskSelf {α : Type} [Field α] (selfMask : Tensor α) (decoderMask : Expr α)
    (dimBatch dimTrgWords : Nat) : Result (Tensor α) :=
  match decoderMask with
  | some decoderMask => do
    let decoderMask := atleast_nd decoderMask 4
    let decoderMask ← transposeTimeBatch decoderMask
    let decoderMask ← reshape decoderMask [1, dimBatch, 1, dimTrgWords]
    mul selfMask decoderMask
  | none => pure selfMask

/-- The part of `DecoderTransformer::step(state)` before the loop over the decoder
layers: the `query` made from the target embeddings, `selfMask`, and the pairs of
`encoderContexts` and `encoderMasks`. -/
def DecoderTransformer.stepPrologue {α : Type} [Field α] (K : Kernels α)
    (self : DecoderTransformer) (state : TransformerState α) :
    Result (Tensor α × Tensor α × List (Tensor α × Tensor α)) := do
  let embeddings ← deref state.targetEmbeddings_
  let decoderMask := state.targetMask_
  let dropoutTrg : ℚ := if self.inference_ then 0 else self.options_.dropout_trg
  let embeddings ← (if dropoutTrg ≠ 0 then do
      let trgWords ← dimBack embeddings.shape 3
      dropoutShaped K embeddings dropoutTrg [trgWords, 1, 1]
    else pure embeddings)
  let dimEmb ← dimBack embeddings.shape 1
  let dimBeam ← (if embeddings.shape.length > 3 then dimBack embeddings.shape 4 else pure 1)
  let scaledEmbeddings := mapT (fun v => K.sqrt (dimEmb : α) * v) embeddings
  let startPos := state.getPosition
  let scaledEmbeddings ← addPositionalEmbeddings K scaledEmbeddings startPos
  let scaledEmbeddings := atleast_nd scaledEmbeddings 4
  let query ← transposeTimeBatch scaledEmbeddings
  let opsEmb := self.options_.transformer_postprocess_emb
  let dropProb : ℚ := if self.inference_ then 0 else self.options_.transformer_dropout
  let query ← preProcess K (self.prefix_ ++ "_emb") opsEmb query dropProb
  let dimTrgWords ← dimBack query.shape 2
  let dimBatch ← dimBack query.shape 3
  let selfMask : Tensor α := triangleMask dimTrgWords
  let selfMask ← maskSelf selfMask decoderMask dimBatch dimTrgWords
  let encoders ← forEach (encoderContextAndMask dimBatch dimBeam) state.encStates_
  pure (query, selfMask, encoders)

/-- The indices `1, ..., decDepth` of the loop over the decoder layers of `step`. -/
def DecoderTransformer.layerIndices (self : DecoderTransformer) : List Nat :=
  (List.range self.options_.dec_depth.toNat).map (· + 1)

/-- Source function `DecoderTransformer::step(state)`.  The argument is a pointer to a state object:
the first component of the result is that object after the call, the second is the
returned state. -/
def DecoderTransformer.stepState {α : Type} [Field α] (K : Kernels α)
    (self : DecoderTransformer) (state : TransformerState α) :
    Result (TransformerState α × TransformerState α) := do
  let (query, selfMask, encoders) ← self.stepPrologue K state
  let startPos := state.getPosition
  let prevDecoderStates := state.states_
  let (decoderStates, query) ← decoderLayers K self prevDecoderStates selfMask startPos encoders
    self.layerIndices query
  let decoderContext ← transposeTimeBatch query
  let output ← orFail self.output_ (.undefined "null output_")
  let logits ← output.apply K decoderContext
  let _ ← orFail self.options_.dim_vocabs[self.batchIndex_]?
    (.undefined "dim-vocabs[batchIndex_] out of bounds")
  let nextState := TransformerState.new decoderStates (some logits) state.encStates_ state.batch_
  pure (state, nextState.setPosition (state.getPosition + 1))

/-- The values of `query` at the entry of the decoder layers in `step(state)`. -/
def DecoderTransformer.stepLayerInputs {α : Type} [Field α] (K : Kernels α)
    (self : DecoderTransformer) (state : TransformerState α) : List (Tensor α) :=
  match self.stepPrologue K state with
  | .error _ => []
  | .ok (query, selfMask, encoders) =>
    decoderLayerInputs K self state.states_ selfMask state.getPosition encoders
      self.layerIndices query

/-- Source function `DecoderTransformer::step(graph, state)`: the decoder after the call, the object
`state` points to after the call, and the returned state. -/
def DecoderTransformer.step {α : Type} [Field α] (K : Kernels α) (self : DecoderTransformer)
    (graph : Nat) (state : TransformerState α) :
    Result (DecoderTransformer × TransformerState α × TransformerState α) := do
  if some graph ≠ self.graph_ then
    .error (.abort "An inconsistent graph parameter was passed to step().")
  else do
    let self ← self.LazyCreateOutputLayer (self.prefix_ ++ "_ff_logit_out")
    let (state, next) ← self.stepState K state
    pure (self, state, next)

/-! ## Predicates used by the theorems -/

/-- Every failure of the call is an `ABORT`. -/
def AbortsOnly {β : Type} (r : Result β) : Prop :=
  ∀ e, r = .error e → e.isAbort = true

/-- The hypothesis shared by the claims on `select`: every layer cache of the state is
a well-formed tensor of shape `[beam, batch, T, D]`. -/
def CachesShaped {α : Type} (st : TransformerState α) (beam batch T D : Nat) : Prop :=
  ∀ s ∈ st.states_, ∃ t, s.output = some t ∧ t.shape = [beam, batch, T, D] ∧ t.WellFormed

/-- The `t`-th time step of a sequence `X` of shape `[1, 1, L, D]`, as the input of one
decoding step: shape `[1, 1, 1, D]`. -/
def timeStep {α : Type} (X : Tensor α) (D t : Nat) : Tensor α :=
  { shape := [1, 1, 1, D], data := (X.data.drop (t * D)).take D }

/-- The running average of `DecoderLayerAAN` in incremental decoding of the sequence `X`:
the value stored in `decoderState.output` by the call at position `t`, when the calls at
positions `0, ..., t` are given the time steps of `X` one by one and each call receives
the state left by the previous one. -/
def aanIncremental {α : Type} [Field α] (X : Tensor α) (D : Nat) : Nat → Result (Tensor α)
  | 0 => DecoderLayerAANAverage { output := none, cell := none } (timeStep X D 0)
      (triangleMask 1) 0
  | t + 1 =>
    match aanIncremental X D t with
    | .error e => .error e
    | .ok prev => DecoderLayerAANAverage { output := some prev, cell := none }
        (timeStep X D (t + 1)) (triangleMask 1) (t + 1)

/-- The running averages of `DecoderLayerAAN` on the full sequence `X` at position 0
with the triangle mask of its length. -/
def aanFull {α : Type} [Field α] (X : Tensor α) (L : Nat) : Result (Tensor α) :=
  DecoderLayerAANAverage { output := none, cell := none } X (triangleMask L) 0

/-! ## Concrete inputs -/

/-- A state at position 3 with one layer cache of shape `[2, 1, 2, 2]`. -/
def exampleState : TransformerState Nat :=
  { states_ := [{ output := some { shape := [2, 1, 2, 2], data := [1, 2, 3, 4, 5, 6, 7, 8] },
                  cell := none }],
    probs_ := none, encStates_ := [], batch_ := 0, position_ := 3 }

/-- Kernels over the rationals: stand-ins for the transcendental functions, masks and
parameters of ones. -/
def exampleKernels : Kernels ℚ :=
  { exp := fun x => 1 + x, log := fun x => x - 1, sin := fun x => x, cos := fun x => 1 - x,
    sqrt := fun x => x, relu := fun x => max x 0,
    dropoutMask := fun _ s => List.replicate (elements s) 1,
    param := fun _ s => List.replicate (elements s) 1 }

/-- Options of a decoder with one self-attention layer and one head. -/
def exampleOptions : Options :=
  { transformer_heads := 1, transformer_no_projection := false, transformer_dropout := 0,
    transformer_dropout_attention := 0, transformer_dropout_ffn := 0,
    transformer_preprocess := "", transformer_postprocess := "an",
    transformer_postprocess_emb := "", transformer_dim_ffn := 2, transformer_ffn_depth := 2,
    transformer_ffn_activation := "relu", transformer_dim_aan := 2, transformer_aan_depth := 2,
    transformer_aan_activation := "relu", transformer_aan_nogate := false,
    transformer_decoder_autoreg := "self-attention", dropout_trg := 0, dec_depth := 1,
    dim_vocabs := [3], tied_embeddings := false, tied_embeddings_all := false,
    tied_embeddings_src := false }

/-- A decoder in inference mode, before `startState`. -/
def exampleDecoder : DecoderTransformer :=
  { options_ := exampleOptions, inference_ := true, prefix_ := "decoder", batchIndex_ := 0 }

/-- The start state of `exampleDecoder` on graph 7, given the embedding of one token of
width 2 for one hypothesis. -/
def exampleStart : TransformerState ℚ :=
  { (exampleDecoder.startState 7 0 []).2 with
    targetEmbeddings_ := some { shape := [1, 1, 1, 2], data := [1, 2] } }

/-- The tensor has four axes and `T` entries along the length axis. -/
def HasLength {α : Type} (t : Tensor α) (T : Nat) : Prop :=
  ∃ a b d, t.shape = [a, b, T, d]

/-- The mask can be added to attention scores of `T` query positions without changing
their number: four axes, with 1 or `T` entries on the query axis. -/
def MaskFits {α : Type} (mask : Tensor α) (T : Nat) : Prop :=
  ∃ m, HasLength mask m ∧ (m = T ∨ m = 1)

/-- The states a decoding driver reaches: from `startState` by calls of `step`, each on
the last state given the embedding of a single target token (one entry on the word axis)
and any target mask, with calls of `select` in between.  The index counts the calls of
`step`. -/
inductive Reachable {α : Type} [Field α] (K : Kernels α) (dec : DecoderTransformer)
    (graph batch : Nat) (encStates : List (EncoderState α)) :
    Nat → DecoderTransformer → TransformerState α → Prop
  | start :
      Reachable K dec graph batch encStates 0 (dec.startState graph batch encStates).1
        (dec.startState graph batch encStates).2
  | step {n : Nat} {d d' : DecoderTransformer} {st stAfter st' : TransformerState α}
      (emb : Tensor α) (mask : Expr α) :
      Reachable K dec graph batch encStates n d st →
      dimBack emb.shape 3 = .ok 1 →
      d.step K graph { st with targetEmbeddings_ := some emb, targetMask_ := mask }
        = .ok (d', stAfter, st') →
      Reachable K dec graph batch encStates (n + 1) d' st'
  | select {n : Nat} {d : DecoderTransformer} {st st' : TransformerState α}
      (selIdx : List Nat) (beamSize : Nat) :
      Reachable K dec graph batch encStates n d st →
      st.select selIdx beamSize = .ok st' →
      Reachable K dec graph batch encStates n d st'

/-- Two steps of `exampleDecoder` from `exampleStart` with a `select` in between: the
decoder and the state after the second step. -/
def exampleTwoSteps : Result (DecoderTransformer × TransformerState ℚ) := do
  let (d1, _, s1) ← (exampleDecoder.startState 7 0 ([] : List (EncoderState ℚ))).1.step
    exampleKernels 7 exampleStart
  let s1 ← s1.select [0] 1
  let (d2, _, s2) ← d1.step exampleKernels 7
    { s1 with targetEmbeddings_ := some { shape := [1, 1, 1, 2], data := [3, 4] },
              targetMask_ := none }
  pure (d2, s2)

/-! ## Blocks of the source functions

Parts of `Attention`, `MultiHead`, `LayerAAN` and `DecoderLayerAAN` that the theorems
speak about, each embedded from the lines of the source it names. -/

/-- The block of `Attention` that broadcasts `k` and `v` into all beam elements, from
`int dimBeamQ = q->shape()[-4]` to the end of `if(dimBeam > 1)`: the values of `k` and `v`
after it. -/
def beamBroadcast {α : Type} (q k v : Tensor α) : Result (Tensor α × Tensor α) := do
  let dimBeamQ ← dimBack q.shape 4
  let dimBeamK ← dimBack k.shape 4
  let dimBeam ← divide dimBeamQ dimBeamK
  let k ← (if dimBeam > 1 then repeatOp k dimBeam 4 else pure k)
  let v ← (if dimBeam > 1 then repeatOp v dimBeam 4 else pure v)
  pure (k, v)

/-- The part of `Attention` after the broadcast of `k` and `v`: scores, mask, softmax,
dropout and the product with the values. -/
def attend {α : Type} [Field α] (K : Kernels α) (self : DecoderTransformer) (dk : Nat)
    (q k v mask : Tensor α) : Result (Tensor α) := do
  let scale : α := 1 / K.sqrt (dk : α)
  let z ← bdot q k false true scale
  let z ← add z mask
  let weights ← softmax K z
  let dropProb : ℚ := if self.inference_ then 0 else self.options_.transformer_dropout_attention
  let weights ← dropout K weights dropProb
  bdot weights v false false 1

/-- The part of `MultiHead` before the output projection: the attention outputs of the
sources, concatenated along the feature axis when there are several. -/
def MultiHeadConcat {α : Type} [Field α] (K : Kernels α) (self : DecoderTransformer)
    (pre : String) (dimHeads : Nat) (q : Tensor α) (keys values masks : List (Tensor α)) :
    Result (Tensor α) := do
  let dimModel ← dimBack q.shape 1
  let Wq := graphParam K (pre ++ "_Wq") [dimModel, dimModel]
  let bq := graphParam K (pre ++ "_bq") [1, dimModel]
  let qh ← affine q Wq bq
  let qh ← SplitHeads qh dimHeads
  let outputs ← forEach (MultiHeadSource K self pre dimHeads q qh dimModel keys values masks)
    (List.range keys.length)
  (if outputs.length > 1 then concatenate outputs 1
    else orFail outputs.head? (.undefined "front() of an empty vector"))

/-- The end of `MultiHead`, from `int dimAtt = output->shape()[-1]`: the output
projection, or the attention output itself when the projection is skipped. -/
def outputProjection {α : Type} [Field α] (K : Kernels α) (self : DecoderTransformer)
    (pre : String) (dimOut : Nat) (output : Tensor α) : Result (Tensor α) := do
  let dimAtt ← dimBack output.shape 1
  let project := !self.options_.transformer_no_projection
  if project ∨ dimAtt ≠ dimOut then
    let Wo := graphParam K (pre ++ "_Wo") [dimAtt, dimOut]
    let bo := graphParam K (pre ++ "_bo") [1, dimOut]
    affine output Wo bo
  else pure output

/-- The stack of AAN layers in `LayerAAN`, from `int dimAan = ...` to the dense transform
under `if(y->shape()[-1] != dimModel)`. -/
def LayerAANStack {α : Type} [Field α] (K : Kernels α) (self : DecoderTransformer)
    (pre : String) (dimModel : Nat) (actFn : Tensor α → Tensor α) (y : Tensor α) :
    Result (Tensor α) := do
  let dimAan := self.options_.transformer_dim_aan
  let depthAan := self.options_.transformer_aan_depth
  let aanDropProb : ℚ := if self.inference_ then 0 else self.options_.transformer_dropout_ffn
  let y ← denseStack K pre dimAan actFn aanDropProb
    ((List.range (depthAan.toNat - 1)).map (· + 1)) y
  let dimY ← dimBack y.shape 1
  (if dimY ≠ dimModel then dense K y pre (toString depthAan) dimModel none 0
    else pure y)

/-- The end of `LayerAAN`, from `bool noGate = ...`: the gating of the input `x` and the
transformed average `y`, and the post-processing. -/
def LayerAANGate {α : Type} [Field α] (K : Kernels α) (self : DecoderTransformer)
    (pre : String) (dimModel : Nat) (x y : Tensor α) : Result (Tensor α) := do
  let dropProb : ℚ := if self.inference_ then 0 else self.options_.transformer_dropout
  let noGate := self.options_.transformer_aan_nogate
  let y ← (if !noGate then do
      let gi ← dense K x pre "i" dimModel (some (fun t => sigmoid K t)) 0
      let gf ← dense K y pre "f" dimModel (some (fun t => sigmoid K t)) 0
      let gix ← mul gi x
      let gfy ← mul gf y
      add gix gfy
    else pure y)
  let opsPost := self.options_.transformer_postprocess
  postProcess K (pre ++ "_ffn") opsPost y x dropProb

/-- The mask that multiplies the input in the full-sequence branch of `DecoderLayerAAN`:
`selfMask / sum(selfMask, axis=-1)`. -/
def normalizedMask {α : Type} [Field α] (selfMask : Tensor α) : Result (Tensor α) := do
  let total ← sumLast selfMask
  div selfMask total

/-! ## The dense stack as the specification words it -/

/-- Specification of one transform of a feed-forward stack (§4.4): of `depth` dense
transforms, transform `i < depth` maps to the hidden width and applies the activation and
the dropout, and transform `depth` maps back to the model width with no activation and no
dropout; the parameters of transform `i` carry the suffix `i`. -/
def specDenseTransform {α : Type} [Field α] (K : Kernels α) (pre : String)
    (dimHidden dimModel : Nat) (actFn : Tensor α → Tensor α) (dropProb : ℚ) (depth i : Nat)
    (x : Tensor α) : Result (Tensor α) :=
  if i < depth then dense K x pre (toString i) dimHidden (some actFn) dropProb
  else dense K x pre (toString i) dimModel none 0

/-- Specification of the feed-forward stack (§4.4): the `depth` dense transforms with
suffixes `1, ..., depth`, in this order. -/
def specDenseStack {α : Type} [Field α] (K : Kernels α) (pre : String)
    (dimHidden dimModel : Nat) (actFn : Tensor α → Tensor α) (dropProb : ℚ) (depth : Nat) :
    List (Tensor α → Result (Tensor α)) :=
  (List.range depth).map
    (fun j => specDenseTransform K pre dimHidden dimModel actFn dropProb depth (j + 1))

/-- The transforms of a list applied one after the other, up to the first that fails. -/
def applyAll {α : Type} : List (Tensor α → Result (Tensor α)) → Tensor α → Result (Tensor α)
  | [], x => .ok x
  | f :: fs, x =>
    match f x with
    | .error e => .error e
    | .ok y => applyAll fs y

/-! ## Shapes of the sources of `MultiHead` -/

/-- The mask can be added to attention scores of the given shape without changing that
shape: it has as many axes as the scores and, on every axis, one entry or as many entries
as the scores. -/
def FitsScores {α : Type} (mask : Tensor α) (scores : List Nat) : Prop :=
  List.Forall₂ (fun s m => m = 1 ∨ m = s) scores mask.shape

/-- The `i`-th key/value source of `MultiHead` is well shaped for a query of shape
`[beam, batch, Tq, dimModel]` split into `dimHeads` heads. -/
def SourceShaped {α : Type} (dimHeads beam batch Tq dimModel : Nat)
    (key value mask : Tensor α) : Prop :=
  ∃ bk ck L, key.shape = [bk, ck, L, dimModel] ∧ value.shape = [bk, ck, L, dimModel] ∧
    1 ≤ ck * bk ∧ ck * bk ∣ batch * beam ∧
    FitsScores mask [batch * beam, dimHeads, Tq, L]

/-! ## A decoder without layers -/

/-- A decoder in inference mode without decoder layers, configured with an autoregressive
layer type that is not a known one. -/
def exampleDecoderNoLayers : DecoderTransformer :=
  { exampleDecoder with
    options_ := { exampleOptions with dec_depth := 0, transformer_decoder_autoreg := "rnn" } }

/-- The start state of `exampleDecoderNoLayers` on graph 7, given the embedding of one
token of width 4 for one hypothesis. -/
def exampleStartNoLayers : TransformerState ℚ :=
  { (exampleDecoderNoLayers.startState 7 0 []).2 with
    targetEmbeddings_ := some { shape := [1, 1, 1, 4], data := [1, 2, 3, 4] } }

/-! ## States reached by `step` and `select` -/

/-- The states reached from `startState` by calls of `step` and `select` in any order, each
`step` on the last state given any target embeddings and any target mask.  The index counts
the calls of `step`. -/
inductive Reached {α : Type} [Field α] (K : Kernels α) (dec : DecoderTransformer)
    (graph batch : Nat) (encStates : List (EncoderState α)) :
    Nat → DecoderTransformer → TransformerState α → Prop
  | start :
      Reached K dec graph batch encStates 0 (dec.startState graph batch encStates).1
        (dec.startState graph batch encStates).2
  | step {n : Nat} {d d' : DecoderTransformer} {st stAfter st' : TransformerState α}
      (emb : Expr α) (mask : Expr α) :
      Reached K dec graph batch encStates n d st →
      d.step K graph { st with targetEmbeddings_ := emb, targetMask_ := mask }
        = .ok (d', stAfter, st') →
      Reached K dec graph batch encStates (n + 1) d' st'
  | select {n : Nat} {d : DecoderTransformer} {st st' : TransformerState α}
      (selIdx : List Nat) (beamSize : Nat) :
      Reached K dec graph batch encStates n d st →
      st.select selIdx beamSize = .ok st' →
      Reached K dec graph batch encStates n d st'

/-! ## Kernels with parameters that differ from entry to entry -/

/-- Kernels over the rationals that differ from `exampleKernels` in the parameters: the
parameter of any name and shape holds the value `i` at entry `i`. -/
def indexedKernels : Kernels ℚ :=
  { exampleKernels with
    param := fun _ s => (List.range (elements s)).map (fun i => (i : ℚ)) }

/-! ## Facts on results -/

theorem bind_eq_ok {β γ : Type} (x : Result β) (f : β → Result γ) (y : γ) :
    (x >>= f) = .ok y ↔ ∃ a, x = .ok a ∧ f a = .ok y := by
  cases x with
  | error e => simp [bind, Except.bind]
  | ok a => simp [bind, Except.bind]

theorem orFail_eq_ok {β : Type} (o : Option β) (e : Failure) (a : β) :
    orFail o e = .ok a ↔ o = some a := by
  cases o with
  | none => simp [orFail]
  | some b => simp [orFail]

theorem deref_eq_ok {α : Type} (e : Expr α) (t : Tensor α) : deref e = .ok t ↔ e = some t := by
  cases e with
  | none => simp [deref]
  | some b => simp [deref]

/-! ## Auxiliary facts on lists and loops -/

theorem getElem?_flatMap_chunks {β γ : Type} (f : β → List γ) (n : Nat) :
    ∀ (l : List β), (∀ x ∈ l, (f x).length = n) → ∀ (k j : Nat) (x : β),
      l[k]? = some x → j < n → (l.flatMap f)[k * n + j]? = (f x)[j]?
  | [], _, k, j, x, hk, _ => by simp at hk
  | a :: l, hl, 0, j, x, hk, hj => by
      have hx : a = x := by simpa using hk
      subst hx
      have hlen : (f a).length = n := hl a (List.mem_cons_self _ _)
      rw [List.flatMap_cons, Nat.zero_mul, Nat.zero_add,
        List.getElem?_append_left (by omega)]
  | a :: l, hl, k + 1, j, x, hk, hj => by
      have hlen : (f a).length = n := hl a (List.mem_cons_self _ _)
      have hk' : l[k]? = some x := by simpa using hk
      have ih := getElem?_flatMap_chunks f n l
        (fun y hy => hl y (List.mem_cons_of_mem _ hy)) k j x hk' hj
      rw [List.flatMap_cons, List.getElem?_append_right (by rw [hlen, Nat.succ_mul]; omega)]
      have : (k + 1) * n + j - (f a).length = k * n + j := by
        rw [hlen, Nat.succ_mul]; omega
      rw [this, ih]

theorem length_flatMap_chunks {β γ : Type} (f : β → List γ) (n : Nat) :
    ∀ (l : List β), (∀ x ∈ l, (f x).length = n) → (l.flatMap f).length = l.length * n
  | [], _ => by simp
  | a :: l, hl => by
      rw [List.flatMap_cons, List.length_append, hl a (List.mem_cons_self _ _),
        length_flatMap_chunks f n l (fun y hy => hl y (List.mem_cons_of_mem _ hy)),
        List.length_cons, Nat.succ_mul, Nat.add_comm]

theorem forEach_ok_cons {β γ : Type} (f : β → Result γ) (a : β) (l : List β) (r : List γ)
    (h : forEach f (a :: l) = .ok r) :
    ∃ y ys, f a = .ok y ∧ forEach f l = .ok ys ∧ r = y :: ys := by
  unfold forEach at h
  cases hfa : f a with
  | error e => rw [hfa] at h; cases h
  | ok y =>
    rw [hfa] at h
    cases hrest : forEach f l with
    | error e => rw [hrest] at h; cases h
    | ok ys =>
      rw [hrest] at h
      exact ⟨y, ys, rfl, rfl, by cases h; rfl⟩

theorem forEach_ok_length {β γ : Type} (f : β → Result γ) :
    ∀ (l : List β) (r : List γ), forEach f l = .ok r → r.length = l.length
  | [], r, h => by
      unfold forEach at h
      cases h; rfl
  | a :: l, r, h => by
      obtain ⟨y, ys, _, hys, rfl⟩ := forEach_ok_cons f a l r h
      simp [forEach_ok_length f l ys hys]

theorem forEach_ok_getElem? {β γ : Type} (f : β → Result γ) :
    ∀ (l : List β) (r : List γ), forEach f l = .ok r → ∀ (i : Nat) (x : β) (y : γ),
      l[i]? = some x → r[i]? = some y → f x = .ok y
  | [], r, _, i, x, y, hx, _ => by simp at hx
  | a :: l, r, h, i, x, y, hx, hy => by
      obtain ⟨z, ys, hz, hys, rfl⟩ := forEach_ok_cons f a l r h
      cases i with
      | zero =>
        simp at hx hy
        subst hx; subst hy; exact hz
      | succ i =>
        simp at hx hy
        exact forEach_ok_getElem? f l ys hys i x y hx hy

theorem forEach_ok_of_forall {β γ : Type} (f : β → Result γ) :
    ∀ (l : List β), (∀ x ∈ l, ∃ y, f x = .ok y) → ∃ r, forEach f l = .ok r
  | [], _ => ⟨[], by unfold forEach; rfl⟩
  | a :: l, h => by
      obtain ⟨y, hy⟩ := h a (List.mem_cons_self _ _)
      obtain ⟨ys, hys⟩ := forEach_ok_of_forall f l (fun x hx => h x (List.mem_cons_of_mem _ hx))
      exact ⟨y :: ys, by unfold forEach; rw [hy, hys]⟩


/-! ## Facts on the engine operations -/

@[simp] theorem dimBack_four_1 (a b c d : Nat) : dimBack [a, b, c, d] 1 = .ok d := by
  simp [dimBack]

@[simp] theorem dimBack_four_2 (a b c d : Nat) : dimBack [a, b, c, d] 2 = .ok c := by
  simp [dimBack]

@[simp] theorem dimBack_four_3 (a b c d : Nat) : dimBack [a, b, c, d] 3 = .ok b := by
  simp [dimBack]

@[simp] theorem dimBack_four_4 (a b c d : Nat) : dimBack [a, b, c, d] 4 = .ok a := by
  simp [dimBack]

theorem elements_four (a b c d : Nat) : elements [a, b, c, d] = a * b * c * d := by
  simp [elements, Nat.mul_assoc]

theorem flatten_2d_four {α : Type} (t : Tensor α) (a b c d : Nat) (hs : t.shape = [a, b, c, d])
    (hd : 0 < d) : flatten_2d t = .ok { shape := [a * b * c, d], data := t.data } := by
  have hne : d ≠ 0 := by omega
  have hel : a * b * c * d = elements [a * b * c * d / d, d] := by
    rw [Nat.mul_div_cancel _ hd]
    simp [elements]
  simp only [flatten_2d, hs, dimBack_four_1, bind, Except.bind, divide, if_neg hne, reshape]
  rw [elements_four a b c d, if_pos hel,
    Nat.mul_div_cancel _ hd]

theorem flatten_2d_four_zero {α : Type} (t : Tensor α) (a b c : Nat) (hs : t.shape = [a, b, c, 0]) :
    flatten_2d t = .error (.undefined "division by zero") := by
  simp [flatten_2d, hs, bind, Except.bind, divide]

theorem selectRows_getElem? (selIdx : List Nat) (T k j i : Nat) (hk : selIdx[k]? = some i)
    (hj : j < T) : (selectRows selIdx T)[k * T + j]? = some (i * T + j) := by
  unfold selectRows
  rw [getElem?_flatMap_chunks _ T selIdx (by intro x _; simp) k j i hk hj]
  simp [List.getElem?_range hj]

theorem selectRows_length (selIdx : List Nat) (T : Nat) :
    (selectRows selIdx T).length = selIdx.length * T := by
  unfold selectRows
  exact length_flatMap_chunks _ T selIdx (by intro x _; simp)

theorem selectRows_lt (selIdx : List Nat) (T n : Nat) (h : ∀ i ∈ selIdx, i < n) :
    ∀ r ∈ selectRows selIdx T, r < n * T := by
  intro r hr
  unfold selectRows at hr
  simp only [List.mem_flatMap, List.mem_map, List.mem_range] at hr
  obtain ⟨i, hi, j, hj, rfl⟩ := hr
  have := h i hi
  calc i * T + j < i * T + T := by omega
    _ = (i + 1) * T := by rw [Nat.succ_mul]
    _ ≤ n * T := Nat.mul_le_mul_right T this

theorem rows_ok {α : Type} (t : Tensor α) (n cols : Nat) (indices : List Nat)
    (hs : t.shape = [n, cols]) (hi : ∀ r ∈ indices, r < n) :
    rows t indices = .ok (Tensor.mk [indices.length, cols]
      (indices.flatMap (fun i => (t.data.drop (i * cols)).take cols))) := by
  unfold rows
  rw [hs]
  have : indices.all (fun i => decide (i < n)) = true := by
    rw [List.all_eq_true]; intro x hx; simpa using hi x hx
  simp [this]

theorem rows_data_getElem? {α : Type} (data : List α) (n cols : Nat) (indices : List Nat)
    (hlen : data.length = n * cols) (hi : ∀ r ∈ indices, r < n) (q r d : Nat)
    (hq : indices[q]? = some r) (hd : d < cols) :
    (indices.flatMap (fun i => (data.drop (i * cols)).take cols))[q * cols + d]?
      = data[r * cols + d]? := by
  have hchunk : ∀ x ∈ indices, ((data.drop (x * cols)).take cols).length = cols := by
    intro x hx
    have hxn := hi x hx
    have : (x + 1) * cols ≤ n * cols := Nat.mul_le_mul_right cols hxn
    rw [Nat.succ_mul] at this
    simp only [List.length_take, List.length_drop, hlen]
    omega
  rw [getElem?_flatMap_chunks _ cols indices hchunk q d r hq hd]
  rw [List.getElem?_take, if_pos hd, List.getElem?_drop]


/-! ## Facts on `select` -/

theorem select_ok_elim {α : Type} (st st' : TransformerState α) (selIdx : List Nat)
    (beamSize : Nat) (h : st.select selIdx beamSize = .ok st') :
    ∃ (s : State α) (rest : List (State α)) (first : Tensor α) (dimDepth dimTime : Nat)
      (selected : List (State α)),
      st.states_ = s :: rest ∧ s.output = some first ∧
      dimBack first.shape 1 = .ok dimDepth ∧ dimBack first.shape 2 = .ok dimTime ∧
      beamSize ≠ 0 ∧
      forEach (selectState (selectRows selIdx dimTime) beamSize (selIdx.length / beamSize)
        dimTime dimDepth) st.states_ = .ok selected ∧
      st' = (TransformerState.new selected st.probs_ st.encStates_ st.batch_).setPosition
        st.getPosition := by
  unfold TransformerState.select at h
  rw [bind_eq_ok] at h
  obtain ⟨s, hs, h⟩ := h
  rw [bind_eq_ok] at h
  obtain ⟨first, hfirst, h⟩ := h
  rw [bind_eq_ok] at h
  obtain ⟨dimDepth, hd, h⟩ := h
  rw [bind_eq_ok] at h
  obtain ⟨dimTime, ht, h⟩ := h
  rw [bind_eq_ok] at h
  obtain ⟨dimBatch, hbatch, h⟩ := h
  rw [bind_eq_ok] at h
  obtain ⟨selected, hf, h⟩ := h
  rw [orFail_eq_ok] at hs
  rw [deref_eq_ok] at hfirst
  unfold divide at hbatch
  by_cases hb : beamSize = 0
  · rw [if_pos hb] at hbatch; cases hbatch
  · rw [if_neg hb] at hbatch
    cases hbatch
    cases hst : st.states_ with
    | nil => rw [hst] at hs; simp at hs
    | cons s0 rest =>
      rw [hst] at hs
      simp only [List.getElem?_cons_zero, Option.some.injEq] at hs
      subst hs
      refine ⟨s0, rest, first, dimDepth, dimTime, selected, rfl, hfirst, hd, ht, hb, ?_, ?_⟩
      · rw [← hst]; exact hf
      · cases h; rfl

theorem select_ok_intro {α : Type} (st : TransformerState α) (selIdx : List Nat)
    (beamSize : Nat) (s : State α) (rest : List (State α)) (first : Tensor α)
    (dimDepth dimTime : Nat) (selected : List (State α))
    (hst : st.states_ = s :: rest) (hout : s.output = some first)
    (hd : dimBack first.shape 1 = .ok dimDepth) (ht : dimBack first.shape 2 = .ok dimTime)
    (hb : beamSize ≠ 0)
    (hf : forEach (selectState (selectRows selIdx dimTime) beamSize (selIdx.length / beamSize)
        dimTime dimDepth) st.states_ = .ok selected) :
    st.select selIdx beamSize
      = .ok ((TransformerState.new selected st.probs_ st.encStates_ st.batch_).setPosition
        st.getPosition) := by
  unfold TransformerState.select
  have h0 : orFail st.states_[0]? (.undefined "states_[0] of an empty vector") = .ok s := by
    rw [hst]; simp [orFail]
  simp only [h0, hout, deref, bind, Except.bind, hd, ht, divide, if_neg hb, pure, Except.pure,
    hf]

/-- What `selectState` computes on a cache of shape `[beam, batch, T, D]` with `0 < D`. -/
theorem selectState_four {α : Type} (state : State α) (orig : Tensor α)
    (beam batch T D beamSize dimBatch : Nat) (selIdx : List Nat)
    (hout : state.output = some orig) (hs : orig.shape = [beam, batch, T, D]) (hD : 0 < D)
    (hidx : ∀ i ∈ selIdx, i < beam * batch) :
    selectState (selectRows selIdx T) beamSize dimBatch T D state
      = if selIdx.length * T * D = beamSize * dimBatch * T * D then
          .ok { output := some (Tensor.mk [beamSize, dimBatch, T, D]
                  ((selectRows selIdx T).flatMap (fun i => (orig.data.drop (i * D)).take D))),
                cell := none }
        else .error (.abort "Reshape must not change the number of elements") := by
  unfold selectState
  simp only [hout, deref, bind, Except.bind]
  rw [flatten_2d_four orig beam batch T D hs hD]
  simp only []
  rw [rows_ok _ (beam * batch * T) D (selectRows selIdx T) rfl
    (selectRows_lt selIdx T (beam * batch) hidx)]
  simp only [reshape, selectRows_length, elements_four]
  have : elements [selIdx.length * T, D] = selIdx.length * T * D := by simp [elements]
  rw [this]
  by_cases hc : selIdx.length * T * D = beamSize * dimBatch * T * D
  · simp only [if_pos hc]; rfl
  · simp only [if_neg hc]


theorem select_ok_shaped {α : Type} (st st' : TransformerState α) (beam batch T D : Nat)
    (selIdx : List Nat) (beamSize : Nat) (hst : CachesShaped st beam batch T D)
    (h : st.select selIdx beamSize = .ok st') :
    beamSize ≠ 0 ∧ st.states_ ≠ [] ∧ st'.position_ = st.position_ ∧
    st'.states_.length = st.states_.length ∧
    ∀ (l : Nat) (s s' : State α), st.states_[l]? = some s → st'.states_[l]? = some s' →
      selectState (selectRows selIdx T) beamSize (selIdx.length / beamSize) T D s = .ok s' := by
  obtain ⟨s, rest, first, dimDepth, dimTime, selected, hs, hout, hd, ht, hb, hf, rfl⟩ :=
    select_ok_elim st st' selIdx beamSize h
  obtain ⟨t, ht1, ht2, -⟩ := hst s (by rw [hs]; exact List.mem_cons_self _ _)
  rw [hout] at ht1
  cases ht1
  rw [ht2, dimBack_four_1] at hd
  rw [ht2, dimBack_four_2] at ht
  cases hd; cases ht
  refine ⟨hb, by rw [hs]; simp, rfl, forEach_ok_length _ _ _ hf, ?_⟩
  intro l s1 s1' h1 h2
  exact forEach_ok_getElem? _ _ _ hf l s1 s1' h1 h2

theorem select_returns {α : Type} (st : TransformerState α) (beam batch T D : Nat)
    (selIdx : List Nat) (beamSize : Nat) (hst : CachesShaped st beam batch T D)
    (hbeam : 1 ≤ beamSize) (hdiv : beamSize ∣ selIdx.length)
    (hidx : ∀ i ∈ selIdx, i < beam * batch) (hne : st.states_ ≠ []) (hD : 0 < D) :
    (st.select selIdx beamSize).isOk = true := by
  have hmul : beamSize * (selIdx.length / beamSize) = selIdx.length :=
    Nat.mul_div_cancel' hdiv
  cases hs : st.states_ with
  | nil => exact absurd hs hne
  | cons s rest =>
    obtain ⟨t, ht1, ht2, -⟩ := hst s (by rw [hs]; exact List.mem_cons_self _ _)
    obtain ⟨selected, hsel⟩ := forEach_ok_of_forall
      (selectState (selectRows selIdx T) beamSize (selIdx.length / beamSize) T D) st.states_
      (by
        intro x hx
        obtain ⟨tx, hx1, hx2, -⟩ := hst x hx
        rw [selectState_four x tx beam batch T D beamSize _ selIdx hx1 hx2 hD hidx,
          if_pos (by rw [hmul])]
        exact ⟨_, rfl⟩)
    rw [select_ok_intro st selIdx beamSize s rest t D T selected hs ht1
      (by rw [ht2, dimBack_four_1]) (by rw [ht2, dimBack_four_2]) (by omega) hsel]
    rfl

/-- C1: on a state whose layer caches have shape `[beam, batch, T, D]`, for `beamSize >= 1`
and an index list whose length is a multiple of `beamSize` with entries below `beam * batch`,
every cache returned by `select` has shape `[beamSize, len / beamSize, T, D]` and, viewed as
`[len, T, D]`, holds at `[k][j]` the row `[selIdx[k]][j]` of the original viewed as
`[beam * batch, T, D]`; `select` returns when the state has a cache and `D > 0`. -/
theorem select_gathers_hypotheses {α : Type} (st : TransformerState α) (beam batch T D : Nat)
    (selIdx : List Nat) (beamSize : Nat) (hst : CachesShaped st beam batch T D)
    (hbeam : 1 ≤ beamSize) (hdiv : beamSize ∣ selIdx.length)
    (hidx : ∀ i ∈ selIdx, i < beam * batch) :
    (st.states_ ≠ [] → 0 < D → (st.select selIdx beamSize).isOk = true) ∧
    ∀ st', st.select selIdx beamSize = .ok st' →
      st'.states_.length = st.states_.length ∧
      ∀ (l : Nat) (s s' : State α), st.states_[l]? = some s → st'.states_[l]? = some s' →
        ∃ orig sel, s.output = some orig ∧ s'.output = some sel ∧
          sel.shape = [beamSize, selIdx.length / beamSize, T, D] ∧
          ∀ k j d i, selIdx[k]? = some i → j < T → d < D →
            (i * T + j) * D + d < orig.data.length ∧
            sel.data[(k * T + j) * D + d]? = orig.data[(i * T + j) * D + d]? := by
  have hmul : beamSize * (selIdx.length / beamSize) = selIdx.length :=
    Nat.mul_div_cancel' hdiv
  constructor
  · intro hne hD
    exact select_returns st beam batch T D selIdx beamSize hst hbeam hdiv hidx hne hD
  · intro st' h
    obtain ⟨-, -, -, hlen, hall⟩ := select_ok_shaped st st' beam batch T D selIdx beamSize hst h
    refine ⟨hlen, ?_⟩
    intro l s s' hl hl'
    have hsel := hall l s s' hl hl'
    obtain ⟨orig, ho1, ho2, ho3⟩ := hst s (List.mem_iff_getElem?.mpr ⟨l, hl⟩)
    by_cases hD : 0 < D
    · rw [selectState_four s orig beam batch T D beamSize _ selIdx ho1 ho2 hD hidx,
        if_pos (by rw [hmul])] at hsel
      cases hsel
      refine ⟨orig, _, ho1, rfl, rfl, ?_⟩
      intro k j d i hk hj hd
      have hdata : orig.data.length = beam * batch * T * D := by
        rw [ho3, ho2]; simp [Nat.mul_assoc]
      have hi : i < beam * batch := hidx i (List.mem_iff_getElem?.mpr ⟨k, hk⟩)
      have hr : i * T + j < beam * batch * T := by
        calc i * T + j < i * T + T := by omega
          _ = (i + 1) * T := by rw [Nat.succ_mul]
          _ ≤ beam * batch * T := Nat.mul_le_mul_right T hi
      constructor
      · calc (i * T + j) * D + d < (i * T + j) * D + D := by omega
          _ = (i * T + j + 1) * D := by rw [Nat.succ_mul]
          _ ≤ beam * batch * T * D := Nat.mul_le_mul_right D hr
          _ = orig.data.length := hdata.symm
      · exact rows_data_getElem? orig.data (beam * batch * T) D (selectRows selIdx T) hdata
          (selectRows_lt selIdx T (beam * batch) hidx) (k * T + j) (i * T + j) d
          (selectRows_getElem? selIdx T k j i hk hj) hd
    · have hD0 : D = 0 := by omega
      subst hD0
      unfold selectState at hsel
      simp only [ho1, deref, bind, Except.bind, flatten_2d_four_zero orig beam batch T ho2] at hsel
      cases hsel


theorem selectRows_range (n T : Nat) : selectRows (List.range n) T = List.range (n * T) := by
  induction n with
  | zero => simp [selectRows]
  | succ n ih =>
    unfold selectRows at ih ⊢
    rw [List.range_succ, List.flatMap_append, ih, Nat.succ_mul, List.range_add]
    simp [Nat.add_comm]

theorem flatMap_chunks_range {α : Type} (data : List α) (D : Nat) :
    ∀ (m : Nat), (List.range m).flatMap (fun r => (data.drop (r * D)).take D)
      = data.take (m * D)
  | 0 => by simp
  | m + 1 => by
      rw [List.range_succ, List.flatMap_append, flatMap_chunks_range data D m, Nat.succ_mul,
        List.take_add]
      simp

/-- C2: on a state whose layer caches have shape `[beam, batch, T, D]`, `select` with
`selIdx = [0, ..., beam*batch-1]` and `beamSize = beam` returns a state whose every
layer cache is the original cache, same shape and same entries; it returns when the
state has a cache and `beam`, `D` are positive. -/
theorem select_identity {α : Type} (st : TransformerState α) (beam batch T D : Nat)
    (hst : CachesShaped st beam batch T D) :
    (st.states_ ≠ [] → 0 < beam → 0 < D →
      (st.select (List.range (beam * batch)) beam).isOk = true) ∧
    ∀ st', st.select (List.range (beam * batch)) beam = .ok st' →
      st'.states_.map State.output = st.states_.map State.output := by
  have hidx : ∀ i ∈ List.range (beam * batch), i < beam * batch := by
    intro i hi; simpa using hi
  constructor
  · intro hne hbeam hD
    exact select_returns st beam batch T D (List.range (beam * batch)) beam hst hbeam (by simp)
      hidx hne hD
  · intro st' h
    obtain ⟨hb, -, -, hlen, hall⟩ :=
      select_ok_shaped st st' beam batch T D (List.range (beam * batch)) beam hst h
    have hbeam : 0 < beam := by omega
    apply List.ext_getElem?
    intro l
    rw [List.getElem?_map, List.getElem?_map]
    cases hl : st.states_[l]? with
    | none =>
      have : st'.states_[l]? = none := by
        rw [List.getElem?_eq_none_iff] at hl ⊢; omega
      rw [this]
    | some s =>
      have hlt : l < st'.states_.length := by
        rw [hlen]
        by_contra hcon
        rw [List.getElem?_eq_none_iff.mpr (by omega)] at hl
        cases hl
      rw [List.getElem?_eq_getElem hlt]
      have hsel := hall l s _ hl (List.getElem?_eq_getElem hlt)
      obtain ⟨orig, ho1, ho2, ho3⟩ := hst s (List.mem_iff_getElem?.mpr ⟨l, hl⟩)
      by_cases hD : 0 < D
      · rw [selectState_four s orig beam batch T D beam _ (List.range (beam * batch)) ho1 ho2
          hD hidx, List.length_range, Nat.mul_div_cancel_left _ hbeam, if_pos rfl,
          selectRows_range, flatMap_chunks_range] at hsel
        have hdata : orig.data.length = beam * batch * T * D := by
          rw [ho3, ho2]; simp [Nat.mul_assoc]
        rw [List.take_of_length_le (by omega)] at hsel
        have hsel' := (Except.ok.inj hsel).symm
        rw [hsel']
        simp only [Option.map_some', ho1]
        congr 1
        cases orig
        simp only at ho2
        rw [ho2]
      · have hD0 : D = 0 := by omega
        subst hD0
        unfold selectState at hsel
        simp only [ho1, deref, bind, Except.bind, flatten_2d_four_zero orig beam batch T ho2]
          at hsel
        cases hsel

/-- C9: whenever `select` returns, the returned state has the position counter of the input
state, and its logits, encoder states and batch reference. -/
theorem select_frame {α : Type} (st st' : TransformerState α) (selIdx : List Nat)
    (beamSize : Nat) (h : st.select selIdx beamSize = .ok st') :
    st'.getPosition = st.getPosition ∧ st'.probs_ = st.probs_ ∧
    st'.encStates_ = st.encStates_ ∧ st'.batch_ = st.batch_ := by
  obtain ⟨s, rest, first, dimDepth, dimTime, selected, -, -, -, -, -, -, rfl⟩ :=
    select_ok_elim st st' selIdx beamSize h
  exact ⟨rfl, rfl, rfl, rfl⟩


/-! ## Facts on `triangleMask` -/

theorem triangleRow_length {α : Type} [One α] (base : Nat) :
    ∀ (m : Nat) (v : List α),
      ((List.range m).foldl (fun vMask j => vMask.set (base + j) 1) v).length = v.length
  | 0, v => by simp
  | m + 1, v => by
      rw [List.range_succ, List.foldl_append]
      simp [triangleRow_length base m v]

theorem triangleRow_getElem? {α : Type} [One α] (base : Nat) :
    ∀ (m : Nat) (v : List α) (q : Nat), q < v.length →
      ((List.range m).foldl (fun vMask j => vMask.set (base + j) 1) v)[q]?
        = if base ≤ q ∧ q < base + m then some 1 else v[q]?
  | 0, v, q, _ => by
      have : ¬ (base ≤ q ∧ q < base + 0) := by omega
      rw [if_neg this]
      rfl
  | m + 1, v, q, hq => by
      rw [List.range_succ, List.foldl_append]
      simp only [List.foldl_cons, List.foldl_nil]
      rw [List.getElem?_set, triangleRow_length, triangleRow_getElem? base m v q hq]
      by_cases h1 : base + m = q
      · have : base ≤ q ∧ q < base + (m + 1) := by omega
        simp [h1, this, hq]
      · by_cases h2 : base ≤ q ∧ q < base + m
        · have : base ≤ q ∧ q < base + (m + 1) := by omega
          simp [h1, h2, this]
        · have : ¬ (base ≤ q ∧ q < base + (m + 1)) := by omega
          simp [h1, h2, this]

/-- The buffer after the first `n` rows of the fill loop. -/
theorem triangleFill_spec {α : Type} [Zero α] [One α] (L : Nat) :
    ∀ (n : Nat), n ≤ L →
      ((List.range n).foldl
        (fun vMask i => (List.range (i + 1)).foldl (fun vMask j => vMask.set (i * L + j) 1) vMask)
        (List.replicate (L * L) (0 : α))).length = L * L ∧
      ∀ i j, i < L → j < L →
        ((List.range n).foldl
          (fun vMask i => (List.range (i + 1)).foldl (fun vMask j => vMask.set (i * L + j) 1) vMask)
          (List.replicate (L * L) (0 : α)))[i * L + j]?
          = some (if i < n ∧ j ≤ i then 1 else 0)
  | 0, _ => by
      refine ⟨by simp, ?_⟩
      intro i j hi hj
      have hlt : i * L + j < L * L := by
        calc i * L + j < i * L + L := by omega
          _ = (i + 1) * L := by rw [Nat.succ_mul]
          _ ≤ L * L := Nat.mul_le_mul_right L hi
      simp [List.getElem?_replicate, hlt]
  | n + 1, hn => by
      obtain ⟨hlen, ih⟩ := @triangleFill_spec α _ _ L n (by omega)
      rw [List.range_succ, List.foldl_append]
      simp only [List.foldl_cons, List.foldl_nil]
      refine ⟨by rw [triangleRow_length, hlen], ?_⟩
      intro i j hi hj
      have hlt : i * L + j < L * L := by
        calc i * L + j < i * L + L := by omega
          _ = (i + 1) * L := by rw [Nat.succ_mul]
          _ ≤ L * L := Nat.mul_le_mul_right L hi
      rw [triangleRow_getElem? (n * L) (n + 1) _ (i * L + j) (by rw [hlen]; exact hlt), ih i j hi hj]
      rcases Nat.lt_trichotomy i n with hlt' | heq | hgt
      · have h1 : (i + 1) * L ≤ n * L := Nat.mul_le_mul_right L hlt'
        rw [Nat.succ_mul] at h1
        have : ¬ (n * L ≤ i * L + j ∧ i * L + j < n * L + (n + 1)) := by omega
        rw [if_neg this]
        by_cases hj' : j ≤ i
        · rw [if_pos ⟨hlt', hj'⟩, if_pos ⟨by omega, hj'⟩]
        · rw [if_neg (fun h => hj' h.2), if_neg (fun h => hj' h.2)]
      · subst heq
        by_cases hj' : j ≤ i
        · have : i * L ≤ i * L + j ∧ i * L + j < i * L + (i + 1) := by omega
          rw [if_pos this, if_pos ⟨by omega, hj'⟩]
        · have : ¬ (i * L ≤ i * L + j ∧ i * L + j < i * L + (i + 1)) := by omega
          rw [if_neg this, if_neg (fun h => hj' h.2), if_neg (fun h => hj' h.2)]
      · have h1 : (n + 1) * L ≤ i * L := Nat.mul_le_mul_right L hgt
        rw [Nat.succ_mul] at h1
        have : ¬ (n * L ≤ i * L + j ∧ i * L + j < n * L + (n + 1)) := by omega
        have h2 : ¬ (i < n + 1 ∧ j ≤ i) := by omega
        have h3 : ¬ (i < n ∧ j ≤ i) := by omega
        rw [if_neg this, if_neg h2, if_neg h3]

theorem triangleMask_lower_triangular_aux {α : Type} [Zero α] [One α] (L i j : Nat)
    (hi : i < L) (hj : j < L) :
    (triangleMaskBuffer L : List α)[i * L + j]? = some (if j ≤ i then 1 else 0) ∧
    (triangleMaskBuffer L : List α).length = L * L := by
  obtain ⟨hlen, h⟩ := @triangleFill_spec α _ _ L L (Nat.le_refl L)
  refine ⟨?_, hlen⟩
  have := h i j hi hj
  simp only [hi, true_and] at this
  exact this

/-- C3: for every `L` the buffer of `triangleMask L` has `L * L` entries, and for all
`i, j < L` the entry at flat index `i * L + j` is 1 if `j <= i` and 0 otherwise. -/
theorem triangleMask_lower_triangular {α : Type} [Zero α] [One α] (L : Nat) :
    (triangleMask L : Tensor α).data.length = L * L ∧
    ∀ i j, i < L → j < L →
      (triangleMask L : Tensor α).data[i * L + j]? = some (if j ≤ i then 1 else 0) :=
  ⟨(@triangleFill_spec α _ _ L L (Nat.le_refl L)).1,
    fun i j hi hj => (triangleMask_lower_triangular_aux L i j hi hj).1⟩

/-! ## Failures of the sublayer wrappers -/

theorem AbortsOnly.ok {β : Type} (a : β) : AbortsOnly (.ok a : Result β) := by
  intro e h; cases h

theorem AbortsOnly.pure {β : Type} (a : β) : AbortsOnly (pure a : Result β) := by
  intro e h; cases h

theorem AbortsOnly.abort {β : Type} (msg : String) :
    AbortsOnly (.error (.abort msg) : Result β) := by
  intro e h; cases h; rfl

theorem AbortsOnly.bind {β γ : Type} {x : Result β} {f : β → Result γ}
    (hx : AbortsOnly x) (hf : ∀ a, AbortsOnly (f a)) : AbortsOnly (x >>= f) := by
  cases x with
  | error e =>
    intro e' h
    have h' : (Except.error e : Result γ) = .error e' := h
    cases h'
    exact hx e rfl
  | ok a => exact hf a

theorem AbortsOnly.ite {β : Type} {c : Prop} [Decidable c] {x y : Result β}
    (hx : AbortsOnly x) (hy : AbortsOnly y) : AbortsOnly (if c then x else y) := by
  split
  · exact hx
  · exact hy

theorem dimBack_abortsOnly (s : List Nat) (k : Nat) : AbortsOnly (dimBack s k) := by
  unfold dimBack
  split
  · exact AbortsOnly.abort _
  · split
    · exact AbortsOnly.ok _
    · exact AbortsOnly.abort _

theorem broadcastDims_abortsOnly : ∀ (a b : List Nat), AbortsOnly (broadcastDims a b)
  | [], [] => AbortsOnly.ok _
  | [], _ :: _ => AbortsOnly.abort _
  | _ :: _, [] => AbortsOnly.abort _
  | x :: xs, y :: ys => by
      unfold broadcastDims
      have ih := broadcastDims_abortsOnly xs ys
      cases h : broadcastDims xs ys with
      | error e => intro e' he; cases he; exact ih e h
      | ok rest =>
        simp only
        repeat' apply AbortsOnly.ite
        all_goals first | exact AbortsOnly.ok _ | exact AbortsOnly.abort _

theorem zipWithB_abortsOnly {α : Type} [Zero α] (f : α → α → α) (a b : Tensor α) :
    AbortsOnly (zipWithB f a b) := by
  unfold zipWithB
  have := broadcastDims_abortsOnly (padShape (max a.shape.length b.shape.length) a.shape)
    (padShape (max a.shape.length b.shape.length) b.shape)
  unfold broadcastShape
  cases h : broadcastDims (padShape (max a.shape.length b.shape.length) a.shape)
      (padShape (max a.shape.length b.shape.length) b.shape) with
  | error e => intro e' he; cases he; exact this e h
  | ok s => exact AbortsOnly.ok _

theorem dropout_abortsOnly {α : Type} [Field α] (K : Kernels α) (x : Tensor α) (p : ℚ) :
    AbortsOnly (dropout K x p) := by
  unfold dropout dropoutShaped
  split
  · exact AbortsOnly.ok _
  · exact zipWithB_abortsOnly _ _ _

theorem layerNorm_abortsOnly {α : Type} [Field α] (K : Kernels α) (x : Tensor α)
    (pre suffix : String) : AbortsOnly (layerNorm K x pre suffix) := by
  unfold layerNorm
  refine AbortsOnly.bind (dimBack_abortsOnly _ _) (fun d => ?_)
  unfold layerNormOp
  exact AbortsOnly.bind (dimBack_abortsOnly _ _) (fun _ => AbortsOnly.pure _)

theorem affine_abortsOnly {α : Type} [Field α] (x W b : Tensor α) :
    AbortsOnly (affine x W b) := by
  unfold affine
  refine AbortsOnly.bind (dimBack_abortsOnly _ _) (fun _ => ?_)
  refine AbortsOnly.bind (dimBack_abortsOnly _ _) (fun _ => ?_)
  refine AbortsOnly.bind (dimBack_abortsOnly _ _) (fun _ => ?_)
  exact AbortsOnly.ite (AbortsOnly.abort _) (zipWithB_abortsOnly _ _ _)

theorem dense_abortsOnly {α : Type} [Field α] (K : Kernels α) (x : Tensor α)
    (pre suffix : String) (outDim : Nat) (actFn : Option (Tensor α → Tensor α)) (p : ℚ) :
    AbortsOnly (dense K x pre suffix outDim actFn p) := by
  unfold dense
  refine AbortsOnly.bind (dimBack_abortsOnly _ _) (fun _ => ?_)
  refine AbortsOnly.bind (affine_abortsOnly _ _ _) (fun _ => ?_)
  exact AbortsOnly.ite (dropout_abortsOnly _ _ _) (AbortsOnly.pure _)

theorem highway_abortsOnly {α : Type} [Field α] (K : Kernels α) (y x t : Tensor α) :
    AbortsOnly (highway K y x t) := by
  unfold highway
  refine AbortsOnly.bind (zipWithB_abortsOnly _ _ _) (fun _ => ?_)
  refine AbortsOnly.bind (zipWithB_abortsOnly _ _ _) (fun _ => ?_)
  exact zipWithB_abortsOnly _ _ _

theorem preProcessOp_abortsOnly {α : Type} [Field α] (K : Kernels α) (pre : String)
    (dropProb : ℚ) (output : Tensor α) (op : Char) :
    AbortsOnly (preProcessOp K pre dropProb output op) := by
  unfold preProcessOp
  exact AbortsOnly.ite (dropout_abortsOnly _ _ _)
    (AbortsOnly.ite (layerNorm_abortsOnly _ _ _ _) (AbortsOnly.abort _))

theorem postProcessOp_abortsOnly {α : Type} [Field α] (K : Kernels α) (pre : String)
    (input prevInput : Tensor α) (dropProb : ℚ) (output : Tensor α) (op : Char) :
    AbortsOnly (postProcessOp K pre input prevInput dropProb output op) := by
  unfold postProcessOp
  refine AbortsOnly.ite (dropout_abortsOnly _ _ _) (AbortsOnly.ite (zipWithB_abortsOnly _ _ _)
    (AbortsOnly.ite ?_ (AbortsOnly.ite (layerNorm_abortsOnly _ _ _ _) (AbortsOnly.abort _))))
  refine AbortsOnly.bind (dimBack_abortsOnly _ _) (fun _ => ?_)
  exact AbortsOnly.bind (dense_abortsOnly _ _ _ _ _ _ _) (fun _ => highway_abortsOnly _ _ _ _)

/-- A loop over operations aborts when it holds an operation that its body rejects and
the body fails by `ABORT` only. -/
theorem processOps_aborts {α : Type} (body : Tensor α → Char → Result (Tensor α))
    (hbody : ∀ x c, AbortsOnly (body x c)) (c : Char)
    (hc : ∀ x, (body x c).aborts = true) :
    ∀ (ops : List Char) (input : Tensor α), c ∈ ops → (processOps body ops input).aborts = true
  | [], _, h => by simp at h
  | op :: ops, input, h => by
      unfold processOps
      cases hb : body input op with
      | error e =>
        simp only [Result.aborts]
        exact hbody input op e hb
      | ok output =>
        simp only
        rcases List.mem_cons.mp h with heq | hmem
        · subst heq
          have := hc input
          rw [hb] at this
          simp [Result.aborts] at this
        · exact processOps_aborts body hbody c hc ops output hmem

/-! ## Facts on `preProcess` and `postProcess` -/

/-- C6 (the code departs from it): with dropout probability 0, `preProcess` and
`postProcess` on the operation string `"d"` end in `ABORT` instead of leaving the
running value unchanged, and so does `postProcess` on `"dan"`; in general they abort on
every operation string that holds a `d`. -/
theorem dropout_operation_aborts_at_probability_zero {α : Type} [Field α] (K : Kernels α)
    (pre : String) (input prevInput : Tensor α) :
    preProcess K pre "d" input 0
      = .error (.abort "Unknown pre-processing operation d") ∧
    postProcess K pre "d" input prevInput 0
      = .error (.abort "Unknown pre-processing operation d") ∧
    postProcess K pre "dan" input prevInput 0
      = .error (.abort "Unknown pre-processing operation d") ∧
    ∀ ops : String, 'd' ∈ ops.toList →
      (preProcess K pre ops input 0).aborts = true ∧
      (postProcess K pre ops input prevInput 0).aborts = true := by
  have hq : ¬ ((0 : ℚ) > 0) := lt_irrefl 0
  refine ⟨?_, ?_, ?_, ?_⟩
  · simp [preProcess, processOps, preProcessOp]
    rfl
  · simp [postProcess, processOps, postProcessOp]
    rfl
  · simp [postProcess, processOps, postProcessOp]
    rfl
  · intro ops hd
    constructor
    · refine processOps_aborts _ (preProcessOp_abortsOnly K pre 0) 'd' ?_ _ input hd
      intro x
      unfold preProcessOp
      rw [if_neg (fun h => hq h.2), if_neg (by decide)]
      rfl
    · refine processOps_aborts _ (postProcessOp_abortsOnly K pre input prevInput 0) 'd' ?_ _
        input hd
      intro x
      unfold postProcessOp
      rw [if_neg (fun h => hq h.2), if_neg (by decide), if_neg (by decide), if_neg (by decide)]
      rfl

/-- C7: `preProcess` aborts on every operation string that holds a symbol other than `d`
and `n`, and `postProcess` on every operation string that holds a symbol other than `d`,
`n`, `a` and `h`, for every dropout probability. -/
theorem unknown_operations_rejected {α : Type} [Field α] (K : Kernels α) (pre ops : String)
    (input prevInput : Tensor α) (dropProb : ℚ) :
    ((∃ c ∈ ops.toList, c ≠ 'd' ∧ c ≠ 'n') →
      (preProcess K pre ops input dropProb).aborts = true) ∧
    ((∃ c ∈ ops.toList, c ≠ 'd' ∧ c ≠ 'n' ∧ c ≠ 'a' ∧ c ≠ 'h') →
      (postProcess K pre ops input prevInput dropProb).aborts = true) := by
  constructor
  · rintro ⟨c, hc, hd, hn⟩
    refine processOps_aborts _ (preProcessOp_abortsOnly K pre dropProb) c ?_ _ input hc
    intro x
    unfold preProcessOp
    rw [if_neg (fun h => hd h.1), if_neg hn]
    rfl
  · rintro ⟨c, hc, hd, hn, ha, hh⟩
    refine processOps_aborts _ (postProcessOp_abortsOnly K pre input prevInput dropProb) c ?_ _
      input hc
    intro x
    unfold postProcessOp
    rw [if_neg (fun h => hd h.1), if_neg ha, if_neg hh, if_neg hn]
    rfl

/-! ## Facts on `step` -/

theorem stepState_ok_elim {α : Type} [Field α] (K : Kernels α) (self : DecoderTransformer)
    (st stAfter st' : TransformerState α) (h : self.stepState K st = .ok (stAfter, st')) :
    ∃ (query selfMask : Tensor α) (encoders : List (Tensor α × Tensor α))
      (decoderStates : List (State α)) (out logits : Tensor α),
      self.stepPrologue K st = .ok (query, selfMask, encoders) ∧
      decoderLayers K self st.states_ selfMask st.getPosition encoders self.layerIndices query
        = .ok (decoderStates, out) ∧
      stAfter = st ∧
      st' = (TransformerState.new decoderStates (some logits) st.encStates_ st.batch_).setPosition
        (st.getPosition + 1) := by
  unfold DecoderTransformer.stepState at h
  rw [bind_eq_ok] at h
  obtain ⟨⟨query, selfMask, encoders⟩, hpro, h⟩ := h
  simp only [] at h
  rw [bind_eq_ok] at h
  obtain ⟨⟨decoderStates, out⟩, hlayers, h⟩ := h
  simp only [] at h
  rw [bind_eq_ok] at h
  obtain ⟨ctx, -, h⟩ := h
  rw [bind_eq_ok] at h
  obtain ⟨layer, -, h⟩ := h
  rw [bind_eq_ok] at h
  obtain ⟨logits, -, h⟩ := h
  rw [bind_eq_ok] at h
  obtain ⟨voc, -, h⟩ := h
  simp only [pure, Except.pure, Except.ok.injEq, Prod.mk.injEq] at h
  exact ⟨query, selfMask, encoders, decoderStates, out, logits, hpro, hlayers, h.1.symm, h.2.symm⟩

theorem step_ok_elim {α : Type} [Field α] (K : Kernels α) (self self' : DecoderTransformer)
    (graph : Nat) (st stAfter st' : TransformerState α)
    (h : self.step K graph st = .ok (self', stAfter, st')) :
    self.graph_ = some graph ∧
    self.LazyCreateOutputLayer (self.prefix_ ++ "_ff_logit_out") = .ok self' ∧
    self'.stepState K st = .ok (stAfter, st') := by
  unfold DecoderTransformer.step at h
  by_cases hg : some graph ≠ self.graph_
  · rw [if_pos hg] at h; cases h
  · rw [if_neg hg] at h
    rw [bind_eq_ok] at h
    obtain ⟨d, hd, h⟩ := h
    rw [bind_eq_ok] at h
    obtain ⟨⟨s1, s2⟩, hs, h⟩ := h
    simp only [pure, Except.pure, Except.ok.injEq, Prod.mk.injEq] at h
    obtain ⟨rfl, rfl, rfl⟩ := h
    exact ⟨(not_not.mp hg).symm, hd, hs⟩

/-- C8: whenever `step` returns on a state at position `k`, the returned state is at
position `k + 1` and the state object it was called on is as before the call (its
position and its layer caches included); for both overloads of `step`. -/
theorem step_advances_position {α : Type} [Field α] (K : Kernels α)
    (self self' : DecoderTransformer) (graph : Nat) (st stAfter st' : TransformerState α) :
    (self.stepState K st = .ok (stAfter, st') →
      st'.getPosition = st.getPosition + 1 ∧ stAfter = st ∧
      stAfter.getPosition = st.getPosition ∧ stAfter.states_ = st.states_) ∧
    (self.step K graph st = .ok (self', stAfter, st') →
      st'.getPosition = st.getPosition + 1 ∧ stAfter = st ∧
      stAfter.getPosition = st.getPosition ∧ stAfter.states_ = st.states_) := by
  have key : ∀ (d : DecoderTransformer), d.stepState K st = .ok (stAfter, st') →
      st'.getPosition = st.getPosition + 1 ∧ stAfter = st ∧
      stAfter.getPosition = st.getPosition ∧ stAfter.states_ = st.states_ := by
    intro d h
    obtain ⟨_, _, _, _, _, _, -, -, rfl, rfl⟩ := stepState_ok_elim K d st stAfter st' h
    exact ⟨rfl, rfl, rfl, rfl⟩
  exact ⟨key self, fun h => key self' (step_ok_elim K self self' graph st stAfter st' h).2.2⟩

/-! ## Facts on the positional signal -/

theorem signalRow_length {α : Type} (base nt : Nat) (S C : Nat → α) :
    ∀ (m : Nat) (v : List α),
      ((List.range m).foldl
        (fun (vPos : List α) (i : Nat) => (vPos.set (base + i) (S i)).set (base + nt + i) (C i))
        v).length = v.length
  | 0, v => by simp
  | m + 1, v => by
      rw [List.range_succ, List.foldl_append]
      simp [signalRow_length base nt S C m v]

theorem signalRow_getElem? {α : Type} (base nt : Nat) (S C : Nat → α) :
    ∀ (m : Nat) (v : List α) (q : Nat), m ≤ nt → q < v.length →
      ((List.range m).foldl
        (fun (vPos : List α) (i : Nat) => (vPos.set (base + i) (S i)).set (base + nt + i) (C i))
        v)[q]?
        = if base ≤ q ∧ q < base + m then some (S (q - base))
          else if base + nt ≤ q ∧ q < base + nt + m then some (C (q - base - nt))
          else v[q]?
  | 0, v, q, _, _ => by
      have h1 : ¬ (base ≤ q ∧ q < base + 0) := by omega
      have h2 : ¬ (base + nt ≤ q ∧ q < base + nt + 0) := by omega
      rw [if_neg h1, if_neg h2]
      rfl
  | m + 1, v, q, hm, hq => by
      rw [List.range_succ, List.foldl_append]
      simp only [List.foldl_cons, List.foldl_nil]
      rw [List.getElem?_set, List.getElem?_set, List.length_set, signalRow_length,
        signalRow_getElem? base nt S C m v q (by omega) hq]
      have hm' : m < nt := by omega
      split_ifs with h1 h2 h3 h4 h5 h6 h7 h8 h9 h10 h11 h12
      all_goals first
        | rfl
        | omega
        | (congr 2; omega)

/-- The buffer after the first `n` rows of the loops of `addPositionalEmbeddings`. -/
theorem signalFill_spec {α : Type} [Zero α] (dimEmb dimWords nt : Nat) (S C : Nat → Nat → α)
    (hnt : 2 * nt ≤ dimEmb) :
    ∀ (n : Nat), n ≤ dimWords →
      ((List.range n).foldl
        (fun (vPos : List α) (r : Nat) => (List.range nt).foldl
          (fun (vPos : List α) (i : Nat) =>
            (vPos.set (r * dimEmb + i) (S r i)).set (r * dimEmb + nt + i) (C r i)) vPos)
        (List.replicate (dimEmb * dimWords) 0)).length = dimEmb * dimWords ∧
      ∀ r c, r < dimWords → c < dimEmb →
        ((List.range n).foldl
          (fun (vPos : List α) (r : Nat) => (List.range nt).foldl
            (fun (vPos : List α) (i : Nat) =>
              (vPos.set (r * dimEmb + i) (S r i)).set (r * dimEmb + nt + i) (C r i)) vPos)
          (List.replicate (dimEmb * dimWords) 0))[r * dimEmb + c]?
          = some (if r < n then
              (if c < nt then S r c else if c < 2 * nt then C r (c - nt) else 0) else 0)
  | 0, _ => by
      refine ⟨by simp, ?_⟩
      intro r c hr hc
      have hlt : r * dimEmb + c < dimEmb * dimWords := by
        calc r * dimEmb + c < r * dimEmb + dimEmb := by omega
          _ = (r + 1) * dimEmb := by rw [Nat.succ_mul]
          _ ≤ dimWords * dimEmb := Nat.mul_le_mul_right dimEmb hr
          _ = dimEmb * dimWords := Nat.mul_comm _ _
      simp [List.getElem?_replicate, hlt]
  | n + 1, hn => by
      obtain ⟨hlen, ih⟩ := signalFill_spec dimEmb dimWords nt S C hnt n (by omega)
      rw [List.range_succ, List.foldl_append]
      simp only [List.foldl_cons, List.foldl_nil]
      refine ⟨by rw [signalRow_length, hlen], ?_⟩
      intro r c hr hc
      have hlt : r * dimEmb + c < dimEmb * dimWords := by
        calc r * dimEmb + c < r * dimEmb + dimEmb := by omega
          _ = (r + 1) * dimEmb := by rw [Nat.succ_mul]
          _ ≤ dimWords * dimEmb := Nat.mul_le_mul_right dimEmb hr
          _ = dimEmb * dimWords := Nat.mul_comm _ _
      rw [signalRow_getElem? (n * dimEmb) nt (S n) (C n) nt _ (r * dimEmb + c) (Nat.le_refl nt)
        (by rw [hlen]; exact hlt), ih r c hr hc]
      rcases Nat.lt_trichotomy r n with hlt' | heq | hgt
      · have h1 : (r + 1) * dimEmb ≤ n * dimEmb := Nat.mul_le_mul_right dimEmb hlt'
        rw [Nat.succ_mul] at h1
        split_ifs
        all_goals first
          | rfl
          | omega
      · subst heq
        split_ifs
        all_goals first
          | rfl
          | omega
          | (congr 2; omega)
      · have h1 : (n + 1) * dimEmb ≤ r * dimEmb := Nat.mul_le_mul_right dimEmb hgt
        rw [Nat.succ_mul] at h1
        split_ifs
        all_goals first
          | rfl
          | omega

theorem positionalSignal_eq {α : Type} [Field α] (K : Kernels α) (dimEmb dimWords start : Nat) :
    positionalSignal K dimEmb dimWords start
      = (List.range dimWords).foldl
        (fun (vPos : List α) (r : Nat) => (List.range (dimEmb / 2)).foldl
          (fun (vPos : List α) (i : Nat) =>
            (vPos.set (r * dimEmb + i)
              (K.sin (((start + r : Nat) : α) * K.exp ((i : α) *
                -(K.log 10000 / (((dimEmb / 2 : Nat) : α) - 1)))))).set
              (r * dimEmb + dimEmb / 2 + i)
              (K.cos (((start + r : Nat) : α) * K.exp ((i : α) *
                -(K.log 10000 / (((dimEmb / 2 : Nat) : α) - 1)))))) vPos)
        (List.replicate (dimEmb * dimWords) 0) := by
  unfold positionalSignal
  rw [List.range'_eq_map_range, List.foldl_map]
  simp only [Nat.add_sub_cancel_left]

theorem positionalSignal_layout {α : Type} [Field α] (K : Kernels α)
    (dimEmb dimWords start r i : Nat) (hr : r < dimWords) (hi : i < dimEmb / 2) :
    (positionalSignal K dimEmb dimWords start)[r * dimEmb + i]?
      = some (K.sin (((start + r : Nat) : α) * K.exp ((i : α) *
          -(K.log 10000 / (((dimEmb / 2 : Nat) : α) - 1))))) ∧
    (positionalSignal K dimEmb dimWords start)[r * dimEmb + (dimEmb / 2 + i)]?
      = some (K.cos (((start + r : Nat) : α) * K.exp ((i : α) *
          -(K.log 10000 / (((dimEmb / 2 : Nat) : α) - 1))))) := by
  have hnt : 2 * (dimEmb / 2) ≤ dimEmb := by omega
  rw [positionalSignal_eq]
  obtain ⟨-, h⟩ := signalFill_spec dimEmb dimWords (dimEmb / 2)
    (fun r i => K.sin (((start + r : Nat) : α) * K.exp ((i : α) *
      -(K.log 10000 / (((dimEmb / 2 : Nat) : α) - 1)))))
    (fun r i => K.cos (((start + r : Nat) : α) * K.exp ((i : α) *
      -(K.log 10000 / (((dimEmb / 2 : Nat) : α) - 1)))))
    hnt dimWords (Nat.le_refl _)
  constructor
  · have := h r i hr (by omega)
    rw [if_pos hr, if_pos hi] at this
    exact this
  · have := h r (dimEmb / 2 + i) hr (by omega)
    rw [if_pos hr, if_neg (by omega), if_pos (by omega)] at this
    simp only [Nat.add_sub_cancel_left] at this
    exact this

/-- C5, as amended: in the buffer built by `addPositionalEmbeddings`, for every local
position `r` and every band `i < dimEmb / 2`, feature `i` holds
`sin(p * exp(i * -log(10000) / (numBands - 1)))` and feature `numBands + i` holds the
matching `cos`, where `p = start + r` and `numBands = dimEmb / 2`. -/
theorem positionalSignal_sin_then_cos {α : Type} [Field α] (K : Kernels α)
    (dimEmb dimWords start r i : Nat) (hr : r < dimWords) (hi : i < dimEmb / 2) :
    (positionalSignal K dimEmb dimWords start)[r * dimEmb + i]?
      = some (K.sin (((start + r : Nat) : α) * K.exp ((i : α) *
          -(K.log 10000 / (((dimEmb / 2 : Nat) : α) - 1))))) ∧
    (positionalSignal K dimEmb dimWords start)[r * dimEmb + (dimEmb / 2 + i)]?
      = some (K.cos (((start + r : Nat) : α) * K.exp ((i : α) *
          -(K.log 10000 / (((dimEmb / 2 : Nat) : α) - 1))))) :=
  positionalSignal_layout K dimEmb dimWords start r i hr hi

/-- C5, as stated, fails: with `dimEmb = 4`, one word and `start = 0` over the reals,
feature 1 holds `sin(0 * exp(1 * -log(10000) / (2 - 1))) = 0`, not the cosine
`cos(0 * exp(0 * -log(10000) / (2 - 1))) = 1` paired with feature 0. -/
theorem positionalSignal_not_interleaved :
    (positionalSignal (Kernels.mk Real.exp Real.log Real.sin Real.cos Real.sqrt
        (fun x => max x 0) (fun _ _ => []) (fun _ _ => [])) 4 1 0)[0 * 4 + (2 * 0 + 1)]?
      ≠ some (Real.cos (((0 + 0 : Nat) : ℝ) * Real.exp (((0 : Nat) : ℝ) *
          -(Real.log 10000 / (((4 / 2 : Nat) : ℝ) - 1))))) := by
  have h := (positionalSignal_layout (Kernels.mk Real.exp Real.log Real.sin Real.cos
    Real.sqrt (fun x => max x 0) (fun _ _ => []) (fun _ _ => [])) 4 1 0 0 1 (by decide)
    (by decide)).1
  have h' : (0 * 4 + (2 * 0 + 1) : Nat) = 0 * 4 + 1 := rfl
  rw [h', h]
  simp

/-! ## Facts on the running average of `DecoderLayerAAN` -/

theorem sum_range_indicator {α : Type} [Field α] (f : Nat → α) (t : Nat) :
    ∀ (L : Nat), t < L →
      ((List.range L).map (fun l => if l ≤ t then f l else 0)).sum
        = ((List.range (t + 1)).map f).sum
  | 0, h => by omega
  | L + 1, h => by
      rw [List.range_succ, List.map_append, List.sum_append]
      by_cases hL : t < L
      · rw [sum_range_indicator f t L hL]
        have : ¬ L ≤ t := by omega
        simp [this]
      · have hLt : L = t := by omega
        subst hLt
        rw [List.range_succ, List.map_append, List.sum_append]
        congr 1
        · apply congrArg
          apply List.map_congr_left
          intro l hl
          have : l ≤ L := by
            have := List.mem_range.mp hl
            omega
          simp [this]
        · simp

theorem sum_range_div {α : Type} [Field α] (f : Nat → α) (c : α) :
    ∀ (n : Nat), ((List.range n).map (fun l => f l / c)).sum = ((List.range n).map f).sum / c
  | 0 => by simp
  | n + 1 => by
      rw [List.range_succ, List.map_append, List.sum_append, List.map_append, List.sum_append,
        sum_range_div f c n]
      simp [add_div]

/-- Row `r` of the triangle mask. -/
theorem triangleMask_row {α : Type} [Zero α] [One α] (L r : Nat) (hr : r < L) :
    ((triangleMaskBuffer L : List α).drop (r * L)).take L
      = (List.range L).map (fun j => if j ≤ r then (1 : α) else 0) := by
  apply List.ext_getElem?
  intro j
  rw [List.getElem?_take, List.getElem?_drop, List.getElem?_map]
  by_cases hj : j < L
  · rw [if_pos hj, List.getElem?_range hj]
    exact (triangleMask_lower_triangular_aux L r j hr hj).1
  · rw [if_neg hj, List.getElem?_eq_none_iff.mpr (by simp; omega)]
    rfl

theorem triangleMask_row_sum {α : Type} [Field α] (L r : Nat) (hr : r < L) :
    (((triangleMaskBuffer L : List α).drop (r * L)).take L).sum = (r : α) + 1 := by
  rw [triangleMask_row L r hr, sum_range_indicator (fun _ => (1 : α)) r L hr]
  simp

theorem tensor_eq {α : Type} {s s' : List Nat} {d d' : List α} (hs : s = s') (hd : d = d') :
    Tensor.mk s d = Tensor.mk s' d' := by
  subst hs; subst hd; rfl

theorem sumLast_triangleMask {α : Type} [Field α] (L : Nat) :
    sumLast (triangleMask L : Tensor α)
      = .ok (Tensor.mk [1, L, 1] ((List.range L).map (fun (r : Nat) => (r : α) + 1))) := by
  simp only [sumLast, triangleMask, constant, dimBack, bind, Except.bind, pure, Except.pure]
  simp only [List.length_cons, List.length_nil, List.dropLast, elements]
  simp only [show (1 = 0 ∨ 0 + 1 + 1 + 1 < 1) = False by simp, if_false]
  simp only [show (0 + 1 + 1 + 1 - 1 = 2) by rfl, List.getElem?_cons_succ,
    List.getElem?_cons_zero]
  refine congrArg Except.ok (tensor_eq rfl ?_)
  rw [show [1, L].prod = L by simp]
  apply List.map_congr_left
  intro r hr
  exact triangleMask_row_sum L r (List.mem_range.mp hr)

theorem broadcastShape_mask_rowsum (L : Nat) :
    broadcastShape [1, L, L] [1, L, 1] = .ok [1, L, L] := by
  simp only [broadcastShape, padShape, List.length_cons, List.length_nil, broadcastDims]
  by_cases h : L = 1
  · subst h; rfl
  · simp [h, broadcastDims]

theorem div_triangleMask {α : Type} [Field α] (L : Nat) (rs : List α) :
    div (triangleMask L : Tensor α) (Tensor.mk [1, L, 1] rs)
      = .ok (Tensor.mk [1, L, L] ((List.range (L * L)).map (fun p =>
          (triangleMaskBuffer L : List α).getD (p / L % L * L + p % L) 0
            / rs.getD (p / L % L) 0))) := by
  simp only [div, zipWithB, triangleMask, constant, broadcastShape_mask_rowsum]
  refine congrArg Except.ok (tensor_eq rfl ?_)
  rw [show elements [1, L, L] = L * L by simp [elements]]
  apply List.map_congr_left
  intro p _
  simp [readB, padShape, unravel, ravel, elements, Nat.mod_one]

theorem bdot_mask_sequence {α : Type} [Field α] (L D : Nat) (N X : List α) :
    bdot (Tensor.mk [1, L, L] N) (Tensor.mk [1, 1, L, D] X) false false 1
      = .ok (Tensor.mk [1, L, D] ((List.range (L * D)).map (fun p =>
          ((List.range L).map (fun l =>
            N.getD (p / (L * D) * (L * L) + (p / D % L * L + l)) 0
              * X.getD (l * D + p % D) 0)).sum))) := by
  simp only [bdot, dimBack_four_1, dimBack_four_2, bind, Except.bind, pure, Except.pure]
  simp only [dimBack, List.length_cons, List.length_nil]
  simp only [show (1 = 0 ∨ 0 + 1 + 1 + 1 < 1) = False by simp,
    show (2 = 0 ∨ 0 + 1 + 1 + 1 < 2) = False by simp, if_false]
  simp only [show (0 + 1 + 1 + 1 - 1 = 2) by rfl, show (0 + 1 + 1 + 1 - 2 = 1) by rfl,
    List.getElem?_cons_succ, List.getElem?_cons_zero]
  simp only [ne_eq, not_true_eq_false, if_false, Bool.false_eq_true]
  refine congrArg Except.ok (tensor_eq rfl ?_)
  simp only [List.dropLast, elements]
  rw [show [1].prod * L * D = L * D by simp]
  apply List.map_congr_left
  intro p _
  simp [Nat.mod_one]

theorem add_same_row {α : Type} [Field α] (D : Nat) (a b : List α) :
    add (Tensor.mk [1, 1, 1, D] a) (Tensor.mk [1, 1, 1, D] b)
      = .ok (Tensor.mk [1, 1, 1, D] ((List.range D).map (fun d => a.getD d 0 + b.getD d 0))) := by
  have hb : broadcastShape [1, 1, 1, D] [1, 1, 1, D] = .ok [1, 1, 1, D] := by
    simp [broadcastShape, padShape, broadcastDims]
  simp only [add, zipWithB, hb]
  refine congrArg Except.ok (tensor_eq rfl ?_)
  rw [show elements [1, 1, 1, D] = D by simp [elements]]
  apply List.map_congr_left
  intro p hp
  have hp' : p < D := List.mem_range.mp hp
  simp [readB, padShape, unravel, ravel, elements, Nat.mod_one, Nat.mod_eq_of_lt hp']

theorem timeStep_getElem? {α : Type} (X : Tensor α) (D t d : Nat) (hd : d < D) :
    (timeStep X D t).data[d]? = X.data[t * D + d]? := by
  simp only [timeStep]
  rw [List.getElem?_take, if_pos hd, List.getElem?_drop]

/-- The sum of the first `t + 1` time steps of feature `d`. -/
theorem aanFull_entries {α : Type} [Field α] (X : Tensor α) (L D : Nat)
    (hs : X.shape = [1, 1, L, D]) (hL : 1 < L) :
    ∃ full, aanFull X L = .ok full ∧ full.shape = [1, L, D] ∧
      ∀ t d, t < L → d < D →
        full.data[t * D + d]?
          = some (((List.range (t + 1)).map (fun l => X.data.getD (l * D + d) 0)).sum
              / ((t : α) + 1)) := by
  cases X with
  | mk shape data =>
    simp only at hs
    subst hs
    refine ⟨Tensor.mk [1, L, D] ((List.range (L * D)).map (fun p =>
          ((List.range L).map (fun l =>
            ((List.range (L * L)).map (fun p =>
              (triangleMaskBuffer L : List α).getD (p / L % L * L + p % L) 0
                / ((List.range L).map (fun (r : Nat) => (r : α) + 1)).getD (p / L % L) 0)).getD
                (p / (L * D) * (L * L) + (p / D % L * L + l)) 0
              * data.getD (l * D + p % D) 0)).sum)), ?_, rfl, ?_⟩
    · unfold aanFull DecoderLayerAANAverage
      simp only [Nat.lt_irrefl, if_false, dimBack_four_2, bind, Except.bind, true_and, hL, if_true,
        gt_iff_lt, sumLast_triangleMask, div_triangleMask]
      exact bdot_mask_sequence L D _ data
    · intro t d ht hd
      have hp : t * D + d < L * D := by
        calc t * D + d < t * D + D := by omega
          _ = (t + 1) * D := by rw [Nat.succ_mul]
          _ ≤ L * D := Nat.mul_le_mul_right D ht
      have hD : 0 < D := by omega
      simp only [List.getElem?_map, List.getElem?_range hp, Option.map_some']
      congr 1
      have h1 : (t * D + d) / (L * D) = 0 := Nat.div_eq_of_lt hp
      have h2 : (t * D + d) / D = t := by
        rw [Nat.add_comm, Nat.add_mul_div_right _ _ hD, Nat.div_eq_of_lt hd, Nat.zero_add]
      have h3 : (t * D + d) % D = d := by
        rw [Nat.add_comm, Nat.add_mul_mod_self_right, Nat.mod_eq_of_lt hd]
      rw [h1, h2, h3, Nat.mod_eq_of_lt ht, ← sum_range_div,
        ← sum_range_indicator (fun l => data.getD (l * D + d) 0 / ((t : α) + 1)) t L ht]
      apply congrArg
      apply List.map_congr_left
      intro l hl
      have hl' : l < L := List.mem_range.mp hl
      have hq : t * L + l < L * L := by
        calc t * L + l < t * L + L := by omega
          _ = (t + 1) * L := by rw [Nat.succ_mul]
          _ ≤ L * L := Nat.mul_le_mul_right L ht
      have hL0 : 0 < L := by omega
      have g2 : (t * L + l) / L = t := by
        rw [Nat.add_comm, Nat.add_mul_div_right _ _ hL0, Nat.div_eq_of_lt hl', Nat.zero_add]
      have g3 : (t * L + l) % L = l := by
        rw [Nat.add_comm, Nat.add_mul_mod_self_right, Nat.mod_eq_of_lt hl']
      simp only [Nat.zero_mul, Nat.zero_add]
      rw [List.getD_eq_getElem?_getD, List.getElem?_map, List.getElem?_range hq]
      simp only [Option.map_some', Option.getD_some, g2, g3, Nat.mod_eq_of_lt ht]
      rw [List.getD_eq_getElem?_getD, (triangleMask_lower_triangular_aux L t l ht hl').1,
        List.getD_eq_getElem?_getD, List.getElem?_map, List.getElem?_range ht]
      simp only [Option.map_some', Option.getD_some]
      by_cases hle : l ≤ t
      · simp only [hle, if_true]
        rw [one_div, div_eq_mul_inv, mul_comm]
      · simp [hle]

theorem aanIncremental_entries {α : Type} [Field α] [CharZero α] (X : Tensor α) (L D : Nat)
    (hlen : X.data.length = L * D) :
    ∀ (t : Nat), t < L →
      ∃ c, aanIncremental X D t = .ok c ∧ c.shape = [1, 1, 1, D] ∧
        ∀ d, d < D →
          c.data[d]?
            = some (((List.range (t + 1)).map (fun l => X.data.getD (l * D + d) 0)).sum
                / ((t : α) + 1))
  | 0, h0 => by
      refine ⟨timeStep X D 0, ?_, rfl, ?_⟩
      · unfold aanIncremental DecoderLayerAANAverage
        simp [timeStep, bind, Except.bind, pure, Except.pure]
      · intro d hd
        have hlt : 0 * D + d < X.data.length := by
          rw [hlen]
          calc 0 * D + d < 0 * D + D := by omega
            _ = (0 + 1) * D := by rw [Nat.succ_mul]
            _ ≤ L * D := Nat.mul_le_mul_right D h0
        have hlt' : d < X.data.length := by simpa using hlt
        rw [timeStep_getElem? X D 0 d hd]
        simp [List.getD_eq_getElem?_getD, List.getElem?_eq_getElem hlt', List.range_succ]
  | t + 1, ht => by
      obtain ⟨prev, hprev, hshape, hentries⟩ := aanIncremental_entries X L D hlen t (by omega)
      cases prev with
      | mk pshape pdata =>
        simp only at hshape hentries
        subst hshape
        have hstep : aanIncremental X D (t + 1)
            = .ok (mapT (fun v => v / ((t + 1 + 1 : Nat) : α))
                (Tensor.mk [1, 1, 1, D] ((List.range D).map (fun d =>
                  (pdata.map (fun v => v * ((t + 1 : Nat) : α))).getD d 0
                    + (timeStep X D (t + 1)).data.getD d 0)))) := by
          rw [aanIncremental, hprev]
          simp only [DecoderLayerAANAverage, Nat.succ_pos, if_true, gt_iff_lt, deref, bind,
            Except.bind, mapT, timeStep, add_same_row, pure, Except.pure]
        refine ⟨_, hstep, rfl, ?_⟩
        intro d hd
        have hlt : (t + 1) * D + d < X.data.length := by
          rw [hlen]
          calc (t + 1) * D + d < (t + 1) * D + D := by omega
            _ = (t + 1 + 1) * D := (Nat.succ_mul (t + 1) D).symm
            _ ≤ L * D := Nat.mul_le_mul_right D ht
        simp only [mapT, List.getElem?_map, List.getElem?_range hd, Option.map_some']
        rw [List.getD_eq_getElem?_getD, List.getElem?_map, hentries d hd,
          List.getD_eq_getElem?_getD, timeStep_getElem? X D (t + 1) d hd,
          List.sum_range_succ (fun l => X.data.getD (l * D + d) 0) (t + 1)]
        simp only [Option.map_some', Option.getD_some, List.getD_eq_getElem?_getD]
        have hne : ((t : α) + 1) ≠ 0 := by exact_mod_cast Nat.succ_ne_zero t
        congr 1
        push_cast
        rw [div_mul_cancel₀ _ hne]

/-- C4: over exact arithmetic, for a sequence `X` of `L >= 1` time steps of width `D`,
the running average that `DecoderLayerAAN` stores at step `t` of incremental decoding
(`cache_0 = x_0`, `cache_t = (cache_{t-1} * t + x_t) / (t + 1)`) is row `t` of what it
stores on the full sequence at position 0 with the triangle mask, and both are the mean
of `x_0, ..., x_t`. -/
theorem aan_regimes_agree {α : Type} [Field α] [CharZero α] (X : Tensor α) (L D : Nat)
    (hs : X.shape = [1, 1, L, D]) (hwf : X.WellFormed) (hL : 1 ≤ L) :
    ∃ full, aanFull X L = .ok full ∧
      ∀ t, t < L → ∃ c, aanIncremental X D t = .ok c ∧
        ∀ d, d < D →
          c.data[d]?
            = some (((List.range (t + 1)).map (fun l => X.data.getD (l * D + d) 0)).sum
                / ((t : α) + 1)) ∧
          full.data[t * D + d]? = c.data[d]? := by
  have hlen : X.data.length = L * D := by
    rw [hwf, hs]; simp
  by_cases h1 : 1 < L
  · obtain ⟨full, hfull, -, hentries⟩ := aanFull_entries X L D hs h1
    refine ⟨full, hfull, ?_⟩
    intro t ht
    obtain ⟨c, hc, -, hce⟩ := aanIncremental_entries X L D hlen t ht
    refine ⟨c, hc, ?_⟩
    intro d hd
    exact ⟨hce d hd, by rw [hentries t d ht hd, hce d hd]⟩
  · have hL1 : L = 1 := by omega
    subst hL1
    refine ⟨X, ?_, ?_⟩
    · unfold aanFull DecoderLayerAANAverage
      simp [hs, bind, Except.bind, pure, Except.pure]
    · intro t ht
      have ht0 : t = 0 := by omega
      subst ht0
      obtain ⟨c, hc, -, hce⟩ := aanIncremental_entries X 1 D hlen 0 ht
      refine ⟨c, hc, ?_⟩
      intro d hd
      refine ⟨hce d hd, ?_⟩
      have hlt : d < X.data.length := by rw [hlen]; omega
      rw [hce d hd]
      simp [List.getD_eq_getElem?_getD, List.getElem?_eq_getElem hlt, List.range_succ]

/-- Witness of C4 on a sequence of three time steps of width two over the rationals. -/
theorem aan_regimes_agree_witness :
    ∃ full, aanFull (Tensor.mk [1, 1, 3, 2] [1, 2, 3, 5, 8, (13 : ℚ)]) 3 = .ok full ∧
      ∀ t, t < 3 → ∃ c, aanIncremental (Tensor.mk [1, 1, 3, 2] [1, 2, 3, 5, 8, (13 : ℚ)]) 2 t
          = .ok c ∧
        ∀ d, d < 2 →
          c.data[d]?
            = some (((List.range (t + 1)).map (fun l =>
                (Tensor.mk [1, 1, 3, 2] [1, 2, 3, 5, 8, (13 : ℚ)]).data.getD (l * 2 + d) 0)).sum
                / ((t : ℚ) + 1)) ∧
          full.data[t * 2 + d]? = c.data[d]? :=
  aan_regimes_agree (Tensor.mk [1, 1, 3, 2] [1, 2, 3, 5, 8, (13 : ℚ)]) 3 2 rfl rfl (by decide)

/-! ## Shapes of the engine operations -/

theorem zipWithB_shape {α : Type} [Zero α] (f : α → α → α) (a b c : Tensor α)
    (h : zipWithB f a b = .ok c) : broadcastShape a.shape b.shape = .ok c.shape := by
  unfold zipWithB at h
  cases hb : broadcastShape a.shape b.shape with
  | error e => rw [hb] at h; cases h
  | ok s => rw [hb] at h; cases h; rfl

theorem broadcastDims_cons (x y : Nat) (xs ys s : List Nat)
    (h : broadcastDims (x :: xs) (y :: ys) = .ok s) :
    ∃ rest, broadcastDims xs ys = .ok rest ∧
      s = (if x = y then x else if x = 1 then y else x) :: rest ∧
      (x = y ∨ x = 1 ∨ y = 1) := by
  unfold broadcastDims at h
  cases hr : broadcastDims xs ys with
  | error e => rw [hr] at h; cases h
  | ok rest =>
    rw [hr] at h
    refine ⟨rest, rfl, ?_⟩
    simp only at h
    by_cases h1 : x = y
    · rw [if_pos h1] at h ⊢
      cases h; exact ⟨rfl, Or.inl h1⟩
    · rw [if_neg h1] at h ⊢
      by_cases h2 : x = 1
      · rw [if_pos h2] at h ⊢
        cases h; exact ⟨rfl, Or.inr (Or.inl h2)⟩
      · rw [if_neg h2] at h ⊢
        by_cases h3 : y = 1
        · rw [if_pos h3] at h
          cases h; exact ⟨rfl, Or.inr (Or.inr h3)⟩
        · rw [if_neg h3] at h
          cases h

/-- Broadcasting two shapes of four axes: the length axis. -/
theorem broadcastDims_four (a0 a1 a2 a3 b0 b1 b2 b3 : Nat) (s : List Nat)
    (h : broadcastDims [a0, a1, a2, a3] [b0, b1, b2, b3] = .ok s) :
    ∃ s0 s1 s3, s = [s0, s1, (if a2 = b2 then a2 else if a2 = 1 then b2 else a2), s3] := by
  obtain ⟨r1, h1, rfl, -⟩ := broadcastDims_cons _ _ _ _ _ h
  obtain ⟨r2, h2, rfl, -⟩ := broadcastDims_cons _ _ _ _ _ h1
  obtain ⟨r3, h3, rfl, -⟩ := broadcastDims_cons _ _ _ _ _ h2
  obtain ⟨r4, h4, rfl, -⟩ := broadcastDims_cons _ _ _ _ _ h3
  have : r4 = [] := by
    unfold broadcastDims at h4
    cases h4; rfl
  subst this
  exact ⟨_, _, _, rfl⟩

theorem broadcastDims_self : ∀ (s : List Nat), broadcastDims s s = .ok s
  | [] => rfl
  | x :: xs => by
      unfold broadcastDims
      rw [broadcastDims_self xs]
      simp

theorem broadcastShape_self (s : List Nat) : broadcastShape s s = .ok s := by
  unfold broadcastShape padShape
  simp [broadcastDims_self]

/-- Broadcasting of two tensors of four axes whose lengths agree, or of which the second
has length 1, keeps the length of the first. -/
theorem zipWithB_hasLength {α : Type} [Zero α] (f : α → α → α) (a b c : Tensor α) (T m : Nat)
    (ha : HasLength a T) (hb : HasLength b m) (hm : m = T ∨ m = 1)
    (h : zipWithB f a b = .ok c) : HasLength c T := by
  obtain ⟨a0, a1, a3, hsa⟩ := ha
  obtain ⟨b0, b1, b3, hsb⟩ := hb
  have hs := zipWithB_shape f a b c h
  rw [hsa, hsb] at hs
  simp only [broadcastShape, padShape, List.length_cons, List.length_nil, Nat.max_self,
    Nat.sub_self, List.replicate_zero, List.nil_append] at hs
  obtain ⟨s0, s1, s3, hs'⟩ := broadcastDims_four _ _ _ _ _ _ _ _ _ hs
  refine ⟨s0, s1, s3, ?_⟩
  rw [hs']
  rcases hm with rfl | rfl
  · simp
  · by_cases hT : T = 1
    · simp [hT]
    · simp [hT]

/-- The same when it is the first tensor that may have length 1. -/
theorem zipWithB_hasLength_left {α : Type} [Zero α] (f : α → α → α) (a b c : Tensor α)
    (T m : Nat) (ha : HasLength a m) (hb : HasLength b T) (hm : m = T ∨ m = 1)
    (h : zipWithB f a b = .ok c) : HasLength c T := by
  obtain ⟨a0, a1, a3, hsa⟩ := ha
  obtain ⟨b0, b1, b3, hsb⟩ := hb
  have hs := zipWithB_shape f a b c h
  rw [hsa, hsb] at hs
  simp only [broadcastShape, padShape, List.length_cons, List.length_nil, Nat.max_self,
    Nat.sub_self, List.replicate_zero, List.nil_append] at hs
  obtain ⟨s0, s1, s3, hs'⟩ := broadcastDims_four _ _ _ _ _ _ _ _ _ hs
  refine ⟨s0, s1, s3, ?_⟩
  rw [hs']
  rcases hm with rfl | rfl
  · simp
  · by_cases hT : 1 = T
    · simp [hT]
    · simp [hT]

/-- Broadcasting a tensor of four axes with a bias of shape `[1, n]`. -/
theorem zipWithB_bias_hasLength {α : Type} [Zero α] (f : α → α → α) (a b c : Tensor α)
    (T n : Nat) (ha : HasLength a T) (hb : b.shape = [1, n])
    (h : zipWithB f a b = .ok c) : HasLength c T := by
  obtain ⟨a0, a1, a3, hsa⟩ := ha
  have hs := zipWithB_shape f a b c h
  rw [hsa, hb] at hs
  simp only [broadcastShape, padShape, List.length_cons, List.length_nil] at hs
  obtain ⟨s0, s1, s3, hs'⟩ := broadcastDims_four _ _ _ _ _ _ _ _ _ hs
  refine ⟨s0, s1, s3, ?_⟩
  rw [hs']
  by_cases hT : T = 1
  · simp [hT]
  · simp [hT]

theorem zipWithB_same_shape {α : Type} [Zero α] (f : α → α → α) (a b c : Tensor α)
    (hab : a.shape = b.shape) (h : zipWithB f a b = .ok c) : c.shape = a.shape := by
  have hs := zipWithB_shape f a b c h
  rw [← hab, broadcastShape_self] at hs
  exact (Except.ok.inj hs).symm

theorem dimBack_hasLength {α : Type} (t : Tensor α) (T : Nat) (h : HasLength t T) :
    dimBack t.shape 2 = .ok T := by
  obtain ⟨a, b, d, hs⟩ := h
  rw [hs, dimBack_four_2]

theorem affine_hasLength {α : Type} [Field α] (x W b y : Tensor α) (T n : Nat)
    (hx : HasLength x T) (hb : b.shape = [1, n]) (h : affine x W b = .ok y) :
    HasLength y T := by
  obtain ⟨a0, a1, a3, hsx⟩ := hx
  unfold affine at h
  rw [bind_eq_ok] at h
  obtain ⟨k, -, h⟩ := h
  rw [bind_eq_ok] at h
  obtain ⟨wk, -, h⟩ := h
  rw [bind_eq_ok] at h
  obtain ⟨m, -, h⟩ := h
  by_cases hk : k ≠ wk
  · rw [if_pos hk] at h; cases h
  · rw [if_neg hk] at h
    refine zipWithB_bias_hasLength _ _ b y T n ?_ hb h
    exact ⟨a0, a1, m, by simp [hsx]⟩

theorem dropout_shape {α : Type} [Field α] (K : Kernels α) (x y : Tensor α) (p : ℚ)
    (h : dropout K x p = .ok y) : y.shape = x.shape := by
  unfold dropout dropoutShaped at h
  by_cases hp : p = 0
  · rw [if_pos hp] at h; cases h; rfl
  · rw [if_neg hp] at h
    exact zipWithB_same_shape _ x (Tensor.mk x.shape (K.dropoutMask p x.shape)) y rfl h

theorem layerNorm_shape {α : Type} [Field α] (K : Kernels α) (x y : Tensor α)
    (pre suffix : String) (h : layerNorm K x pre suffix = .ok y) : y.shape = x.shape := by
  unfold layerNorm at h
  rw [bind_eq_ok] at h
  obtain ⟨d, -, h⟩ := h
  unfold layerNormOp at h
  rw [bind_eq_ok] at h
  obtain ⟨n, -, h⟩ := h
  cases h; rfl

theorem dense_hasLength {α : Type} [Field α] (K : Kernels α) (x y : Tensor α)
    (pre suffix : String) (outDim : Nat) (actFn : Option (Tensor α → Tensor α)) (p : ℚ) (T : Nat)
    (hact : ∀ f, actFn = some f → ∀ t, (f t).shape = t.shape)
    (hx : HasLength x T) (h : dense K x pre suffix outDim actFn p = .ok y) :
    HasLength y T := by
  unfold dense at h
  rw [bind_eq_ok] at h
  obtain ⟨dimIn, -, h⟩ := h
  rw [bind_eq_ok] at h
  obtain ⟨z, hz, h⟩ := h
  have hzl : HasLength z T := affine_hasLength x _ _ z T outDim hx rfl hz
  have hact' : HasLength (match actFn with
      | some f => f z
      | none => z) T := by
    cases actFn with
    | none => exact hzl
    | some f =>
      obtain ⟨a, b, d, hs⟩ := hzl
      exact ⟨a, b, d, by rw [hact f rfl z, hs]⟩
  by_cases hp : p ≠ 0
  · rw [if_pos hp] at h
    obtain ⟨a, b, d, hs⟩ := hact'
    exact ⟨a, b, d, by rw [dropout_shape K _ y p h, hs]⟩
  · rw [if_neg hp] at h
    cases h
    exact hact'

theorem highway_hasLength {α : Type} [Field α] (K : Kernels α) (y x t out : Tensor α) (T : Nat)
    (hy : HasLength y T) (hx : HasLength x T) (ht : HasLength t T)
    (h : highway K y x t = .ok out) : HasLength out T := by
  unfold highway at h
  rw [bind_eq_ok] at h
  obtain ⟨gy, hgy, h⟩ := h
  rw [bind_eq_ok] at h
  obtain ⟨gx, hgx, h⟩ := h
  have hg : HasLength (sigmoid K t) T := ht
  have hg' : HasLength (mapT (fun v => 1 - v) (sigmoid K t)) T := ht
  have h1 : HasLength gy T := zipWithB_hasLength _ _ _ gy T T hg hy (Or.inl rfl) hgy
  have h2 : HasLength gx T := zipWithB_hasLength _ _ _ gx T T hg' hx (Or.inl rfl) hgx
  exact zipWithB_hasLength _ _ _ out T T h1 h2 (Or.inl rfl) h

theorem processOps_invariant {α : Type} (body : Tensor α → Char → Result (Tensor α))
    (P : Tensor α → Prop) (hbody : ∀ x c y, P x → body x c = .ok y → P y) :
    ∀ (ops : List Char) (input output : Tensor α), P input →
      processOps body ops input = .ok output → P output
  | [], input, output, hp, h => by
      unfold processOps at h
      cases h; exact hp
  | op :: ops, input, output, hp, h => by
      unfold processOps at h
      cases hb : body input op with
      | error e => rw [hb] at h; cases h
      | ok y =>
        rw [hb] at h
        exact processOps_invariant body P hbody ops y output (hbody input op y hp hb) h

theorem preProcess_shape {α : Type} [Field α] (K : Kernels α) (pre ops : String)
    (input output : Tensor α) (dropProb : ℚ)
    (h : preProcess K pre ops input dropProb = .ok output) : output.shape = input.shape := by
  unfold preProcess at h
  refine processOps_invariant _ (fun t => t.shape = input.shape) ?_ _ input output rfl h
  intro x c y hx hy
  unfold preProcessOp at hy
  split_ifs at hy
  · rw [dropout_shape K x y dropProb hy, hx]
  · rw [layerNorm_shape K x y _ _ hy, hx]

theorem postProcess_hasLength {α : Type} [Field α] (K : Kernels α) (pre ops : String)
    (input prevInput output : Tensor α) (dropProb : ℚ) (T : Nat)
    (hi : HasLength input T) (hp : HasLength prevInput T)
    (h : postProcess K pre ops input prevInput dropProb = .ok output) : HasLength output T := by
  unfold postProcess at h
  refine processOps_invariant _ (fun t => HasLength t T) ?_ _ input output hi h
  intro x c y hx hy
  unfold postProcessOp at hy
  split_ifs at hy
  · obtain ⟨a, b, d, hs⟩ := hx
    exact ⟨a, b, d, by rw [dropout_shape K x y dropProb hy, hs]⟩
  · exact zipWithB_hasLength _ _ _ y T T hx hp (Or.inl rfl) hy
  · rw [bind_eq_ok] at hy
    obtain ⟨dimModel, -, hy⟩ := hy
    rw [bind_eq_ok] at hy
    obtain ⟨t, ht, hy⟩ := hy
    have htl : HasLength t T :=
      dense_hasLength K prevInput t pre "h" dimModel none 0 T (by intro f hf; cases hf) hp ht
    exact highway_hasLength K x prevInput t y T hx hp htl hy
  · obtain ⟨a, b, d, hs⟩ := hx
    exact ⟨a, b, d, by rw [layerNorm_shape K x y _ _ hy, hs]⟩

theorem transpose_0213 {α : Type} [Zero α] (x y : Tensor α)
    (h : transpose x [0, 2, 1, 3] = .ok y) :
    ∃ a b c d, x.shape = [a, b, c, d] ∧ y.shape = [a, c, b, d] := by
  unfold transpose at h
  split_ifs at h with hc
  obtain ⟨hlen, -⟩ := hc
  cases h
  match hs : x.shape, hlen with
  | [a, b, c, d], _ => exact ⟨a, b, c, d, rfl, by simp⟩

theorem reshape_shape {α : Type} (x y : Tensor α) (s : List Nat) (h : reshape x s = .ok y) :
    y.shape = s := by
  unfold reshape at h
  split_ifs at h
  cases h; rfl

theorem softmax_shape {α : Type} [Field α] (K : Kernels α) (z y : Tensor α)
    (h : softmax K z = .ok y) : y.shape = z.shape := by
  unfold softmax at h
  rw [bind_eq_ok] at h
  obtain ⟨n, -, h⟩ := h
  cases h; rfl

theorem bdot_hasLength {α : Type} [Field α] (a b y : Tensor α) (transB : Bool) (scale : α)
    (T : Nat) (ha : HasLength a T) (h : bdot a b false transB scale = .ok y) :
    HasLength y T := by
  obtain ⟨a0, a1, a3, hsa⟩ := ha
  unfold bdot at h
  rw [hsa, dimBack_four_1, dimBack_four_2] at h
  rw [bind_eq_ok] at h
  obtain ⟨_, ha1, h⟩ := h
  rw [bind_eq_ok] at h
  obtain ⟨_, ha2, h⟩ := h
  rw [bind_eq_ok] at h
  obtain ⟨b1, -, h⟩ := h
  rw [bind_eq_ok] at h
  obtain ⟨b2, -, h⟩ := h
  cases ha1; cases ha2
  simp only [Bool.false_eq_true, if_false] at h
  split_ifs at h
  all_goals
    have h' := Except.ok.inj h
    rw [← h']
    exact ⟨a0, a1, _, rfl⟩

theorem concatenate_shape {α : Type} (t : Tensor α) (rest : List (Tensor α)) (k : Nat)
    (y : Tensor α) (h : concatenate (t :: rest) k = .ok y) :
    y.shape = t.shape.set (t.shape.length - k)
        (((t :: rest).map (fun u => u.shape.getD (t.shape.length - k) 0)).sum) ∧
      ∀ u ∈ t :: rest,
        u.shape.set (t.shape.length - k) 0 = t.shape.set (t.shape.length - k) 0 := by
  unfold concatenate at h
  rw [bind_eq_ok] at h
  obtain ⟨_, -, h⟩ := h
  simp only at h
  split_ifs at h with hc
  have h' := Except.ok.inj h
  rw [← h']
  refine ⟨rfl, ?_⟩
  intro u hu
  have := List.all_eq_true.mp hc u hu
  simpa using this

theorem repeatOp_hasLength {α : Type} (x y : Tensor α) (r T : Nat) (hx : HasLength x T)
    (h : repeatOp x r 4 = .ok y) : HasLength y T := by
  unfold repeatOp at h
  split_ifs at h with hr
  · cases h; exact hx
  · obtain ⟨a, b, d, hs⟩ := hx
    cases r with
    | zero =>
      simp only [List.replicate_zero] at h
      unfold concatenate at h
      cases h
    | succ r =>
      rw [List.replicate_succ] at h
      have := (concatenate_shape x _ 4 y h).1
      rw [hs] at this
      exact ⟨_, b, d, by rw [this]; rfl⟩

/-! ## Lengths through the layers -/

theorem SplitHeads_hasLength {α : Type} [Zero α] (x y : Tensor α) (dimHeads T : Nat)
    (hx : HasLength x T) (h : SplitHeads x dimHeads = .ok y) : HasLength y T := by
  obtain ⟨a, b, d, hs⟩ := hx
  unfold SplitHeads at h
  rw [hs, dimBack_four_1, dimBack_four_2, dimBack_four_3, dimBack_four_4] at h
  simp only [bind, Except.bind] at h
  cases hdiv : divide d dimHeads with
  | error e => rw [hdiv] at h; cases h
  | ok dimDepth =>
    rw [hdiv] at h
    simp only at h
    cases hr : reshape x [b * a, T, dimHeads, dimDepth] with
    | error e => rw [hr] at h; cases h
    | ok z =>
      rw [hr] at h
      simp only at h
      obtain ⟨a', b', c', d', hz, hy⟩ := transpose_0213 z y h
      rw [reshape_shape x z _ hr] at hz
      cases hz
      exact ⟨_, _, _, hy⟩

theorem JoinHeads_hasLength {α : Type} [Zero α] (x y : Tensor α) (dimBeam T : Nat)
    (hx : HasLength x T) (h : JoinHeads x dimBeam = .ok y) : HasLength y T := by
  obtain ⟨a, b, d, hs⟩ := hx
  unfold JoinHeads at h
  rw [hs, dimBack_four_1, dimBack_four_2, dimBack_four_3, dimBack_four_4] at h
  simp only [bind, Except.bind] at h
  cases hdiv : divide a dimBeam with
  | error e => rw [hdiv] at h; cases h
  | ok dimBatch =>
    rw [hdiv] at h
    simp only at h
    cases ht : transpose x [0, 2, 1, 3] with
    | error e => rw [ht] at h; cases h
    | ok z =>
      rw [ht] at h
      simp only at h
      exact ⟨_, _, _, reshape_shape z y _ h⟩

theorem Attention_hasLength {α : Type} [Field α] (K : Kernels α) (self : DecoderTransformer)
    (pre : String) (q k v values mask out : Tensor α) (T : Nat)
    (hq : HasLength q T) (hm : MaskFits mask T)
    (h : Attention K self pre q k v values mask = .ok out) : HasLength out T := by
  unfold Attention at h
  rw [bind_eq_ok] at h
  obtain ⟨dk, -, h⟩ := h
  rw [bind_eq_ok] at h
  obtain ⟨dimBeamQ, -, h⟩ := h
  rw [bind_eq_ok] at h
  obtain ⟨dimBeamK, -, h⟩ := h
  rw [bind_eq_ok] at h
  obtain ⟨dimBeam, -, h⟩ := h
  rw [bind_eq_ok] at h
  obtain ⟨k', -, h⟩ := h
  rw [bind_eq_ok] at h
  obtain ⟨v', -, h⟩ := h
  rw [bind_eq_ok] at h
  obtain ⟨z, hz, h⟩ := h
  rw [bind_eq_ok] at h
  obtain ⟨z', hz', h⟩ := h
  rw [bind_eq_ok] at h
  obtain ⟨w, hw, h⟩ := h
  rw [bind_eq_ok] at h
  obtain ⟨w', hw', h⟩ := h
  have h1 : HasLength z T := bdot_hasLength q k' z true _ T hq hz
  obtain ⟨m, hml, hmT⟩ := hm
  have h2 : HasLength z' T := zipWithB_hasLength _ z mask z' T m h1 hml hmT hz'
  have h3 : HasLength w T := by
    obtain ⟨a, b, d, hs⟩ := h2
    exact ⟨a, b, d, by rw [softmax_shape K z' w hw, hs]⟩
  have h4 : HasLength w' T := by
    obtain ⟨a, b, d, hs⟩ := h3
    exact ⟨a, b, d, by rw [dropout_shape K w w' _ hw', hs]⟩
  exact bdot_hasLength w' v' out false 1 T h4 h

theorem MultiHeadSource_hasLength {α : Type} [Field α] (K : Kernels α)
    (self : DecoderTransformer) (pre : String) (dimHeads : Nat) (q qh : Tensor α)
    (dimModel : Nat) (keys values masks : List (Tensor α)) (i : Nat) (out : Tensor α) (T : Nat)
    (hqh : HasLength qh T) (hm : ∀ mask ∈ masks, MaskFits mask T)
    (h : MultiHeadSource K self pre dimHeads q qh dimModel keys values masks i = .ok out) :
    HasLength out T := by
  unfold MultiHeadSource at h
  rw [bind_eq_ok] at h
  obtain ⟨key, -, h⟩ := h
  rw [bind_eq_ok] at h
  obtain ⟨value, -, h⟩ := h
  rw [bind_eq_ok] at h
  obtain ⟨kh, -, h⟩ := h
  rw [bind_eq_ok] at h
  obtain ⟨vh, -, h⟩ := h
  rw [bind_eq_ok] at h
  obtain ⟨kh', -, h⟩ := h
  rw [bind_eq_ok] at h
  obtain ⟨vh', -, h⟩ := h
  rw [bind_eq_ok] at h
  obtain ⟨mask, hmask, h⟩ := h
  rw [bind_eq_ok] at h
  obtain ⟨output, hout, h⟩ := h
  rw [bind_eq_ok] at h
  obtain ⟨dimBeam, -, h⟩ := h
  rw [orFail_eq_ok] at hmask
  have hfit := hm mask (List.mem_iff_getElem?.mpr ⟨i, hmask⟩)
  exact JoinHeads_hasLength output out dimBeam T
    (Attention_hasLength K self pre qh kh' vh' value mask output T hqh hfit hout) h

theorem forEach_ok_mem {β γ : Type} (f : β → Result γ) :
    ∀ (l : List β) (r : List γ), forEach f l = .ok r → ∀ y ∈ r, ∃ x ∈ l, f x = .ok y
  | [], r, h, y, hy => by
      unfold forEach at h
      cases h
      simp at hy
  | a :: l, r, h, y, hy => by
      obtain ⟨z, ys, hz, hys, rfl⟩ := forEach_ok_cons f a l r h
      rcases List.mem_cons.mp hy with rfl | hmem
      · exact ⟨a, List.mem_cons_self _ _, hz⟩
      · obtain ⟨x, hx, hfx⟩ := forEach_ok_mem f l ys hys y hmem
        exact ⟨x, List.mem_cons_of_mem _ hx, hfx⟩

theorem MultiHead_hasLength {α : Type} [Field α] (K : Kernels α) (self : DecoderTransformer)
    (pre : String) (dimOut dimHeads : Nat) (q : Tensor α) (keys values masks : List (Tensor α))
    (out : Tensor α) (T : Nat) (hq : HasLength q T) (hm : ∀ mask ∈ masks, MaskFits mask T)
    (h : MultiHead K self pre dimOut dimHeads q keys values masks = .ok out) :
    HasLength out T := by
  unfold MultiHead at h
  rw [bind_eq_ok] at h
  obtain ⟨dimModel, -, h⟩ := h
  rw [bind_eq_ok] at h
  obtain ⟨qh, hqh, h⟩ := h
  rw [bind_eq_ok] at h
  obtain ⟨qh', hqh', h⟩ := h
  rw [bind_eq_ok] at h
  obtain ⟨outputs, houts, h⟩ := h
  rw [bind_eq_ok] at h
  obtain ⟨output, hout, h⟩ := h
  rw [bind_eq_ok] at h
  obtain ⟨dimAtt, -, h⟩ := h
  have h1 : HasLength qh T := affine_hasLength q _ _ qh T dimModel hq rfl hqh
  have h2 : HasLength qh' T := SplitHeads_hasLength qh qh' dimHeads T h1 hqh'
  have h3 : ∀ o ∈ outputs, HasLength o T := by
    intro o ho
    obtain ⟨i, -, hi⟩ := forEach_ok_mem _ _ _ houts o ho
    exact MultiHeadSource_hasLength K self pre dimHeads q qh' dimModel keys values masks i o T
      h2 hm hi
  have h4 : HasLength output T := by
    split_ifs at hout with hlen
    · cases houtputs : outputs with
      | nil => rw [houtputs] at hlen; simp at hlen
      | cons o rest =>
        rw [houtputs] at hout
        obtain ⟨a, b, d, hs⟩ := h3 o (by rw [houtputs]; exact List.mem_cons_self _ _)
        have := (concatenate_shape o rest 1 output hout).1
        rw [hs] at this
        exact ⟨a, b, _, by rw [this]; rfl⟩
    · rw [orFail_eq_ok] at hout
      exact h3 output (List.mem_of_mem_head? hout)
  simp only at h
  split_ifs at h
  · exact affine_hasLength output _ _ out T dimOut h4 rfl h
  · cases h; exact h4

theorem LayerAttention__hasLength {α : Type} [Field α] (K : Kernels α)
    (self : DecoderTransformer) (pre : String) (input : Tensor α)
    (keys values masks : List (Tensor α)) (out : Tensor α) (T : Nat)
    (hi : HasLength input T) (hm : ∀ mask ∈ masks, MaskFits mask T)
    (h : LayerAttention_ K self pre input keys values masks = .ok out) : HasLength out T := by
  unfold LayerAttention_ at h
  rw [bind_eq_ok] at h
  obtain ⟨dimModel, -, h⟩ := h
  rw [bind_eq_ok] at h
  obtain ⟨output, hpre, h⟩ := h
  rw [bind_eq_ok] at h
  obtain ⟨output', hmh, h⟩ := h
  have h1 : HasLength output T := by
    obtain ⟨a, b, d, hs⟩ := hi
    exact ⟨a, b, d, by rw [preProcess_shape K _ _ input output _ hpre, hs]⟩
  have h2 : HasLength output' T :=
    MultiHead_hasLength K self pre dimModel _ output keys values masks output' T h1 hm hmh
  exact postProcess_hasLength K _ _ output' input out _ T h2 hi h

theorem LayerAttention_hasLength {α : Type} [Field α] (K : Kernels α)
    (self : DecoderTransformer) (pre : String) (input keys values mask out : Tensor α) (T : Nat)
    (hi : HasLength input T) (hm : MaskFits mask T)
    (h : LayerAttention K self pre input keys values mask = .ok out) : HasLength out T := by
  unfold LayerAttention at h
  exact LayerAttention__hasLength K self pre input [keys] [values] [mask] out T hi
    (by intro m hmem; simp only [List.mem_singleton] at hmem; subst hmem; exact hm) h

theorem transposedLogMask_fits {α : Type} [Field α] (mask out : Tensor α) (T : Nat)
    (hm : dimBack mask.shape 2 = .ok T) (h : transposedLogMask mask = .ok out) :
    HasLength out T := by
  unfold transposedLogMask at h
  rw [bind_eq_ok] at h
  obtain ⟨ms3, -, h⟩ := h
  rw [bind_eq_ok] at h
  obtain ⟨ms2, hms2, h⟩ := h
  rw [bind_eq_ok] at h
  obtain ⟨ms1, -, h⟩ := h
  rw [hm] at hms2
  cases hms2
  exact ⟨_, _, _, reshape_shape _ out _ h⟩

theorem activationByName_shape {α : Type} [Field α] (K : Kernels α) (name : String)
    (f : Tensor α → Tensor α) (h : activationByName K name = .ok f) :
    ∀ t, (f t).shape = t.shape := by
  unfold activationByName at h
  split_ifs at h
  · cases h; intro t; rfl
  · cases h; intro t; rfl

theorem denseStack_hasLength {α : Type} [Field α] (K : Kernels α) (pre : String) (dim : Nat)
    (actFn : Tensor α → Tensor α) (dropProb : ℚ) (T : Nat)
    (hact : ∀ t, (actFn t).shape = t.shape) :
    ∀ (is : List Nat) (x y : Tensor α), HasLength x T →
      denseStack K pre dim actFn dropProb is x = .ok y → HasLength y T
  | [], x, y, hx, h => by
      unfold denseStack at h
      cases h; exact hx
  | i :: is, x, y, hx, h => by
      unfold denseStack at h
      cases hd : dense K x pre (toString i) dim (some actFn) dropProb with
      | error e => rw [hd] at h; cases h
      | ok z =>
        rw [hd] at h
        exact denseStack_hasLength K pre dim actFn dropProb T hact is z y
          (dense_hasLength K x z pre _ dim (some actFn) dropProb T
            (by intro f hf; cases hf; exact hact) hx hd) h

theorem LayerFFN_hasLength {α : Type} [Field α] (K : Kernels α) (self : DecoderTransformer)
    (pre : String) (input out : Tensor α) (T : Nat) (hi : HasLength input T)
    (h : LayerFFN K self pre input = .ok out) : HasLength out T := by
  unfold LayerFFN at h
  rw [bind_eq_ok] at h
  obtain ⟨dimModel, -, h⟩ := h
  rw [bind_eq_ok] at h
  obtain ⟨output, hpre, h⟩ := h
  rw [bind_eq_ok] at h
  obtain ⟨actFn, hact, h⟩ := h
  simp only at h
  by_cases hdepth : self.options_.transformer_ffn_depth < 1
  · rw [if_pos hdepth] at h; cases h
  rw [if_neg hdepth] at h
  rw [bind_eq_ok] at h
  obtain ⟨o1, hstack, h⟩ := h
  rw [bind_eq_ok] at h
  obtain ⟨o2, hdense, h⟩ := h
  have h1 : HasLength output T := by
    obtain ⟨a, b, d, hs⟩ := hi
    exact ⟨a, b, d, by rw [preProcess_shape K _ _ input output _ hpre, hs]⟩
  have h2 : HasLength o1 T :=
    denseStack_hasLength K pre _ actFn _ T (activationByName_shape K _ actFn hact) _ output o1
      h1 hstack
  have h3 : HasLength o2 T :=
    dense_hasLength K o1 o2 pre _ dimModel none 0 T (by intro f hf; cases hf) h2 hdense
  exact postProcess_hasLength K _ _ o2 input out _ T h3 hi h

/-- What a successful call of `DecoderLayerSelfAttention` leaves in `decoderState` and
returns. -/
theorem DecoderLayerSelfAttention_ok {α : Type} [Field α] (K : Kernels α)
    (self : DecoderTransformer) (decoderState prevDecoderState : State α) (pre : String)
    (input selfMask : Tensor α) (startPos : Nat) (ds : State α) (out : Tensor α) (T : Nat)
    (hi : HasLength input T) (hm : dimBack selfMask.shape 2 = .ok T)
    (h : DecoderLayerSelfAttention K self decoderState prevDecoderState pre input selfMask
      startPos = .ok (ds, out)) :
    HasLength out T ∧
    (startPos = 0 → ds.output = some input) ∧
    (0 < startPos → ∃ prev c, prevDecoderState.output = some prev ∧
      concatenate [prev, input] 2 = .ok c ∧ ds.output = some c) := by
  unfold DecoderLayerSelfAttention at h
  rw [bind_eq_ok] at h
  obtain ⟨mask, hmask, h⟩ := h
  rw [bind_eq_ok] at h
  obtain ⟨values, hvalues, h⟩ := h
  rw [bind_eq_ok] at h
  obtain ⟨o, hatt, h⟩ := h
  simp only [pure, Except.pure, Except.ok.injEq, Prod.mk.injEq] at h
  obtain ⟨rfl, rfl⟩ := h
  have hfit : MaskFits mask T := ⟨T, transposedLogMask_fits selfMask mask T hm hmask, Or.inl rfl⟩
  refine ⟨LayerAttention_hasLength K self pre input values values mask o T hi hfit hatt, ?_, ?_⟩
  · intro h0
    subst h0
    simp only [Nat.lt_irrefl, if_false, gt_iff_lt, pure, Except.pure] at hvalues
    cases hvalues
    rfl
  · intro hpos
    rw [if_pos hpos, bind_eq_ok] at hvalues
    obtain ⟨prev, hprev, hcat⟩ := hvalues
    rw [deref_eq_ok] at hprev
    exact ⟨prev, values, hprev, hcat, rfl⟩

theorem contextAttention_hasLength {α : Type} [Field α] (K : Kernels α)
    (self : DecoderTransformer) (i T : Nat) :
    ∀ (encoders : List (Nat × (Tensor α × Tensor α))) (query out : Tensor α),
      (∀ e ∈ encoders, MaskFits e.2.2 T) → HasLength query T →
      contextAttention K self i encoders query = .ok out → HasLength out T
  | [], query, out, _, hq, h => by
      unfold contextAttention at h
      cases h; exact hq
  | (j, (ctx, mask)) :: rest, query, out, hm, hq, h => by
      unfold contextAttention at h
      simp only at h
      cases ha : LayerAttention K self
          (if j > 0 then self.prefix_ ++ "_l" ++ toString i ++ "_context" ++ "_enc"
            ++ toString (j + 1) else self.prefix_ ++ "_l" ++ toString i ++ "_context")
          query ctx ctx mask with
      | error e => rw [ha] at h; cases h
      | ok q' =>
        rw [ha] at h
        exact contextAttention_hasLength K self i T rest q' out
          (fun e he => hm e (List.mem_cons_of_mem _ he))
          (LayerAttention_hasLength K self _ query ctx ctx mask q' T hq
            (hm (j, (ctx, mask)) (List.mem_cons_self _ _)) ha) h

/-- What a successful iteration of the loop over the decoder layers pushes and returns,
with self-attention layers. -/
theorem decoderLayer_ok {α : Type} [Field α] (K : Kernels α) (self : DecoderTransformer)
    (prevDecoderStates : List (State α)) (selfMask : Tensor α) (startPos : Nat)
    (encoders : List (Tensor α × Tensor α)) (i : Nat) (query : Tensor α) (ds : State α)
    (out : Tensor α) (T : Nat)
    (hself : self.options_.transformer_decoder_autoreg = "self-attention")
    (hq : HasLength query T) (hm : dimBack selfMask.shape 2 = .ok T)
    (he : ∀ e ∈ encoders, MaskFits e.2 T)
    (h : decoderLayer K self prevDecoderStates selfMask startPos encoders i query
      = .ok (ds, out)) :
    HasLength out T ∧
    (startPos = 0 → ds.output = some query) ∧
    (0 < startPos → ∃ prevState prev c, prevDecoderStates[i - 1]? = some prevState ∧
      prevState.output = some prev ∧ concatenate [prev, query] 2 = .ok c ∧
      ds.output = some c) := by
  unfold decoderLayer at h
  rw [bind_eq_ok] at h
  obtain ⟨prevState, hprev, h⟩ := h
  rw [bind_eq_ok] at h
  obtain ⟨⟨ds', q1⟩, hauto, h⟩ := h
  simp only at h
  rw [bind_eq_ok] at h
  obtain ⟨q2, hctx, h⟩ := h
  rw [bind_eq_ok] at h
  obtain ⟨q3, hffn, h⟩ := h
  simp only [pure, Except.pure, Except.ok.injEq, Prod.mk.injEq] at h
  obtain ⟨rfl, rfl⟩ := h
  rw [if_pos hself] at hauto
  obtain ⟨h1, h2, h3⟩ := DecoderLayerSelfAttention_ok K self _ prevState _ query selfMask
    startPos ds' q1 T hq hm hauto
  have h4 : HasLength q2 T :=
    contextAttention_hasLength K self i T encoders.enum q1 q2
      (fun e hmem => he e.2 (List.snd_mem_of_mem_enumFrom hmem)) h1 hctx
  refine ⟨LayerFFN_hasLength K self _ q2 q3 T h4 hffn, h2, ?_⟩
  intro hpos
  obtain ⟨prev, c, hp, hc, hd⟩ := h3 hpos
  refine ⟨prevState, prev, c, ?_, hp, hc, hd⟩
  by_cases hlen : prevDecoderStates.length > 0
  · rw [if_pos hlen, orFail_eq_ok] at hprev
    exact hprev
  · rw [if_neg hlen] at hprev
    cases hprev
    cases hp

/-- The states pushed by the loop over the decoder layers, with self-attention layers:
at position 0 the input of the layer, later the cache of the layer followed by its
input. -/
theorem decoderLayers_ok {α : Type} [Field α] (K : Kernels α) (self : DecoderTransformer)
    (prevDecoderStates : List (State α)) (selfMask : Tensor α) (startPos : Nat)
    (encoders : List (Tensor α × Tensor α)) (T : Nat)
    (hself : self.options_.transformer_decoder_autoreg = "self-attention")
    (hm : dimBack selfMask.shape 2 = .ok T) (he : ∀ e ∈ encoders, MaskFits e.2 T) :
    ∀ (is : List Nat) (query : Tensor α) (states : List (State α)) (out : Tensor α),
      HasLength query T →
      decoderLayers K self prevDecoderStates selfMask startPos encoders is query
        = .ok (states, out) →
      states.length = is.length ∧ HasLength out T ∧
      ∀ (idx i : Nat) (s : State α), is[idx]? = some i → states[idx]? = some s →
        ∃ input,
          (decoderLayerInputs K self prevDecoderStates selfMask startPos encoders is query)[idx]?
            = some input ∧
          HasLength input T ∧
          (startPos = 0 → s.output = some input) ∧
          (0 < startPos → ∃ prevState prev c, prevDecoderStates[i - 1]? = some prevState ∧
            prevState.output = some prev ∧ concatenate [prev, input] 2 = .ok c ∧
            s.output = some c)
  | [], query, states, out, hq, h => by
      unfold decoderLayers at h
      simp only [Except.ok.injEq, Prod.mk.injEq] at h
      obtain ⟨rfl, rfl⟩ := h
      refine ⟨rfl, hq, ?_⟩
      intro idx i s hi
      simp at hi
  | i0 :: is, query, states, out, hq, h => by
      unfold decoderLayers at h
      cases hl : decoderLayer K self prevDecoderStates selfMask startPos encoders i0 query with
      | error e => rw [hl] at h; cases h
      | ok r =>
        obtain ⟨ds, q1⟩ := r
        rw [hl] at h
        simp only at h
        cases hrest : decoderLayers K self prevDecoderStates selfMask startPos encoders is q1 with
        | error e => rw [hrest] at h; cases h
        | ok r' =>
          obtain ⟨states', out'⟩ := r'
          rw [hrest] at h
          simp only [Except.ok.injEq, Prod.mk.injEq] at h
          obtain ⟨rfl, rfl⟩ := h
          obtain ⟨h1, h2, h3⟩ := decoderLayer_ok K self prevDecoderStates selfMask startPos
            encoders i0 query ds q1 T hself hq hm he hl
          obtain ⟨g1, g2, g3⟩ := decoderLayers_ok K self prevDecoderStates selfMask startPos
            encoders T hself hm he is q1 states' out' h1 hrest
          refine ⟨by simp [g1], g2, ?_⟩
          intro idx i s hi hs
          cases idx with
          | zero =>
            simp only [List.getElem?_cons_zero, Option.some.injEq] at hi hs
            subst hi; subst hs
            refine ⟨query, ?_, hq, h2, h3⟩
            unfold decoderLayerInputs
            simp
          | succ idx =>
            simp only [List.getElem?_cons_succ] at hi hs
            obtain ⟨input, k1, k2, k3, k4⟩ := g3 idx i s hi hs
            refine ⟨input, ?_, k2, k3, k4⟩
            unfold decoderLayerInputs
            rw [hl]
            simpa using k1

/-! ## Shapes in the prologue of `step` -/

theorem broadcastDims_length : ∀ (xs ys s : List Nat), broadcastDims xs ys = .ok s →
    s.length = xs.length ∧ xs.length = ys.length
  | [], [], s, h => by
      unfold broadcastDims at h
      cases h; exact ⟨rfl, rfl⟩
  | [], _ :: _, s, h => by
      unfold broadcastDims at h
      cases h
  | _ :: _, [], s, h => by
      unfold broadcastDims at h
      cases h
  | x :: xs, y :: ys, s, h => by
      obtain ⟨rest, hrest, rfl, -⟩ := broadcastDims_cons x y xs ys s h
      obtain ⟨h1, h2⟩ := broadcastDims_length xs ys rest hrest
      simp [h1, h2]

theorem padShape_length (n : Nat) (s : List Nat) : (padShape n s).length = max n s.length := by
  unfold padShape
  simp only [List.length_append, List.length_replicate]
  omega

theorem broadcastShape_length (a b s : List Nat) (h : broadcastShape a b = .ok s) :
    s.length = max a.length b.length := by
  unfold broadcastShape at h
  obtain ⟨h1, -⟩ := broadcastDims_length _ _ _ h
  rw [h1, padShape_length]
  omega

theorem broadcast_keeps (x y : Nat) (h : y = 1 ∨ y = x) :
    (if x = y then x else if x = 1 then y else x) = x := by
  rcases h with rfl | rfl
  · by_cases hx : x = 1
    · simp [hx]
    · simp [hx]
  · simp

theorem broadcastDims_keeps : ∀ (xs ys s : List Nat), broadcastDims xs ys = .ok s →
    List.Forall₂ (fun x y => y = 1 ∨ y = x) xs ys → s = xs
  | [], [], s, h, _ => by
      unfold broadcastDims at h
      cases h; rfl
  | [], _ :: _, s, h, _ => by
      unfold broadcastDims at h
      cases h
  | _ :: _, [], s, h, _ => by
      unfold broadcastDims at h
      cases h
  | x :: xs, y :: ys, s, h, hall => by
      obtain ⟨rest, hrest, rfl, -⟩ := broadcastDims_cons x y xs ys s h
      cases hall with
      | cons hxy htail =>
        rw [broadcast_keeps x y hxy, broadcastDims_keeps xs ys rest hrest htail]

/-- A tensor of three or four axes with `T` entries on the third axis from the end. -/
theorem shape_three_or_four (s : List Nat) (T : Nat) (h3 : dimBack s 3 = .ok T)
    (h4 : s.length ≤ 4) :
    (∃ b d, s = [T, b, d]) ∨ (∃ a b d, s = [a, T, b, d]) := by
  match s, h3, h4 with
  | [x, b, d], h3, _ =>
    left
    simp [dimBack] at h3
    exact ⟨b, d, by rw [h3]⟩
  | [a, x, b, d], h3, _ =>
    right
    rw [dimBack_four_3] at h3
    cases h3
    exact ⟨a, b, d, rfl⟩
  | [], h3, _ => simp [dimBack] at h3
  | [_], h3, _ => simp [dimBack] at h3
  | [_, _], h3, _ => simp [dimBack] at h3
  | _ :: _ :: _ :: _ :: _ :: _, _, h4 => simp at h4

theorem encoderContextAndMask_fits {α : Type} [Field α] (dimBatch dimBeam : Nat)
    (encoderState : EncoderState α) (ctx mask : Tensor α) (T : Nat)
    (h : encoderContextAndMask dimBatch dimBeam encoderState = .ok (ctx, mask)) :
    MaskFits mask T := by
  unfold encoderContextAndMask at h
  rw [bind_eq_ok] at h
  obtain ⟨c0, -, h⟩ := h
  rw [bind_eq_ok] at h
  obtain ⟨m0, -, h⟩ := h
  rw [bind_eq_ok] at h
  obtain ⟨c1, -, h⟩ := h
  rw [bind_eq_ok] at h
  obtain ⟨dimSrcWords, -, h⟩ := h
  rw [bind_eq_ok] at h
  obtain ⟨m1, -, h⟩ := h
  rw [bind_eq_ok] at h
  obtain ⟨m2, hm2, h⟩ := h
  rw [bind_eq_ok] at h
  obtain ⟨m3, hm3, h⟩ := h
  rw [bind_eq_ok] at h
  obtain ⟨m4, hm4, h⟩ := h
  simp only [pure, Except.pure, Except.ok.injEq, Prod.mk.injEq] at h
  obtain ⟨-, rfl⟩ := h
  have h2 : dimBack m2.shape 2 = .ok 1 := by
    rw [reshape_shape m1 m2 _ hm2, dimBack_four_2]
  have h3 : HasLength m3 1 := transposedLogMask_fits m2 m3 1 h2 hm3
  refine ⟨1, ?_, Or.inr rfl⟩
  split_ifs at hm4
  · exact repeatOp_hasLength m3 m4 dimBeam 1 h3 hm4
  · cases hm4; exact h3

theorem broadcastShape_keeps_signal (s s' : List Nat) (T W D : Nat)
    (h3 : dimBack s 3 = .ok T) (h4 : s.length ≤ 4) (hW : W = T)
    (hD : D = 1 ∨ dimBack s 1 = .ok D) (h : broadcastShape s [W, 1, D] = .ok s') : s' = s := by
  subst hW
  rcases shape_three_or_four s W h3 h4 with ⟨b, d, rfl⟩ | ⟨a, b, d, rfl⟩
  · have hD' : D = 1 ∨ D = d := by
      rcases hD with h1 | h1
      · exact Or.inl h1
      · simp [dimBack] at h1
        exact Or.inr h1.symm
    simp only [broadcastShape, padShape, List.length_cons, List.length_nil, Nat.max_self,
      Nat.sub_self, List.replicate_zero, List.nil_append] at h
    exact broadcastDims_keeps _ _ _ h
      (.cons (Or.inr rfl) (.cons (Or.inl rfl) (.cons hD' .nil)))
  · have hD' : D = 1 ∨ D = d := by
      rcases hD with h1 | h1
      · exact Or.inl h1
      · rw [dimBack_four_1] at h1
        cases h1
        exact Or.inr rfl
    simp only [broadcastShape, padShape, List.length_cons, List.length_nil] at h
    exact broadcastDims_keeps _ _ _ h
      (.cons (Or.inl rfl) (.cons (Or.inr rfl) (.cons (Or.inl rfl) (.cons hD' .nil))))

/-- The values a successful prologue of `step` hands to the loop over the layers, when the
target embeddings have `T` entries on the word axis. -/
theorem stepPrologue_ok {α : Type} [Field α] (K : Kernels α) (self : DecoderTransformer)
    (state : TransformerState α) (emb : Tensor α) (T : Nat) (query selfMask : Tensor α)
    (encoders : List (Tensor α × Tensor α))
    (hemb : state.targetEmbeddings_ = some emb) (hT : dimBack emb.shape 3 = .ok T)
    (h : self.stepPrologue K state = .ok (query, selfMask, encoders)) :
    HasLength query T ∧ dimBack selfMask.shape 2 = .ok T ∧ ∀ e ∈ encoders, MaskFits e.2 T := by
  unfold DecoderTransformer.stepPrologue at h
  rw [bind_eq_ok] at h
  obtain ⟨e0, he0, h⟩ := h
  rw [hemb, deref_eq_ok] at he0
  cases he0
  rw [bind_eq_ok] at h
  obtain ⟨emb1, hemb1, h⟩ := h
  rw [bind_eq_ok] at h
  obtain ⟨dimEmb, -, h⟩ := h
  rw [bind_eq_ok] at h
  obtain ⟨dimBeam, -, h⟩ := h
  rw [bind_eq_ok] at h
  obtain ⟨added, hadd, h⟩ := h
  rw [bind_eq_ok] at h
  obtain ⟨q0, hq0, h⟩ := h
  rw [bind_eq_ok] at h
  obtain ⟨q, hq, h⟩ := h
  rw [bind_eq_ok] at h
  obtain ⟨dimTrgWords, hwords, h⟩ := h
  rw [bind_eq_ok] at h
  obtain ⟨dimBatch, hbatch, h⟩ := h
  rw [bind_eq_ok] at h
  obtain ⟨sm, hsm, h⟩ := h
  rw [bind_eq_ok] at h
  obtain ⟨encs, hencs, h⟩ := h
  simp only [pure, Except.pure, Except.ok.injEq, Prod.mk.injEq] at h
  obtain ⟨rfl, rfl, rfl⟩ := h
  -- the shape of the sum with the positional signal
  unfold addPositionalEmbeddings at hadd
  rw [bind_eq_ok] at hadd
  obtain ⟨dE, hdE, hadd⟩ := hadd
  rw [bind_eq_ok] at hadd
  obtain ⟨dW, hdW, hadd⟩ := hadd
  have hadds := zipWithB_shape _ _ _ _ hadd
  simp only [mapT, constant] at hadds hdE hdW
  -- ranks
  obtain ⟨a, b, c, d, hpad, hq0s⟩ := transpose_0213 _ q0 hq0
  have hrank_added : added.shape.length ≤ 4 := by
    have := congrArg List.length hpad
    simp only [atleast_nd, padShape_length, List.length_cons, List.length_nil] at this
    omega
  have hrank_emb1 : emb1.shape.length ≤ 4 := by
    have := broadcastShape_length _ _ _ hadds
    omega
  have hemb1s : emb1.shape = emb.shape := by
    generalize (if self.inference_ = true then (0 : ℚ) else self.options_.dropout_trg) = p
      at hemb1
    by_cases hdrop : p ≠ 0
    · rw [if_pos hdrop, bind_eq_ok] at hemb1
      obtain ⟨trgWords, htw, hemb1⟩ := hemb1
      rw [hT] at htw
      cases htw
      unfold dropoutShaped at hemb1
      rw [if_neg hdrop] at hemb1
      have hs := zipWithB_shape _ _ _ _ hemb1
      simp only at hs
      have hlen := broadcastShape_length _ _ _ hs
      exact broadcastShape_keeps_signal emb.shape emb1.shape T T 1 hT (by omega) rfl
        (Or.inl rfl) hs
    · rw [if_neg hdrop] at hemb1
      cases hemb1; rfl
  rw [hemb1s] at hadds hdE hdW hrank_emb1
  rw [hT] at hdW
  cases hdW
  have hadded : added.shape = emb.shape :=
    broadcastShape_keeps_signal emb.shape added.shape T T dE hT hrank_emb1 rfl (Or.inr hdE)
      hadds
  have hq0l : HasLength q0 T := by
    simp only [atleast_nd, hadded] at hpad
    rcases shape_three_or_four emb.shape T hT hrank_emb1 with ⟨b', d', hs⟩ | ⟨a', b', d', hs⟩
    · rw [hs] at hpad
      simp only [padShape, List.length_cons, List.length_nil] at hpad
      cases hpad
      exact ⟨_, _, _, hq0s⟩
    · rw [hs] at hpad
      simp only [padShape, List.length_cons, List.length_nil] at hpad
      cases hpad
      exact ⟨_, _, _, hq0s⟩
  have hql : HasLength q T := by
    obtain ⟨x, y, z, hs⟩ := hq0l
    exact ⟨x, y, z, by rw [preProcess_shape K _ _ q0 q _ hq, hs]⟩
  rw [dimBack_hasLength q T hql] at hwords
  cases hwords
  refine ⟨hql, ?_, ?_⟩
  · unfold maskSelf at hsm
    cases hdm : state.targetMask_ with
    | none =>
      rw [hdm] at hsm
      cases hsm
      simp [triangleMask, constant, dimBack]
    | some dm =>
      rw [hdm] at hsm
      simp only at hsm
      rw [bind_eq_ok] at hsm
      obtain ⟨dm1, -, hsm⟩ := hsm
      rw [bind_eq_ok] at hsm
      obtain ⟨dm2, hdm2, hsm⟩ := hsm
      have hs := zipWithB_shape _ _ _ _ hsm
      rw [reshape_shape dm1 dm2 _ hdm2] at hs
      simp only [triangleMask, constant, broadcastShape, padShape, List.length_cons,
        List.length_nil] at hs
      obtain ⟨s0, s1, s3, hs'⟩ := broadcastDims_four _ _ _ _ _ _ _ _ _ hs
      rw [hs', dimBack_four_2, broadcast_keeps T 1 (Or.inl rfl)]
  · intro e he
    obtain ⟨es, -, hes⟩ := forEach_ok_mem _ _ _ hencs e he
    exact encoderContextAndMask_fits dimBatch dimBeam es e.1 e.2 T hes

/-! ## Growth of the self-attention caches -/

theorem selectState_shape {α : Type} (selIdx2 : List Nat)
    (beamSize dimBatch dimTime dimDepth : Nat) (state s' : State α)
    (h : selectState selIdx2 beamSize dimBatch dimTime dimDepth state = .ok s') :
    ∃ sel, s'.output = some sel ∧ sel.shape = [beamSize, dimBatch, dimTime, dimDepth] := by
  unfold selectState at h
  rw [bind_eq_ok] at h
  obtain ⟨out, -, h⟩ := h
  rw [bind_eq_ok] at h
  obtain ⟨flat, -, h⟩ := h
  rw [bind_eq_ok] at h
  obtain ⟨sel, -, h⟩ := h
  rw [bind_eq_ok] at h
  obtain ⟨sel', hsel', h⟩ := h
  cases h
  exact ⟨sel', rfl, reshape_shape sel sel' _ hsel'⟩

theorem concatenate_length {α : Type} (prev input c : Tensor α) (n m : Nat)
    (hp : dimBack prev.shape 2 = .ok n) (hi : HasLength input m)
    (h : concatenate [prev, input] 2 = .ok c) : dimBack c.shape 2 = .ok (n + m) := by
  obtain ⟨hs, hall⟩ := concatenate_shape prev [input] 2 c h
  obtain ⟨a, b, d, hin⟩ := hi
  have hset := hall input (by simp)
  have hlen : prev.shape.length = 4 := by
    have := congrArg List.length hset
    simp only [List.length_set, hin, List.length_cons, List.length_nil] at this
    omega
  match hps : prev.shape, hlen with
  | [p0, p1, p2, p3], _ =>
    rw [hps, dimBack_four_2] at hp
    cases hp
    rw [hs, hps]
    simp [dimBack, hps, hin]

theorem layerIndices_getElem? (self : DecoderTransformer) (idx : Nat)
    (h : idx < self.layerIndices.length) : self.layerIndices[idx]? = some (idx + 1) := by
  unfold DecoderTransformer.layerIndices at h ⊢
  simp only [List.length_map, List.length_range] at h
  simp [List.getElem?_range h]

/-- The caches in the state returned by a successful `step` with self-attention layers. -/
theorem stepState_caches {α : Type} [Field α] (K : Kernels α) (self : DecoderTransformer)
    (st stAfter st' : TransformerState α) (emb : Tensor α) (T : Nat)
    (hself : self.options_.transformer_decoder_autoreg = "self-attention")
    (hemb : st.targetEmbeddings_ = some emb) (hT : dimBack emb.shape 3 = .ok T)
    (h : self.stepState K st = .ok (stAfter, st')) :
    ∀ (idx : Nat) (s' : State α), st'.states_[idx]? = some s' →
      ∃ input, (self.stepLayerInputs K st)[idx]? = some input ∧ HasLength input T ∧
        (st.getPosition = 0 → s'.output = some input) ∧
        (0 < st.getPosition → ∃ prevState prev c, st.states_[idx]? = some prevState ∧
          prevState.output = some prev ∧ concatenate [prev, input] 2 = .ok c ∧
          s'.output = some c) := by
  obtain ⟨query, selfMask, encoders, decoderStates, out, logits, hpro, hlayers, -, rfl⟩ :=
    stepState_ok_elim K self st stAfter st' h
  obtain ⟨hq, hm, he⟩ := stepPrologue_ok K self st emb T query selfMask encoders hemb hT hpro
  obtain ⟨hlen, -, hall⟩ := decoderLayers_ok K self st.states_ selfMask st.getPosition encoders
    T hself hm he self.layerIndices query decoderStates out hq hlayers
  intro idx s' hs'
  have hs'' : decoderStates[idx]? = some s' := hs'
  have hidx : idx < self.layerIndices.length := by
    rw [← hlen]
    by_contra hcon
    rw [List.getElem?_eq_none_iff.mpr (by omega)] at hs''
    cases hs''
  obtain ⟨input, h1, h2, h3, h4⟩ := hall idx (idx + 1) s' (layerIndices_getElem? self idx hidx)
    hs''
  refine ⟨input, ?_, h2, h3, ?_⟩
  · unfold DecoderTransformer.stepLayerInputs
    rw [hpro]
    exact h1
  · intro hpos
    obtain ⟨prevState, prev, c, k1, k2, k3, k4⟩ := h4 hpos
    exact ⟨prevState, prev, c, by simpa using k1, k2, k3, k4⟩

theorem LazyCreateOutputLayer_options (self self' : DecoderTransformer) (pre : String)
    (h : self.LazyCreateOutputLayer pre = .ok self') : self'.options_ = self.options_ := by
  unfold DecoderTransformer.LazyCreateOutputLayer at h
  cases ho : self.output_ with
  | some l => rw [ho] at h; cases h; rfl
  | none =>
    rw [ho] at h
    simp only at h
    cases hv : self.options_.dim_vocabs[self.batchIndex_]? with
    | none => rw [hv] at h; cases h
    | some v => rw [hv] at h; cases h; rfl

/-- What holds of every reachable state with self-attention layers: the decoder keeps its
options, the position counts the steps, and after at least one step every cache has as
many entries on the length axis as there were steps. -/
theorem reachable_invariant {α : Type} [Field α] (K : Kernels α) (dec : DecoderTransformer)
    (graph batch : Nat) (encStates : List (EncoderState α))
    (hself : dec.options_.transformer_decoder_autoreg = "self-attention")
    (n : Nat) (d : DecoderTransformer) (st : TransformerState α)
    (hr : Reachable K dec graph batch encStates n d st) :
    d.options_ = dec.options_ ∧ st.getPosition = n ∧
    (1 ≤ n → ∀ s ∈ st.states_, ∃ c, s.output = some c ∧ dimBack c.shape 2 = .ok n) := by
  induction hr with
  | start => exact ⟨rfl, rfl, fun h => by omega⟩
  | @step n d d' st stAfter st' emb mask _ hemb hstep ih =>
    obtain ⟨ih1, ih2, ih3⟩ := ih
    obtain ⟨-, hlazy, hst⟩ := step_ok_elim K d d' graph _ stAfter st' hstep
    have hopt : d'.options_ = dec.options_ := by
      rw [LazyCreateOutputLayer_options d d' _ hlazy, ih1]
    obtain ⟨_, _, _, _, _, _, -, -, -, hst'⟩ := stepState_ok_elim K d' _ stAfter st' hst
    refine ⟨hopt, ?_, ?_⟩
    · rw [hst']
      show st.getPosition + 1 = n + 1
      rw [ih2]
    · intro _ s' hs'
      obtain ⟨idx, hidx⟩ := List.mem_iff_getElem?.mp hs'
      obtain ⟨input, -, h2, h3, h4⟩ := stepState_caches K d' _ stAfter st' emb 1
        (by rw [hopt]; exact hself) rfl hemb hst idx s' hidx
      have hpos : ({ st with targetEmbeddings_ := some emb, targetMask_ := mask }
          : TransformerState α).getPosition = n := ih2
      rw [hpos] at h3 h4
      by_cases hn : n = 0
      · subst hn
        exact ⟨input, h3 rfl, dimBack_hasLength input 1 h2⟩
      · obtain ⟨prevState, prev, c, k1, k2, k3, k4⟩ := h4 (by omega)
        obtain ⟨c0, hc0, hc0n⟩ := ih3 (by omega) prevState (List.mem_iff_getElem?.mpr ⟨idx, k1⟩)
        rw [k2] at hc0
        cases hc0
        exact ⟨c, k4, concatenate_length prev input c n 1 hc0n h2 k3⟩
  | @select n d st st' selIdx beamSize _ hsel ih =>
    obtain ⟨ih1, ih2, ih3⟩ := ih
    obtain ⟨s, rest, first, dimDepth, dimTime, selected, hs, hout, -, ht, -, hf, rfl⟩ :=
      select_ok_elim st st' selIdx beamSize hsel
    refine ⟨ih1, ih2, ?_⟩
    intro hn s' hs'
    obtain ⟨c0, hc0, hc0n⟩ := ih3 hn s (by rw [hs]; exact List.mem_cons_self _ _)
    rw [hout] at hc0
    cases hc0
    rw [hc0n] at ht
    cases ht
    obtain ⟨x, -, hx⟩ := forEach_ok_mem _ _ _ hf s' hs'
    obtain ⟨sel, h1, h2⟩ := selectState_shape _ _ _ _ _ x s' hx
    exact ⟨sel, h1, by rw [h2, dimBack_four_2]⟩

/-- C10: with self-attention layers, in every state reached from `startState` by `n >= 1`
calls of `step` on single-token inputs, with calls of `select` in between, every layer cache
has `n` entries on the length axis; and a further successful `step` stores for every layer
the cache of that layer followed, along the length axis, by the input of the layer. -/
theorem cache_grows_by_one_per_step {α : Type} [Field α] (K : Kernels α)
    (dec : DecoderTransformer) (graph batch : Nat) (encStates : List (EncoderState α))
    (hself : dec.options_.transformer_decoder_autoreg = "self-attention")
    (n : Nat) (d : DecoderTransformer) (st : TransformerState α)
    (hr : Reachable K dec graph batch encStates n d st) (hn : 1 ≤ n) :
    (∀ s ∈ st.states_, ∃ c, s.output = some c ∧ dimBack c.shape 2 = .ok n) ∧
    ∀ (emb : Tensor α) (mask : Expr α) (d' : DecoderTransformer)
      (stAfter st' : TransformerState α),
      dimBack emb.shape 3 = .ok 1 →
      d.step K graph { st with targetEmbeddings_ := some emb, targetMask_ := mask }
        = .ok (d', stAfter, st') →
      ∀ (idx : Nat) (s' : State α), st'.states_[idx]? = some s' →
        ∃ prevState prev input c,
          st.states_[idx]? = some prevState ∧ prevState.output = some prev ∧
          (d'.stepLayerInputs K
            { st with targetEmbeddings_ := some emb, targetMask_ := mask })[idx]? = some input ∧
          concatenate [prev, input] 2 = .ok c ∧ s'.output = some c ∧
          dimBack c.shape 2 = .ok (n + 1) := by
  obtain ⟨hopt, hpos, hcaches⟩ := reachable_invariant K dec graph batch encStates hself n d st hr
  refine ⟨hcaches hn, ?_⟩
  intro emb mask d' stAfter st' hemb hstep idx s' hs'
  obtain ⟨-, hlazy, hst⟩ := step_ok_elim K d d' graph _ stAfter st' hstep
  have hopt' : d'.options_.transformer_decoder_autoreg = "self-attention" := by
    rw [LazyCreateOutputLayer_options d d' _ hlazy, hopt]; exact hself
  obtain ⟨input, h1, h2, -, h4⟩ := stepState_caches K d' _ stAfter st' emb 1 hopt' rfl hemb hst
    idx s' hs'
  have hpos' : ({ st with targetEmbeddings_ := some emb, targetMask_ := mask }
      : TransformerState α).getPosition = n := hpos
  rw [hpos'] at h4
  obtain ⟨prevState, prev, c, k1, k2, k3, k4⟩ := h4 (by omega)
  obtain ⟨c0, hc0, hc0n⟩ := hcaches hn prevState (List.mem_iff_getElem?.mpr ⟨idx, k1⟩)
  rw [k2] at hc0
  cases hc0
  exact ⟨prevState, prev, input, c, k1, k2, h1, k3, k4,
    concatenate_length prev input c n 1 hc0n h2 k3⟩

theorem exampleTwoSteps_isOk :
    (match exampleTwoSteps with
      | .ok r => r.2.states_.length == 1
      | .error _ => false) = true := by
  decide

/-- Witness of C10: after two steps of `exampleDecoder` with a `select` in between, the
state holds one cache, and it has two entries on the length axis. -/
theorem cache_grows_by_one_per_step_witness :
    ∃ d st, Reachable exampleKernels exampleDecoder 7 0 [] 2 d st ∧ st.states_.length = 1 ∧
      ∀ s ∈ st.states_, ∃ c, s.output = some c ∧ dimBack c.shape 2 = .ok 2 := by
  have hok := exampleTwoSteps_isOk
  cases hrun : exampleTwoSteps with
  | error e => rw [hrun] at hok; cases hok
  | ok r =>
    rw [hrun] at hok
    obtain ⟨d2, s2⟩ := r
    unfold exampleTwoSteps at hrun
    rw [bind_eq_ok] at hrun
    obtain ⟨⟨d1, stA, s1⟩, h1, hrun⟩ := hrun
    simp only at hrun
    rw [bind_eq_ok] at hrun
    obtain ⟨s1', hsel, hrun⟩ := hrun
    rw [bind_eq_ok] at hrun
    obtain ⟨⟨d2', stA', s2'⟩, h2, hrun⟩ := hrun
    simp only [pure, Except.pure, Except.ok.injEq, Prod.mk.injEq] at hrun
    obtain ⟨rfl, rfl⟩ := hrun
    have r1 : Reachable exampleKernels exampleDecoder 7 0 [] 1 d1 s1 :=
      Reachable.step (Tensor.mk [1, 1, 1, 2] [1, 2]) none Reachable.start rfl h1
    have r2 : Reachable exampleKernels exampleDecoder 7 0 [] 2 d2' s2' :=
      Reachable.step (Tensor.mk [1, 1, 1, 2] [3, 4]) none (Reachable.select [0] 1 r1 hsel) rfl h2
    exact ⟨d2', s2', r2, by simpa using hok,
      (cache_grows_by_one_per_step exampleKernels exampleDecoder 7 0 [] rfl 2 d2' s2' r2
        (by decide)).1⟩

/-! ## Witnesses -/

theorem exampleState_shaped : CachesShaped exampleState 2 1 2 2 := by
  intro s hs
  simp only [exampleState, List.mem_singleton] at hs
  subst hs
  exact ⟨_, rfl, rfl, rfl⟩

/-- Witness of C1: `select` of hypotheses 1, 0 with beam size 2 on `exampleState`. -/
theorem select_gathers_hypotheses_witness :
    (exampleState.select [1, 0] 2).isOk = true :=
  (select_gathers_hypotheses exampleState 2 1 2 2 [1, 0] 2 exampleState_shaped (by decide)
    (by decide) (by decide)).1 (by decide) (by decide)

/-- Witness of C2: the identity selection on `exampleState`. -/
theorem select_identity_witness :
    (exampleState.select (List.range (2 * 1)) 2).isOk = true :=
  (select_identity exampleState 2 1 2 2 exampleState_shaped).1 (by decide) (by decide)
    (by decide)

/-- Witness of C3: entry `(1, 2)` of the triangle mask of length 3 is 0. -/
theorem triangleMask_lower_triangular_witness :
    (triangleMask 3 : Tensor ℚ).data[1 * 3 + 2]? = some (if 2 ≤ 1 then 1 else 0) :=
  (triangleMask_lower_triangular 3).2 1 2 (by decide) (by decide)

/-- Witness of C5 as amended: position 1 of two, band 1 of two, at start offset 3. -/
theorem positionalSignal_sin_then_cos_witness :
    (positionalSignal exampleKernels 4 2 3)[1 * 4 + 1]?
      = some (exampleKernels.sin (((3 + 1 : Nat) : ℚ) * exampleKernels.exp (((1 : Nat) : ℚ) *
          -(exampleKernels.log 10000 / (((4 / 2 : Nat) : ℚ) - 1))))) ∧
    (positionalSignal exampleKernels 4 2 3)[1 * 4 + (4 / 2 + 1)]?
      = some (exampleKernels.cos (((3 + 1 : Nat) : ℚ) * exampleKernels.exp (((1 : Nat) : ℚ) *
          -(exampleKernels.log 10000 / (((4 / 2 : Nat) : ℚ) - 1))))) :=
  positionalSignal_sin_then_cos exampleKernels 4 2 3 1 1 (by decide) (by decide)

/-- Witness of C7: the post-process-only symbol `a` in `preProcess`, and `x` in
`postProcess`. -/
theorem unknown_operations_rejected_witness :
    (preProcess exampleKernels "p" "na" (Tensor.mk [1, 1, 1, 2] [1, 2]) 0).aborts = true ∧
    (postProcess exampleKernels "p" "ax" (Tensor.mk [1, 1, 1, 2] [1, 2])
      (Tensor.mk [1, 1, 1, 2] [1, 2]) 0).aborts = true :=
  ⟨(unknown_operations_rejected exampleKernels "p" "na" (Tensor.mk [1, 1, 1, 2] [1, 2])
      (Tensor.mk [1, 1, 1, 2] [1, 2]) 0).1 ⟨'a', by decide, by decide, by decide⟩,
   (unknown_operations_rejected exampleKernels "p" "ax" (Tensor.mk [1, 1, 1, 2] [1, 2])
      (Tensor.mk [1, 1, 1, 2] [1, 2]) 0).2
      ⟨'x', by decide, by decide, by decide, by decide, by decide⟩⟩

theorem exampleStep_isOk :
    ((exampleDecoder.startState 7 0 ([] : List (EncoderState ℚ))).1.step exampleKernels 7
      exampleStart).isOk = true := by
  decide

/-- Witness of C8: the first step of `exampleDecoder` returns a state at position 1. -/
theorem step_advances_position_witness :
    ∃ self' stAfter st',
      (exampleDecoder.startState 7 0 ([] : List (EncoderState ℚ))).1.step exampleKernels 7
        exampleStart = .ok (self', stAfter, st') ∧
      st'.getPosition = exampleStart.getPosition + 1 ∧ stAfter = exampleStart := by
  have h := exampleStep_isOk
  cases hr : (exampleDecoder.startState 7 0 ([] : List (EncoderState ℚ))).1.step exampleKernels 7
      exampleStart with
  | error e => rw [hr] at h; cases h
  | ok r =>
    obtain ⟨self', stAfter, st'⟩ := r
    have hp := (step_advances_position exampleKernels
      (exampleDecoder.startState 7 0 ([] : List (EncoderState ℚ))).1 self' 7 exampleStart
      stAfter st').2 hr
    exact ⟨self', stAfter, st', rfl, hp.1, hp.2.1⟩

/-- Witness of C9: `select` of hypotheses 1, 0 on `exampleState` keeps position 3. -/
theorem select_frame_witness :
    ∃ st', exampleState.select [1, 0] 2 = .ok st' ∧
      st'.getPosition = exampleState.getPosition ∧ st'.probs_ = exampleState.probs_ ∧
      st'.encStates_ = exampleState.encStates_ ∧ st'.batch_ = exampleState.batch_ := by
  cases hr : exampleState.select [1, 0] 2 with
  | error e =>
    have h : (exampleState.select [1, 0] 2).isOk = true := by decide
    rw [hr] at h; cases h
  | ok st' => exact ⟨st', rfl, select_frame exampleState st' [1, 0] 2 hr⟩

/-! ## Calls that return: the engine operations and `MultiHead` -/

theorem ok_bind {β γ : Type} (a : β) (f : β → Result γ) :
    ((Except.ok a : Result β) >>= f) = f a := rfl

theorem dimBack_two_1 (a b : Nat) : dimBack [a, b] 1 = .ok b := by
  simp [dimBack]

theorem dimBack_two_2 (a b : Nat) : dimBack [a, b] 2 = .ok a := by
  simp [dimBack]

theorem broadcastShape_bias (a b c n : Nat) :
    broadcastShape [a, b, c, n] [1, n] = .ok [a, b, c, n] := by
  simp only [broadcastShape, padShape, List.length_cons, List.length_nil, broadcastDims]
  by_cases ha : a = 1 <;> by_cases hb : b = 1 <;> by_cases hc : c = 1 <;>
    simp [ha, hb, hc, broadcastDims]

theorem broadcastDims_fits : ∀ (xs ys : List Nat),
    List.Forall₂ (fun x y => y = 1 ∨ y = x) xs ys → broadcastDims xs ys = .ok xs
  | [], [], _ => rfl
  | [], _ :: _, h => by cases h
  | _ :: _, [], h => by cases h
  | x :: xs, y :: ys, h => by
      cases h with
      | cons hxy htail =>
        rw [broadcastDims, broadcastDims_fits xs ys htail]
        simp only []
        rcases hxy with rfl | rfl
        · by_cases hx : x = 1
          · rw [if_pos hx]
          · rw [if_neg hx, if_neg hx, if_pos rfl]
        · rw [if_pos rfl]

theorem FitsScores.broadcast {α : Type} {mask : Tensor α} {scores : List Nat}
    (h : FitsScores mask scores) : broadcastShape scores mask.shape = .ok scores := by
  have hlen : scores.length = mask.shape.length := List.Forall₂.length_eq h
  unfold broadcastShape padShape
  rw [hlen]
  simp only [Nat.max_self, Nat.sub_self, List.replicate_zero, List.nil_append]
  exact broadcastDims_fits _ _ h

theorem affine_returns {α : Type} [Field α] (x W bias : Tensor α) (a b c k n : Nat)
    (hx : x.shape = [a, b, c, k]) (hW : W.shape = [k, n]) (hb : bias.shape = [1, n]) :
    ∃ y, affine x W bias = .ok y ∧ y.shape = [a, b, c, n] := by
  unfold affine
  rw [hx, hW, dimBack_four_1, dimBack_two_2, dimBack_two_1]
  simp only [ok_bind, ne_eq, not_true_eq_false, if_false]
  unfold add zipWithB
  simp only [List.dropLast, List.cons_append, List.nil_append, hb, broadcastShape_bias]
  exact ⟨_, rfl, rfl⟩

theorem broadcastDims_last (n : Nat) : ∀ (xs ys s : List Nat),
    broadcastDims (xs ++ [n]) (ys ++ [n]) = .ok s → xs.length = ys.length →
    ∃ r, s = r ++ [n]
  | [], [], s, h, _ => by
      have hs : broadcastDims [n] [n] = .ok [n] := broadcastDims_self [n]
      have h' : broadcastDims [n] [n] = .ok s := h
      rw [hs] at h'
      exact ⟨[], (Except.ok.inj h').symm⟩
  | [], _ :: _, _, _, hlen => by simp at hlen
  | _ :: _, [], _, _, hlen => by simp at hlen
  | x :: xs, y :: ys, s, h, hlen => by
      have h' : broadcastDims (x :: (xs ++ [n])) (y :: (ys ++ [n])) = .ok s := h
      obtain ⟨rest, hrest, rfl, -⟩ := broadcastDims_cons x y _ _ s h'
      obtain ⟨r, rfl⟩ := broadcastDims_last n xs ys rest hrest (by simpa using hlen)
      exact ⟨_ :: r, rfl⟩

theorem broadcastShape_last (a b s : List Nat) (n : Nat)
    (h : broadcastShape (a ++ [n]) (b ++ [n]) = .ok s) : dimBack s 1 = .ok n := by
  unfold broadcastShape padShape at h
  rw [← List.append_assoc, ← List.append_assoc] at h
  obtain ⟨r, rfl⟩ := broadcastDims_last n _ _ s h (by
    simp only [List.length_append, List.length_replicate, List.length_singleton]
    omega)
  unfold dimBack
  simp

/-- What `affine` returns has the width of its weight matrix and bias. -/
theorem affine_width {α : Type} [Field α] (x W bias y : Tensor α) (k n : Nat)
    (hW : W.shape = [k, n]) (hb : bias.shape = [1, n]) (h : affine x W bias = .ok y) :
    dimBack y.shape 1 = .ok n := by
  unfold affine at h
  rw [bind_eq_ok] at h
  obtain ⟨k', -, h⟩ := h
  rw [bind_eq_ok] at h
  obtain ⟨wk, -, h⟩ := h
  rw [hW, dimBack_two_1, ok_bind] at h
  split_ifs at h
  have hs := zipWithB_shape _ _ _ y h
  rw [hb] at hs
  exact broadcastShape_last x.shape.dropLast [1] y.shape n hs

theorem transpose_0213_returns {α : Type} [Zero α] (x : Tensor α) (a b c d : Nat)
    (hx : x.shape = [a, b, c, d]) :
    ∃ y, transpose x [0, 2, 1, 3] = .ok y ∧ y.shape = [a, c, b, d] := by
  unfold transpose
  rw [hx]
  have hperm : ([0, 2, 1, 3] : List Nat).length = [a, b, c, d].length ∧
      ([0, 2, 1, 3] : List Nat).Perm (List.range [a, b, c, d].length) := by
    constructor
    · rfl
    · show ([0, 2, 1, 3] : List Nat).Perm [0, 1, 2, 3]
      decide
  rw [if_pos hperm]
  exact ⟨_, rfl, by simp⟩

theorem reshape_returns {α : Type} (x : Tensor α) (s : List Nat)
    (h : elements x.shape = elements s) :
    ∃ y, reshape x s = .ok y ∧ y.shape = s ∧ y.data = x.data := by
  unfold reshape
  rw [if_pos h]
  exact ⟨_, rfl, rfl, rfl⟩

theorem SplitHeads_returns {α : Type} [Zero α] (x : Tensor α) (a b c d dimHeads : Nat)
    (hx : x.shape = [a, b, c, d]) (hh : 1 ≤ dimHeads) (hdiv : dimHeads ∣ d) :
    ∃ y, SplitHeads x dimHeads = .ok y ∧ y.shape = [b * a, dimHeads, c, d / dimHeads] := by
  unfold SplitHeads
  rw [hx, dimBack_four_1, dimBack_four_2, dimBack_four_3, dimBack_four_4]
  have hne : dimHeads ≠ 0 := by omega
  simp only [ok_bind, divide, if_neg hne]
  have hel : elements x.shape = elements [b * a, c, dimHeads, d / dimHeads] := by
    rw [hx]
    simp only [elements, List.prod_cons, List.prod_nil, Nat.mul_one]
    rw [Nat.mul_div_cancel' hdiv]
    ring
  obtain ⟨z, hz, hzs, -⟩ := reshape_returns x _ hel
  rw [hz, ok_bind]
  exact transpose_0213_returns z _ _ _ _ hzs

theorem JoinHeads_returns {α : Type} [Zero α] (x : Tensor α) (B h c d dimBeam : Nat)
    (hx : x.shape = [B, h, c, d]) (hb : 1 ≤ dimBeam) (hdiv : dimBeam ∣ B) :
    ∃ y, JoinHeads x dimBeam = .ok y ∧ y.shape = [dimBeam, B / dimBeam, c, h * d] := by
  unfold JoinHeads
  rw [hx, dimBack_four_1, dimBack_four_2, dimBack_four_3, dimBack_four_4]
  have hne : dimBeam ≠ 0 := by omega
  simp only [ok_bind, divide, if_neg hne]
  obtain ⟨z, hz, hzs⟩ := transpose_0213_returns x B h c d hx
  rw [hz, ok_bind]
  have hel : elements z.shape = elements [dimBeam, B / dimBeam, c, h * d] := by
    rw [hzs]
    simp only [elements, List.prod_cons, List.prod_nil, Nat.mul_one]
    rw [← Nat.mul_assoc dimBeam, Nat.mul_div_cancel' hdiv]
  obtain ⟨y, hy, hys, -⟩ := reshape_returns z _ hel
  exact ⟨y, hy, hys⟩

theorem concatenate_replicate {α : Type} (x : Tensor α) (r a b c d : Nat)
    (hx : x.shape = [a, b, c, d]) (hr : 1 ≤ r) :
    ∃ y, concatenate (List.replicate r x) 4 = .ok y ∧ y.shape = [r * a, b, c, d] ∧
      (x.WellFormed → y.data = (List.replicate r x.data).flatten) := by
  obtain ⟨r', rfl⟩ : ∃ r', r = r' + 1 := ⟨r - 1, by omega⟩
  rw [List.replicate_succ]
  unfold concatenate
  simp only [hx, dimBack_four_4, ok_bind]
  have hall : (x :: List.replicate r' x).all
      (fun u => decide (u.shape.set ([a, b, c, d].length - 4) 0
        = [a, b, c, d].set ([a, b, c, d].length - 4) 0)) = true := by
    rw [List.all_eq_true]
    intro u hu
    have : u = x := by
      rcases List.mem_cons.mp hu with h | h
      · exact h
      · exact List.eq_of_mem_replicate h
    subst this
    simp [hx]
  rw [if_pos hall]
  refine ⟨_, rfl, ?_, ?_⟩
  · simp only [List.length_cons, List.length_nil, Nat.sub_self, List.set_cons_zero,
      List.map_cons, List.map_replicate, hx, List.getD_cons_zero, List.sum_cons,
      List.sum_replicate, smul_eq_mul]
    congr 1
    ring
  · intro hwf
    have hlen : x.data.length = a * (b * (c * d)) := by
      rw [hwf, hx]; simp
    rw [← List.replicate_succ]
    simp only [List.length_cons, List.length_nil, Nat.sub_self, List.take_zero, elements,
      List.prod_nil]
    rw [show List.range 1 = [0] by rfl]
    simp only [List.flatMap_cons, List.flatMap_nil, List.append_nil, List.flatMap_replicate,
      Nat.zero_mul, List.drop_zero, hx, List.getD_cons_zero, Nat.zero_add, List.drop_succ_cons,
      List.prod_cons, Nat.mul_one]
    rw [List.take_of_length_le (by rw [hlen]; simp)]

theorem repeatOp_returns {α : Type} (x : Tensor α) (r a b c d : Nat)
    (hx : x.shape = [a, b, c, d]) (hr : 1 ≤ r) :
    ∃ y, repeatOp x r 4 = .ok y ∧ y.shape = [r * a, b, c, d] ∧
      (x.WellFormed → y.data = (List.replicate r x.data).flatten) := by
  unfold repeatOp
  by_cases h1 : r = 1
  · subst h1
    rw [if_pos rfl]
    exact ⟨x, rfl, by rw [hx, Nat.one_mul], by intro _; simp⟩
  · rw [if_neg h1]
    exact concatenate_replicate x r a b c d hx hr

theorem bdot_returns {α : Type} [Field α] (x y : Tensor α) (transB : Bool) (scale : α)
    (a0 a1 m k b0 b1 r c : Nat) (hx : x.shape = [a0, a1, m, k]) (hy : y.shape = [b0, b1, r, c])
    (hk : k = if transB then c else r) :
    ∃ z, bdot x y false transB scale = .ok z ∧
      z.shape = [a0, a1, m, if transB then r else c] := by
  unfold bdot
  rw [hx, hy, dimBack_four_1, dimBack_four_2, dimBack_four_1, dimBack_four_2]
  simp only [ok_bind, Bool.false_eq_true, if_false]
  rw [if_neg (by rw [hk]; simp)]
  exact ⟨_, rfl, by simp [List.dropLast]⟩

theorem zipWithB_returns {α : Type} [Zero α] (f : α → α → α) (x y : Tensor α) (s : List Nat)
    (h : broadcastShape x.shape y.shape = .ok s) :
    ∃ z, zipWithB f x y = .ok z ∧ z.shape = s := by
  unfold zipWithB
  rw [h]
  exact ⟨_, rfl, rfl⟩

theorem softmax_returns {α : Type} [Field α] (K : Kernels α) (z : Tensor α) (a b c d : Nat)
    (hz : z.shape = [a, b, c, d]) : ∃ w, softmax K z = .ok w ∧ w.shape = [a, b, c, d] := by
  unfold softmax
  rw [hz, dimBack_four_1, ok_bind]
  exact ⟨_, rfl, rfl⟩

theorem dropout_returns {α : Type} [Field α] (K : Kernels α) (x : Tensor α) (p : ℚ) :
    ∃ y, dropout K x p = .ok y ∧ y.shape = x.shape := by
  unfold dropout dropoutShaped
  by_cases hp : p = 0
  · rw [if_pos hp]; exact ⟨x, rfl, rfl⟩
  · rw [if_neg hp]
    exact zipWithB_returns _ x (Tensor.mk x.shape (K.dropoutMask p x.shape)) x.shape
      (broadcastShape_self _)

/-- The function `Attention` is the broadcast of `k` and `v` followed by the scoring. -/
theorem Attention_eq {α : Type} [Field α] (K : Kernels α) (self : DecoderTransformer)
    (pre : String) (q k v values mask : Tensor α) :
    Attention K self pre q k v values mask
      = (dimBack k.shape 1 >>= fun dk => beamBroadcast q k v >>= fun kv =>
          attend K self dk q kv.1 kv.2 mask) := by
  unfold Attention beamBroadcast attend
  simp only [bind_assoc, pure_bind]

theorem beamBroadcast_returns {α : Type} (q k v : Tensor α) (Q Kk h Tq L d dv : Nat)
    (hq : q.shape = [Q, h, Tq, d]) (hk : k.shape = [Kk, h, L, d]) (hv : v.shape = [Kk, h, L, dv])
    (hQ : 1 ≤ Q) (hdiv : Kk ∣ Q) :
    ∃ k' v', beamBroadcast q k v = .ok (k', v') ∧
      k'.shape = [Q, h, L, d] ∧ v'.shape = [Q, h, L, dv] ∧
      (Q = Kk → k' = k ∧ v' = v) ∧
      (1 < Q / Kk → repeatOp k (Q / Kk) 4 = .ok k' ∧ repeatOp v (Q / Kk) 4 = .ok v') ∧
      (k.WellFormed → k'.data = (List.replicate (Q / Kk) k.data).flatten) ∧
      (v.WellFormed → v'.data = (List.replicate (Q / Kk) v.data).flatten) := by
  have hK : Kk ≠ 0 := by
    rintro rfl
    have := Nat.eq_zero_of_zero_dvd hdiv
    omega
  have hmul : Q / Kk * Kk = Q := Nat.div_mul_cancel hdiv
  have hr : 1 ≤ Q / Kk := by
    rcases Nat.eq_zero_or_pos (Q / Kk) with h0 | h0
    · rw [h0] at hmul; omega
    · exact h0
  unfold beamBroadcast
  rw [hq, hk, dimBack_four_4, dimBack_four_4]
  simp only [ok_bind, divide, if_neg hK]
  by_cases h1 : Q / Kk > 1
  · rw [if_pos h1, if_pos h1]
    obtain ⟨k', hk', hks, hkd⟩ := repeatOp_returns k (Q / Kk) Kk h L d hk hr
    obtain ⟨v', hv', hvs, hvd⟩ := repeatOp_returns v (Q / Kk) Kk h L dv hv hr
    rw [hk', ok_bind, hv', ok_bind]
    refine ⟨k', v', rfl, by rw [hks, hmul], by rw [hvs, hmul], ?_, fun _ => ⟨rfl, rfl⟩, hkd, hvd⟩
    intro hQK
    rw [hQK, Nat.div_self (by omega)] at h1
    omega
  · rw [if_neg h1, if_neg h1]
    have h1' : Q / Kk = 1 := by omega
    have hQK : Q = Kk := by rw [h1'] at hmul; omega
    refine ⟨k, v, rfl, by rw [hk, hQK], by rw [hv, hQK], fun _ => ⟨rfl, rfl⟩, ?_, ?_, ?_⟩
    · intro h; omega
    · intro _; rw [h1']; simp
    · intro _; rw [h1']; simp

theorem attend_returns {α : Type} [Field α] (K : Kernels α) (self : DecoderTransformer)
    (dk : Nat) (q k v mask : Tensor α) (Q h Tq L d dv k0 k1 v0 v1 : Nat)
    (hq : q.shape = [Q, h, Tq, d]) (hk : k.shape = [k0, k1, L, d])
    (hv : v.shape = [v0, v1, L, dv]) (hm : FitsScores mask [Q, h, Tq, L]) :
    ∃ out, attend K self dk q k v mask = .ok out ∧ out.shape = [Q, h, Tq, dv] := by
  unfold attend
  obtain ⟨z, hz, hzs⟩ := bdot_returns q k true (1 / K.sqrt (dk : α)) Q h Tq d k0 k1 L d hq hk rfl
  simp only [if_true] at hzs
  obtain ⟨z', hz', hzs'⟩ := zipWithB_returns (· + ·) z mask [Q, h, Tq, L]
    (by rw [hzs]; exact hm.broadcast)
  obtain ⟨w, hw, hws⟩ := softmax_returns K z' Q h Tq L hzs'
  obtain ⟨w', hw', hws'⟩ := dropout_returns K w
    (if self.inference_ then 0 else self.options_.transformer_dropout_attention)
  rw [hws] at hws'
  obtain ⟨out, hout, houts⟩ := bdot_returns w' v false 1 Q h Tq L v0 v1 L dv hws' hv rfl
  simp only [Bool.false_eq_true, if_false] at houts
  simp only [hz, ok_bind, add, hz', hw, hw', hout]
  exact ⟨out, rfl, houts⟩

theorem beamBroadcast_ok {α : Type} (q k v : Tensor α) (Q Kk h Tq L d dv : Nat)
    (hq : q.shape = [Q, h, Tq, d]) (hk : k.shape = [Kk, h, L, d]) (hv : v.shape = [Kk, h, L, dv])
    (hK : 1 ≤ Kk) :
    ∃ k' v' k0, beamBroadcast q k v = .ok (k', v') ∧
      k'.shape = [k0, h, L, d] ∧ v'.shape = [k0, h, L, dv] := by
  have hK' : Kk ≠ 0 := by omega
  unfold beamBroadcast
  rw [hq, hk, dimBack_four_4, dimBack_four_4]
  simp only [ok_bind, divide, if_neg hK']
  by_cases h1 : Q / Kk > 1
  · rw [if_pos h1, if_pos h1]
    obtain ⟨k', hk', hks, -⟩ := repeatOp_returns k (Q / Kk) Kk h L d hk (by omega)
    obtain ⟨v', hv', hvs, -⟩ := repeatOp_returns v (Q / Kk) Kk h L dv hv (by omega)
    rw [hk', ok_bind, hv', ok_bind]
    exact ⟨k', v', _, rfl, hks, hvs⟩
  · rw [if_neg h1, if_neg h1]
    exact ⟨k, v, _, rfl, hk, hv⟩

theorem Attention_returns {α : Type} [Field α] (K : Kernels α) (self : DecoderTransformer)
    (pre : String) (q k v values mask : Tensor α) (Q Kk h Tq L d : Nat)
    (hq : q.shape = [Q, h, Tq, d]) (hk : k.shape = [Kk, h, L, d]) (hv : v.shape = [Kk, h, L, d])
    (hK : 1 ≤ Kk) (hm : FitsScores mask [Q, h, Tq, L]) :
    ∃ out, Attention K self pre q k v values mask = .ok out ∧ out.shape = [Q, h, Tq, d] := by
  rw [Attention_eq, hk, dimBack_four_1, ok_bind]
  obtain ⟨k', v', k0, hb, hks, hvs⟩ := beamBroadcast_ok q k v Q Kk h Tq L d d hq hk hv hK
  rw [hb, ok_bind]
  exact attend_returns K self d q k' v' mask Q h Tq L d d k0 h k0 h hq hks hvs hm

theorem MultiHeadSource_returns {α : Type} [Field α] (K : Kernels α)
    (self : DecoderTransformer) (pre : String) (dimHeads : Nat) (q qh : Tensor α)
    (dimModel : Nat) (keys values masks : List (Tensor α)) (i : Nat)
    (beam batch Tq d0 : Nat) (key value mask : Tensor α)
    (hq : q.shape = [beam, batch, Tq, d0])
    (hqh : qh.shape = [batch * beam, dimHeads, Tq, dimModel / dimHeads])
    (hbeam : 1 ≤ beam) (hh : 1 ≤ dimHeads) (hdiv : dimHeads ∣ dimModel)
    (hkey : keys[i]? = some key) (hvalue : values[i]? = some value)
    (hmask : masks[i]? = some mask)
    (hsrc : SourceShaped dimHeads beam batch Tq dimModel key value mask) :
    ∃ out, MultiHeadSource K self pre dimHeads q qh dimModel keys values masks i = .ok out ∧
      out.shape = [beam, batch, Tq, dimModel] := by
  obtain ⟨bk, ck, L, hks, hvs, hpos, -, hfit⟩ := hsrc
  unfold MultiHeadSource
  simp only [hkey, hvalue, hmask, orFail, ok_bind]
  obtain ⟨kh, hkh, hkhs⟩ := affine_returns key
    (graphParam K ((if i > 0 then pre ++ "_enc" ++ toString (i + 1) else pre) ++ "_Wk")
      [dimModel, dimModel])
    (graphParam K ((if i > 0 then pre ++ "_enc" ++ toString (i + 1) else pre) ++ "_bk")
      [1, dimModel]) bk ck L dimModel dimModel hks rfl rfl
  obtain ⟨vh, hvh, hvhs⟩ := affine_returns value
    (graphParam K ((if i > 0 then pre ++ "_enc" ++ toString (i + 1) else pre) ++ "_Wv")
      [dimModel, dimModel])
    (graphParam K ((if i > 0 then pre ++ "_enc" ++ toString (i + 1) else pre) ++ "_bv")
      [1, dimModel]) bk ck L dimModel dimModel hvs rfl rfl
  obtain ⟨kh', hkh', hkhs'⟩ := SplitHeads_returns kh bk ck L dimModel dimHeads hkhs hh hdiv
  obtain ⟨vh', hvh', hvhs'⟩ := SplitHeads_returns vh bk ck L dimModel dimHeads hvhs hh hdiv
  obtain ⟨o, ho, hos⟩ := Attention_returns K self pre qh kh' vh' value mask (batch * beam)
    (ck * bk) dimHeads Tq L (dimModel / dimHeads) hqh hkhs' hvhs' hpos hfit
  obtain ⟨out, hout, houts⟩ := JoinHeads_returns o (batch * beam) dimHeads Tq
    (dimModel / dimHeads) beam hos hbeam (Dvd.intro_left batch rfl)
  rw [hkh, ok_bind, hvh, ok_bind, hkh', ok_bind, hvh', ok_bind, ho, ok_bind, hq,
    dimBack_four_4, ok_bind, hout]
  refine ⟨out, rfl, ?_⟩
  rw [houts, Nat.mul_div_cancel _ (by omega), Nat.mul_div_cancel' hdiv]

theorem concatenate_features_returns {α : Type} (nodes : List (Tensor α)) (a b c d : Nat)
    (hne : nodes ≠ []) (hall : ∀ u ∈ nodes, u.shape = [a, b, c, d]) :
    ∃ y, concatenate nodes 1 = .ok y ∧ y.shape = [a, b, c, nodes.length * d] := by
  cases nodes with
  | nil => exact absurd rfl hne
  | cons t rest =>
    have ht := hall t (List.mem_cons_self _ _)
    unfold concatenate
    simp only [ht, dimBack_four_1, ok_bind]
    have hc : (t :: rest).all
        (fun u => decide (u.shape.set ([a, b, c, d].length - 1) 0
          = [a, b, c, d].set ([a, b, c, d].length - 1) 0)) = true := by
      rw [List.all_eq_true]
      intro u hu
      simp [hall u hu]
    rw [if_pos hc]
    refine ⟨_, rfl, ?_⟩
    have hsum : ((t :: rest).map (fun u => u.shape.getD ([a, b, c, d].length - 1) 0)).sum
        = (t :: rest).length * d := by
      have hmap : (t :: rest).map (fun u => u.shape.getD ([a, b, c, d].length - 1) 0)
          = (t :: rest).map (fun _ => d) := by
        apply List.map_congr_left
        intro u hu
        simp [hall u hu]
      rw [hmap, List.map_const', List.sum_replicate, smul_eq_mul]
    show [a, b, c, d].set ([a, b, c, d].length - 1) _ = _
    rw [hsum]
    rfl

theorem MultiHead_eq {α : Type} [Field α] (K : Kernels α) (self : DecoderTransformer)
    (pre : String) (dimOut dimHeads : Nat) (q : Tensor α) (keys values masks : List (Tensor α)) :
    MultiHead K self pre dimOut dimHeads q keys values masks
      = (MultiHeadConcat K self pre dimHeads q keys values masks
          >>= outputProjection K self pre dimOut) := by
  unfold MultiHead MultiHeadConcat outputProjection
  simp only [bind_assoc]

theorem MultiHeadConcat_returns {α : Type} [Field α] (K : Kernels α) (self : DecoderTransformer)
    (pre : String) (dimHeads : Nat) (q : Tensor α) (keys values masks : List (Tensor α))
    (beam batch Tq dimModel : Nat)
    (hq : q.shape = [beam, batch, Tq, dimModel]) (hbeam : 1 ≤ beam)
    (hh : 1 ≤ dimHeads) (hdiv : dimHeads ∣ dimModel) (hn : 1 ≤ keys.length)
    (hsrc : ∀ i, i < keys.length → ∃ key value mask, keys[i]? = some key ∧
      values[i]? = some value ∧ masks[i]? = some mask ∧
      SourceShaped dimHeads beam batch Tq dimModel key value mask) :
    ∃ out, MultiHeadConcat K self pre dimHeads q keys values masks = .ok out ∧
      out.shape = [beam, batch, Tq, keys.length * dimModel] := by
  unfold MultiHeadConcat
  rw [hq, dimBack_four_1, ok_bind]
  obtain ⟨qh, hqh, hqhs⟩ := affine_returns q (graphParam K (pre ++ "_Wq") [dimModel, dimModel])
    (graphParam K (pre ++ "_bq") [1, dimModel]) beam batch Tq dimModel dimModel hq rfl rfl
  obtain ⟨qh', hqh', hqhs'⟩ := SplitHeads_returns qh beam batch Tq dimModel dimHeads hqhs hh hdiv
  simp only []
  rw [hqh, ok_bind, hqh', ok_bind]
  obtain ⟨outputs, houts⟩ := forEach_ok_of_forall
    (MultiHeadSource K self pre dimHeads q qh' dimModel keys values masks)
    (List.range keys.length)
    (by
      intro i hi
      obtain ⟨key, value, mask, h1, h2, h3, h4⟩ := hsrc i (List.mem_range.mp hi)
      obtain ⟨o, ho, -⟩ := MultiHeadSource_returns K self pre dimHeads q qh' dimModel keys values
        masks i beam batch Tq dimModel key value mask hq hqhs' hbeam hh hdiv h1 h2 h3 h4
      exact ⟨o, ho⟩)
  rw [houts, ok_bind]
  have hlen : outputs.length = keys.length := by
    rw [forEach_ok_length _ _ _ houts, List.length_range]
  have hshape : ∀ o ∈ outputs, o.shape = [beam, batch, Tq, dimModel] := by
    intro o ho
    obtain ⟨i, hi, hio⟩ := forEach_ok_mem _ _ _ houts o ho
    obtain ⟨key, value, mask, h1, h2, h3, h4⟩ := hsrc i (List.mem_range.mp hi)
    obtain ⟨o', ho', hos'⟩ := MultiHeadSource_returns K self pre dimHeads q qh' dimModel keys
      values masks i beam batch Tq dimModel key value mask hq hqhs' hbeam hh hdiv h1 h2 h3 h4
    rw [hio] at ho'
    cases ho'
    exact hos'
  by_cases hgt : outputs.length > 1
  · rw [if_pos hgt]
    obtain ⟨y, hy, hys⟩ := concatenate_features_returns outputs beam batch Tq dimModel
      (by intro h; rw [h] at hgt; simp at hgt) hshape
    exact ⟨y, hy, by rw [hys, hlen]⟩
  · rw [if_neg hgt]
    cases houtputs : outputs with
    | nil => rw [houtputs] at hlen; simp at hlen; omega
    | cons o rest =>
      refine ⟨o, rfl, ?_⟩
      have h1 : keys.length = 1 := by
        rw [houtputs] at hgt hlen
        simp only [List.length_cons] at hgt hlen
        omega
      rw [hshape o (by rw [houtputs]; exact List.mem_cons_self _ _), h1, Nat.one_mul]

theorem outputProjection_returns {α : Type} [Field α] (K : Kernels α)
    (self : DecoderTransformer) (pre : String) (dimOut : Nat) (output : Tensor α)
    (a b c dimAtt : Nat) (hs : output.shape = [a, b, c, dimAtt]) :
    ∃ out, outputProjection K self pre dimOut output = .ok out ∧
      out.shape = [a, b, c, dimOut] := by
  unfold outputProjection
  rw [hs, dimBack_four_1, ok_bind]
  simp only []
  by_cases hp : (!self.options_.transformer_no_projection) = true ∨ dimAtt ≠ dimOut
  · rw [if_pos hp]
    exact affine_returns output _ _ a b c dimAtt dimOut hs rfl rfl
  · rw [if_neg hp]
    have hd : dimAtt = dimOut := by
      by_contra hne
      exact hp (Or.inr hne)
    exact ⟨output, rfl, by rw [hs, hd]⟩

theorem outputProjection_width {α : Type} [Field α] (K : Kernels α)
    (self : DecoderTransformer) (pre : String) (dimOut : Nat) (output out : Tensor α)
    (h : outputProjection K self pre dimOut output = .ok out) :
    dimBack out.shape 1 = .ok dimOut := by
  unfold outputProjection at h
  rw [bind_eq_ok] at h
  obtain ⟨dimAtt, hd, h⟩ := h
  simp only [] at h
  split_ifs at h with hp
  · exact affine_width output _ _ out dimAtt dimOut rfl rfl h
  · cases h
    have hdim : dimAtt = dimOut := by
      by_contra hne
      exact hp (Or.inr hne)
    rw [hd, hdim]

/-- C11: for a query of shape `[beam, batch, Tq, dimModel]`, a head count that divides
`dimModel`, one or more well-shaped key/value sources with their masks, and either value
of `transformer-no-projection`, `MultiHead` returns a tensor of shape
`[beam, batch, Tq, dimOut]`: the feature axis is `dimOut` and the leading axes are those
of the query.  And on any input at all, whatever `MultiHead` returns has `dimOut` entries
on its feature axis. -/
theorem MultiHead_output_width {α : Type} [Field α] (K : Kernels α) (self : DecoderTransformer)
    (pre : String) (dimOut dimHeads : Nat) (q : Tensor α) (keys values masks : List (Tensor α))
    (beam batch Tq dimModel : Nat)
    (hq : q.shape = [beam, batch, Tq, dimModel]) (hbeam : 1 ≤ beam)
    (hh : 1 ≤ dimHeads) (hdiv : dimHeads ∣ dimModel) (hn : 1 ≤ keys.length)
    (hsrc : ∀ i, i < keys.length → ∃ key value mask, keys[i]? = some key ∧
      values[i]? = some value ∧ masks[i]? = some mask ∧
      SourceShaped dimHeads beam batch Tq dimModel key value mask) :
    (∃ out, MultiHead K self pre dimOut dimHeads q keys values masks = .ok out ∧
      out.shape = [beam, batch, Tq, dimOut] ∧ dimBack out.shape 1 = .ok dimOut) ∧
    ∀ (q' : Tensor α) (keys' values' masks' : List (Tensor α)) (out : Tensor α),
      MultiHead K self pre dimOut dimHeads q' keys' values' masks' = .ok out →
      dimBack out.shape 1 = .ok dimOut := by
  constructor
  · obtain ⟨c, hc, hcs⟩ := MultiHeadConcat_returns K self pre dimHeads q keys values masks
      beam batch Tq dimModel hq hbeam hh hdiv hn hsrc
    obtain ⟨out, hout, houts⟩ := outputProjection_returns K self pre dimOut c beam batch Tq
      (keys.length * dimModel) hcs
    refine ⟨out, ?_, houts, by rw [houts, dimBack_four_1]⟩
    rw [MultiHead_eq, hc, ok_bind, hout]
  · intro q' keys' values' masks' out hout
    rw [MultiHead_eq, bind_eq_ok] at hout
    obtain ⟨c, -, hout⟩ := hout
    exact outputProjection_width K self pre dimOut c out hout

/-- C12: on the attention output `output` of width `dimAtt` that `MultiHead` has
assembled from its sources, the output projection is skipped, and `output` returned as it
is, when `transformer-no-projection` is set and `dimAtt = dimOut`; in every other case
`MultiHead` returns `affine(output, Wo, bo)`, in particular whenever
`transformer-no-projection` is disabled, also for a single source with `dimAtt = dimOut`. -/
theorem projection_skipped_iff {α : Type} [Field α] (K : Kernels α) (self : DecoderTransformer)
    (pre : String) (dimOut dimHeads : Nat) (q : Tensor α) (keys values masks : List (Tensor α))
    (output : Tensor α) (dimAtt : Nat)
    (hc : MultiHeadConcat K self pre dimHeads q keys values masks = .ok output)
    (hd : dimBack output.shape 1 = .ok dimAtt) :
    (self.options_.transformer_no_projection = true ∧ dimAtt = dimOut →
      MultiHead K self pre dimOut dimHeads q keys values masks = .ok output) ∧
    (¬ (self.options_.transformer_no_projection = true ∧ dimAtt = dimOut) →
      MultiHead K self pre dimOut dimHeads q keys values masks
        = affine output (graphParam K (pre ++ "_Wo") [dimAtt, dimOut])
            (graphParam K (pre ++ "_bo") [1, dimOut])) ∧
    (self.options_.transformer_no_projection = false → keys.length = 1 → dimAtt = dimOut →
      MultiHead K self pre dimOut dimHeads q keys values masks
        = affine output (graphParam K (pre ++ "_Wo") [dimOut, dimOut])
            (graphParam K (pre ++ "_bo") [1, dimOut])) := by
  have hskip : ¬ (self.options_.transformer_no_projection = true ∧ dimAtt = dimOut) →
      MultiHead K self pre dimOut dimHeads q keys values masks
        = affine output (graphParam K (pre ++ "_Wo") [dimAtt, dimOut])
            (graphParam K (pre ++ "_bo") [1, dimOut]) := by
    intro hno
    rw [MultiHead_eq, hc, ok_bind]
    unfold outputProjection
    rw [hd, ok_bind]
    simp only []
    rw [if_pos]
    by_cases hp : self.options_.transformer_no_projection = true
    · exact Or.inr (fun h => hno ⟨hp, h⟩)
    · left
      simpa using hp
  refine ⟨?_, hskip, ?_⟩
  · rintro ⟨hno, hdim⟩
    rw [MultiHead_eq, hc, ok_bind]
    unfold outputProjection
    rw [hd, ok_bind]
    simp only []
    rw [if_neg]
    · rfl
    · rintro (hp | hp)
      · rw [hno] at hp
        simp at hp
      · exact hp hdim
  · intro hno _ hdim
    subst hdim
    exact hskip (fun h => by rw [hno] at h; simp at h)

theorem MultiHead_no_sources_fails {α : Type} [Field α] (K : Kernels α)
    (self : DecoderTransformer) (pre : String) (dimOut dimHeads : Nat) (q : Tensor α) :
    (MultiHead K self pre dimOut dimHeads q [] [] []).isOk = false := by
  rw [MultiHead_eq]
  unfold MultiHeadConcat
  cases h1 : dimBack q.shape 1 with
  | error e => rfl
  | ok dimModel =>
    rw [ok_bind]
    simp only []
    cases h2 : affine q (graphParam K (pre ++ "_Wq") [dimModel, dimModel])
        (graphParam K (pre ++ "_bq") [1, dimModel]) with
    | error e => rfl
    | ok qh =>
      rw [ok_bind]
      cases h3 : SplitHeads qh dimHeads with
      | error e => rfl
      | ok qh' => rfl

/-- C17: on an empty list of sources `MultiHead` fails rather than returning a tensor,
for every query: the loop over the sources pushes nothing, and `outputs.front()` reads the
front of an empty vector.  For a well-shaped query that read is where the call ends; it is
an undefined read, not an `ABORT`. -/
theorem MultiHead_without_sources_undefined {α : Type} [Field α] (K : Kernels α)
    (self : DecoderTransformer) (pre : String) (dimOut dimHeads : Nat) (q : Tensor α) :
    (MultiHead K self pre dimOut dimHeads q [] [] []).isOk = false ∧
    (∀ out, MultiHead K self pre dimOut dimHeads q [] [] [] ≠ .ok out) ∧
    (∀ beam batch Tq dimModel : Nat, q.shape = [beam, batch, Tq, dimModel] → 1 ≤ dimHeads →
      dimHeads ∣ dimModel →
      MultiHead K self pre dimOut dimHeads q [] [] []
        = .error (.undefined "front() of an empty vector") ∧
      (MultiHead K self pre dimOut dimHeads q [] [] []).aborts = false) := by
  have hfail : (MultiHead K self pre dimOut dimHeads q [] [] []).isOk = false :=
    MultiHead_no_sources_fails K self pre dimOut dimHeads q
  refine ⟨hfail, ?_, ?_⟩
  · intro out hout
    rw [hout] at hfail
    cases hfail
  · intro beam batch Tq dimModel hq hh hdiv
    have h : MultiHead K self pre dimOut dimHeads q [] [] []
        = .error (.undefined "front() of an empty vector") := by
      rw [MultiHead_eq]
      unfold MultiHeadConcat
      rw [hq, dimBack_four_1, ok_bind]
      obtain ⟨qh, hqh, hqhs⟩ := affine_returns q
        (graphParam K (pre ++ "_Wq") [dimModel, dimModel])
        (graphParam K (pre ++ "_bq") [1, dimModel]) beam batch Tq dimModel dimModel hq rfl rfl
      obtain ⟨qh', hqh', -⟩ := SplitHeads_returns qh beam batch Tq dimModel dimHeads hqhs hh hdiv
      simp only []
      rw [hqh, ok_bind, hqh', ok_bind]
      rfl
    exact ⟨h, by rw [h]; rfl⟩

/-! ## The dense stacks of `LayerFFN` and `LayerAAN` -/

theorem applyAll_append {α : Type} (fs gs : List (Tensor α → Result (Tensor α)))
    (x : Tensor α) : applyAll (fs ++ gs) x = (applyAll fs x >>= applyAll gs) := by
  induction fs generalizing x with
  | nil => rfl
  | cons f fs ih =>
    simp only [List.cons_append, applyAll]
    cases f x with
    | error e => rfl
    | ok y => exact ih y

theorem denseStack_eq_applyAll {α : Type} [Field α] (K : Kernels α) (pre : String) (dim : Nat)
    (actFn : Tensor α → Tensor α) (dropProb : ℚ) (is : List Nat) (x : Tensor α) :
    denseStack K pre dim actFn dropProb is x
      = applyAll (is.map (fun i x => dense K x pre (toString i) dim (some actFn) dropProb)) x := by
  induction is generalizing x with
  | nil => rfl
  | cons i is ih =>
    simp only [denseStack, List.map_cons, applyAll]
    cases dense K x pre (toString i) dim (some actFn) dropProb with
    | error e => rfl
    | ok y => exact ih y

/-- The stack of `m + 1` transforms of the specification is the loop over the suffixes
`1, ..., m` followed by the transform of suffix `m + 1`. -/
theorem specDenseStack_succ {α : Type} [Field α] (K : Kernels α) (pre : String)
    (dimHidden dimModel : Nat) (actFn : Tensor α → Tensor α) (dropProb : ℚ) (m : Nat)
    (x : Tensor α) :
    applyAll (specDenseStack K pre dimHidden dimModel actFn dropProb (m + 1)) x
      = (denseStack K pre dimHidden actFn dropProb ((List.range m).map (· + 1)) x
          >>= fun y => dense K y pre (toString (m + 1)) dimModel none 0) := by
  unfold specDenseStack
  rw [List.range_succ, List.map_append, applyAll_append, denseStack_eq_applyAll, List.map_map]
  have h1 : (List.range m).map
      (fun j => specDenseTransform K pre dimHidden dimModel actFn dropProb (m + 1) (j + 1))
      = (List.range m).map ((fun i x => dense K x pre (toString i) dimHidden (some actFn) dropProb)
          ∘ (· + 1)) := by
    apply List.map_congr_left
    intro j hj
    have hlt : j + 1 < m + 1 := by
      have := List.mem_range.mp hj
      omega
    funext x
    simp only [specDenseTransform, if_pos hlt, Function.comp]
  rw [h1]
  congr 1
  funext y
  simp only [List.map_cons, List.map_nil, applyAll, specDenseTransform, Nat.lt_irrefl, if_false]
  cases dense K y pre (toString (m + 1)) dimModel none 0 with
  | error e => rfl
  | ok z => rfl

theorem specDenseStack_take {α : Type} [Field α] (K : Kernels α) (pre : String)
    (dimHidden dimModel : Nat) (actFn : Tensor α → Tensor α) (dropProb : ℚ) (m : Nat)
    (x : Tensor α) :
    applyAll ((specDenseStack K pre dimHidden dimModel actFn dropProb (m + 1)).take m) x
      = denseStack K pre dimHidden actFn dropProb ((List.range m).map (· + 1)) x := by
  unfold specDenseStack
  rw [List.range_succ, List.map_append, List.take_left' (by simp), denseStack_eq_applyAll,
    List.map_map]
  congr 1
  apply List.map_congr_left
  intro j hj
  have hlt : j + 1 < m + 1 := by
    have := List.mem_range.mp hj
    omega
  funext x
  simp only [specDenseTransform, if_pos hlt, Function.comp]

theorem dense_returns {α : Type} [Field α] (K : Kernels α) (x : Tensor α) (pre suffix : String)
    (outDim : Nat) (actFn : Option (Tensor α → Tensor α)) (p : ℚ) (a b c k : Nat)
    (hact : ∀ f, actFn = some f → ∀ t, (f t).shape = t.shape)
    (hx : x.shape = [a, b, c, k]) :
    ∃ y, dense K x pre suffix outDim actFn p = .ok y ∧ y.shape = [a, b, c, outDim] := by
  unfold dense
  rw [hx, dimBack_four_1, ok_bind]
  obtain ⟨z, hz, hzs⟩ := affine_returns x (graphParam K (pre ++ "_W" ++ suffix) [k, outDim])
    (graphParam K (pre ++ "_b" ++ suffix) [1, outDim]) a b c k outDim hx rfl rfl
  simp only []
  rw [hz, ok_bind]
  have key : ∀ w : Tensor α, w.shape = [a, b, c, outDim] →
      ∃ y, (if p ≠ 0 then dropout K w p else pure w) = .ok y ∧ y.shape = [a, b, c, outDim] := by
    intro w hw
    by_cases hp : p ≠ 0
    · rw [if_pos hp]
      obtain ⟨y, hy, hys⟩ := dropout_returns K w p
      exact ⟨y, hy, by rw [hys, hw]⟩
    · rw [if_neg hp]
      exact ⟨w, rfl, hw⟩
  cases actFn with
  | none => exact key z hzs
  | some f => exact key (f z) (by rw [hact f rfl z, hzs])

theorem denseStack_returns {α : Type} [Field α] (K : Kernels α) (pre : String) (dim : Nat)
    (actFn : Tensor α → Tensor α) (dropProb : ℚ) (hact : ∀ t, (actFn t).shape = t.shape)
    (a b c : Nat) :
    ∀ (is : List Nat) (x : Tensor α) (k : Nat), x.shape = [a, b, c, k] →
      ∃ y, denseStack K pre dim actFn dropProb is x = .ok y ∧
        y.shape = [a, b, c, if is = [] then k else dim]
  | [], x, k, hx => ⟨x, rfl, by simpa using hx⟩
  | i :: is, x, k, hx => by
      obtain ⟨z, hz, hzs⟩ := dense_returns K x pre (toString i) dim (some actFn) dropProb a b c k
        (by intro f hf; cases hf; exact hact) hx
      obtain ⟨y, hy, hys⟩ := denseStack_returns K pre dim actFn dropProb hact a b c is z dim hzs
      refine ⟨y, ?_, ?_⟩
      · unfold denseStack
        rw [hz]
        exact hy
      · rw [hys]
        simp

theorem processOps_abortsOnly {α : Type} (body : Tensor α → Char → Result (Tensor α))
    (hbody : ∀ x c, AbortsOnly (body x c)) :
    ∀ (ops : List Char) (input : Tensor α), AbortsOnly (processOps body ops input)
  | [], _ => AbortsOnly.ok _
  | op :: ops, input => by
      unfold processOps
      cases hb : body input op with
      | error e =>
        intro e' he
        cases he
        exact hbody input op e hb
      | ok output => exact processOps_abortsOnly body hbody ops output

theorem preProcess_abortsOnly {α : Type} [Field α] (K : Kernels α) (pre ops : String)
    (input : Tensor α) (dropProb : ℚ) : AbortsOnly (preProcess K pre ops input dropProb) :=
  processOps_abortsOnly _ (preProcessOp_abortsOnly K pre dropProb) _ _

theorem aborts_of_abortsOnly {β : Type} (r : Result β) (h : AbortsOnly r)
    (hfail : r.isOk = false) : r.aborts = true := by
  cases r with
  | ok a => cases hfail
  | error e => exact h e rfl

theorem dimBack_one_elim (s : List Nat) (n : Nat) (h : dimBack s 1 = .ok n) :
    ∃ lead, s = lead ++ [n] := by
  unfold dimBack at h
  by_cases hc : 1 = 0 ∨ s.length < 1
  · rw [if_pos hc] at h; cases h
  · rw [if_neg hc] at h
    cases hget : s[s.length - 1]? with
    | none => rw [hget] at h; cases h
    | some d =>
      rw [hget] at h
      have hd : d = n := Except.ok.inj h
      subst hd
      have hne : s ≠ [] := by
        intro h0
        rw [h0] at hget
        simp at hget
      refine ⟨s.dropLast, ?_⟩
      have hlast : s.getLast hne = d := by
        rw [List.getLast_eq_getElem]
        have hlt : s.length - 1 < s.length := by
          have := List.length_pos.mpr hne
          omega
        rw [List.getElem?_eq_getElem hlt] at hget
        exact Option.some.inj hget
      rw [← hlast, List.dropLast_append_getLast]

theorem zipWithB_width {α : Type} [Zero α] (f : α → α → α) (a b c : Tensor α) (n : Nat)
    (ha : dimBack a.shape 1 = .ok n) (hb : dimBack b.shape 1 = .ok n)
    (h : zipWithB f a b = .ok c) : dimBack c.shape 1 = .ok n := by
  obtain ⟨la, hla⟩ := dimBack_one_elim _ _ ha
  obtain ⟨lb, hlb⟩ := dimBack_one_elim _ _ hb
  have hs := zipWithB_shape f a b c h
  rw [hla, hlb] at hs
  exact broadcastShape_last la lb c.shape n hs

theorem dense_width {α : Type} [Field α] (K : Kernels α) (x y : Tensor α) (pre suffix : String)
    (outDim : Nat) (actFn : Option (Tensor α → Tensor α)) (p : ℚ)
    (hact : ∀ f, actFn = some f → ∀ t, (f t).shape = t.shape)
    (h : dense K x pre suffix outDim actFn p = .ok y) : dimBack y.shape 1 = .ok outDim := by
  unfold dense at h
  rw [bind_eq_ok] at h
  obtain ⟨dimIn, -, h⟩ := h
  rw [bind_eq_ok] at h
  obtain ⟨z, hz, h⟩ := h
  have hzw : dimBack z.shape 1 = .ok outDim := affine_width x _ _ z dimIn outDim rfl rfl hz
  have key : ∀ w : Tensor α, w.shape = z.shape →
      (if p ≠ 0 then dropout K w p else pure w) = .ok y → dimBack y.shape 1 = .ok outDim := by
    intro w hw hy
    split_ifs at hy
    · rw [dropout_shape K w y p hy, hw]; exact hzw
    · cases hy; rw [hw]; exact hzw
  cases actFn with
  | none => exact key z rfl h
  | some f => exact key (f z) (hact f rfl z) h

theorem highway_width {α : Type} [Field α] (K : Kernels α) (y x t out : Tensor α) (n : Nat)
    (hy : dimBack y.shape 1 = .ok n) (hx : dimBack x.shape 1 = .ok n)
    (ht : dimBack t.shape 1 = .ok n) (h : highway K y x t = .ok out) :
    dimBack out.shape 1 = .ok n := by
  unfold highway at h
  rw [bind_eq_ok] at h
  obtain ⟨gy, hgy, h⟩ := h
  rw [bind_eq_ok] at h
  obtain ⟨gx, hgx, h⟩ := h
  have h1 : dimBack gy.shape 1 = .ok n := zipWithB_width _ (sigmoid K t) y gy n ht hy hgy
  have h2 : dimBack gx.shape 1 = .ok n :=
    zipWithB_width _ (mapT (fun v => 1 - v) (sigmoid K t)) x gx n ht hx hgx
  exact zipWithB_width _ gy gx out n h1 h2 h

theorem postProcess_width {α : Type} [Field α] (K : Kernels α) (pre ops : String)
    (input prevInput output : Tensor α) (dropProb : ℚ) (n : Nat)
    (hi : dimBack input.shape 1 = .ok n) (hp : dimBack prevInput.shape 1 = .ok n)
    (h : postProcess K pre ops input prevInput dropProb = .ok output) :
    dimBack output.shape 1 = .ok n := by
  unfold postProcess at h
  refine processOps_invariant _ (fun t => dimBack t.shape 1 = .ok n) ?_ _ input output hi h
  intro x ch y hx hy
  unfold postProcessOp at hy
  split_ifs at hy
  · rw [dropout_shape K x y dropProb hy]; exact hx
  · exact zipWithB_width _ x prevInput y n hx hp hy
  · rw [hi, ok_bind, bind_eq_ok] at hy
    obtain ⟨t, ht, hy⟩ := hy
    have htw : dimBack t.shape 1 = .ok n :=
      dense_width K prevInput t pre "h" n none 0 (by intro f hf; cases hf) ht
    exact highway_width K x prevInput t y n hx hp htw hy
  · rw [layerNorm_shape K x y _ _ hy]; exact hx

/-- C14: `LayerFFN` ends in `ABORT` whenever `transformer-ffn-depth` is below 1 or the
activation name is not valid, and then it is its pre-processing followed by the `ABORT` of
the failed check, with no dense transform; `activationByName` returns `relu` for `"relu"`,
`swish` for `"swish"`, and ends in `ABORT` for every other name. -/
theorem feed_forward_configuration_validated {α : Type} [Field α] (K : Kernels α)
    (self : DecoderTransformer) (pre : String) (input : Tensor α) :
    (self.options_.transformer_ffn_depth < 1 →
      (LayerFFN K self pre input).aborts = true) ∧
    (∀ name : String, name ≠ "relu" → name ≠ "swish" →
      activationByName K name = .error (.abort ("Invalid activation name " ++ name))) ∧
    activationByName K "relu" = .ok (relu K) ∧
    activationByName K "swish" = .ok (swish K) ∧
    (self.options_.transformer_ffn_activation ≠ "relu" →
      self.options_.transformer_ffn_activation ≠ "swish" →
      (LayerFFN K self pre input).aborts = true ∧
      LayerFFN K self pre input
        = (dimBack input.shape 1 >>= fun _ =>
            preProcess K (pre ++ "_ffn") self.options_.transformer_preprocess input
              (if self.inference_ then 0 else self.options_.transformer_dropout) >>= fun _ =>
            .error (.abort ("Invalid activation name "
              ++ self.options_.transformer_ffn_activation)))) ∧
    (self.options_.transformer_ffn_depth < 1 →
      (self.options_.transformer_ffn_activation = "relu" ∨
        self.options_.transformer_ffn_activation = "swish") →
      LayerFFN K self pre input
        = (dimBack input.shape 1 >>= fun _ =>
            preProcess K (pre ++ "_ffn") self.options_.transformer_preprocess input
              (if self.inference_ then 0 else self.options_.transformer_dropout) >>= fun _ =>
            .error (.abort "Filter depth is smaller than 1"))) := by
  have hname : ∀ name : String, name ≠ "relu" → name ≠ "swish" →
      activationByName K name = .error (.abort ("Invalid activation name " ++ name)) := by
    intro name h1 h2
    unfold activationByName
    rw [if_neg h1, if_neg h2]
  have hprefix : ∀ msg : String,
      (dimBack input.shape 1 >>= fun _ =>
        preProcess K (pre ++ "_ffn") self.options_.transformer_preprocess input
          (if self.inference_ then 0 else self.options_.transformer_dropout) >>= fun _ =>
        (.error (.abort msg) : Result (Tensor α))).aborts = true := by
    intro msg
    apply aborts_of_abortsOnly
    · exact AbortsOnly.bind (dimBack_abortsOnly _ _) (fun _ =>
        AbortsOnly.bind (preProcess_abortsOnly K _ _ _ _) (fun _ => AbortsOnly.abort _))
    · cases dimBack input.shape 1 with
      | error e => rfl
      | ok d =>
        rw [ok_bind]
        cases preProcess K (pre ++ "_ffn") self.options_.transformer_preprocess input
            (if self.inference_ then 0 else self.options_.transformer_dropout) with
        | error e => rfl
        | ok x => rfl
  have hinvalid : self.options_.transformer_ffn_activation ≠ "relu" →
      self.options_.transformer_ffn_activation ≠ "swish" →
      LayerFFN K self pre input
        = (dimBack input.shape 1 >>= fun _ =>
            preProcess K (pre ++ "_ffn") self.options_.transformer_preprocess input
              (if self.inference_ then 0 else self.options_.transformer_dropout) >>= fun _ =>
            .error (.abort ("Invalid activation name "
              ++ self.options_.transformer_ffn_activation))) := by
    intro h1 h2
    unfold LayerFFN
    simp only [hname _ h1 h2]
    rfl
  have hshallow : self.options_.transformer_ffn_depth < 1 →
      (self.options_.transformer_ffn_activation = "relu" ∨
        self.options_.transformer_ffn_activation = "swish") →
      LayerFFN K self pre input
        = (dimBack input.shape 1 >>= fun _ =>
            preProcess K (pre ++ "_ffn") self.options_.transformer_preprocess input
              (if self.inference_ then 0 else self.options_.transformer_dropout) >>= fun _ =>
            .error (.abort "Filter depth is smaller than 1")) := by
    intro hd hact
    have hok : ∃ f, activationByName K self.options_.transformer_ffn_activation = .ok f := by
      unfold activationByName
      rcases hact with h | h
      · rw [if_pos h]; exact ⟨_, rfl⟩
      · by_cases h1 : self.options_.transformer_ffn_activation = "relu"
        · rw [if_pos h1]; exact ⟨_, rfl⟩
        · rw [if_neg h1, if_pos h]; exact ⟨_, rfl⟩
    obtain ⟨f, hf⟩ := hok
    unfold LayerFFN
    simp only [hf, ok_bind, if_pos hd]
  refine ⟨?_, hname, ?_, ?_, ?_, hshallow⟩
  · intro hd
    by_cases hact : self.options_.transformer_ffn_activation = "relu" ∨
        self.options_.transformer_ffn_activation = "swish"
    · rw [hshallow hd hact]
      exact hprefix _
    · rw [hinvalid (fun h => hact (Or.inl h)) (fun h => hact (Or.inr h))]
      exact hprefix _
  · rfl
  · rfl
  · intro h1 h2
    refine ⟨?_, hinvalid h1 h2⟩
    rw [hinvalid h1 h2]
    exact hprefix _

/-- The function `LayerAAN` is its pre-processing, the check of the activation name, the
stack of AAN layers, and the gating with the post-processing. -/
theorem LayerAAN_eq {α : Type} [Field α] (K : Kernels α) (self : DecoderTransformer)
    (pre : String) (x y : Tensor α) :
    LayerAAN K self pre x y
      = (dimBack x.shape 1 >>= fun dimModel =>
          preProcess K (pre ++ "_ffn") self.options_.transformer_preprocess y
            (if self.inference_ then 0 else self.options_.transformer_dropout) >>= fun y =>
          activationByName K self.options_.transformer_aan_activation >>= fun actFn =>
          LayerAANStack K self pre dimModel actFn y >>= fun y =>
          LayerAANGate K self pre dimModel x y) := by
  unfold LayerAAN LayerAANStack LayerAANGate
  simp only [bind_assoc]

/-- What the stack of AAN layers does to an average of four axes and width `w`, for a
depth of at least 1. -/
theorem LayerAANStack_cases {α : Type} [Field α] (K : Kernels α) (self : DecoderTransformer)
    (pre : String) (dimModel : Nat) (actFn : Tensor α → Tensor α) (y : Tensor α)
    (a b c w : Nat)
    (hdepth : 1 ≤ self.options_.transformer_aan_depth)
    (hact : activationByName K self.options_.transformer_aan_activation = .ok actFn)
    (hy : y.shape = [a, b, c, w]) :
    ((if self.options_.transformer_aan_depth = 1 then w
        else self.options_.transformer_dim_aan) ≠ dimModel →
      LayerAANStack K self pre dimModel actFn y
        = applyAll (specDenseStack K pre self.options_.transformer_dim_aan dimModel actFn
            (if self.inference_ then 0 else self.options_.transformer_dropout_ffn)
            self.options_.transformer_aan_depth.toNat) y) ∧
    ((if self.options_.transformer_aan_depth = 1 then w
        else self.options_.transformer_dim_aan) = dimModel →
      LayerAANStack K self pre dimModel actFn y
        = applyAll ((specDenseStack K pre self.options_.transformer_dim_aan dimModel actFn
            (if self.inference_ then 0 else self.options_.transformer_dropout_ffn)
            self.options_.transformer_aan_depth.toNat).take
              (self.options_.transformer_aan_depth.toNat - 1)) y) ∧
    ∃ out, LayerAANStack K self pre dimModel actFn y = .ok out ∧
      out.shape = [a, b, c, dimModel] := by
  have hshape := activationByName_shape K _ actFn hact
  obtain ⟨m, hm⟩ : ∃ m : Nat, self.options_.transformer_aan_depth = Int.ofNat (m + 1) := by
    refine ⟨(self.options_.transformer_aan_depth - 1).toNat, ?_⟩
    have : ((self.options_.transformer_aan_depth - 1).toNat : Int)
        = self.options_.transformer_aan_depth - 1 := Int.toNat_of_nonneg (by omega)
    show self.options_.transformer_aan_depth
      = (((self.options_.transformer_aan_depth - 1).toNat + 1 : Nat) : Int)
    push_cast
    omega
  obtain ⟨z, hz, hzs⟩ := denseStack_returns K pre self.options_.transformer_dim_aan actFn
    (if self.inference_ then 0 else self.options_.transformer_dropout_ffn) hshape a b c
    ((List.range m).map (· + 1)) y w hy
  have hwidth : (if (List.range m).map (· + 1) = [] then w
      else self.options_.transformer_dim_aan)
      = (if self.options_.transformer_aan_depth = 1 then w
        else self.options_.transformer_dim_aan) := by
    rw [hm]
    cases m with
    | zero => simp
    | succ m =>
      have h1 : ¬ (Int.ofNat (m + 1 + 1) = 1) := by
        intro h
        have h' : ((m + 1 + 1 : Nat) : Int) = 1 := h
        omega
      rw [if_neg h1, if_neg (by simp [List.range_succ])]
  rw [hwidth] at hzs
  clear hwidth
  generalize (if self.options_.transformer_aan_depth = 1 then w
    else self.options_.transformer_dim_aan) = wd at hzs ⊢
  have hstack : LayerAANStack K self pre dimModel actFn y
      = (if wd ≠ dimModel then dense K z pre (toString (m + 1)) dimModel none 0
          else pure z) := by
    unfold LayerAANStack
    simp only []
    rw [hm, show (Int.ofNat (m + 1)).toNat = m + 1 from rfl, Nat.add_sub_cancel, hz, ok_bind,
      hzs, dimBack_four_1, ok_bind]
    rfl
  rw [hm, show (Int.ofNat (m + 1)).toNat = m + 1 from rfl, Nat.add_sub_cancel]
  refine ⟨?_, ?_, ?_⟩
  · intro hne
    rw [hstack, if_pos hne, specDenseStack_succ, hz, ok_bind]
  · intro he
    rw [hstack, if_neg (not_not.mpr he), specDenseStack_take, hz]
    rfl
  · rw [hstack]
    by_cases hne : wd ≠ dimModel
    · rw [if_pos hne]
      exact dense_returns K z pre _ dimModel none 0 a b c _ (by intro f hf; cases hf) hzs
    · rw [if_neg hne]
      exact ⟨z, rfl, by rw [hzs, not_not.mp hne]⟩

/-- C19 as amended: `LayerAAN` is the pre-processing of the average, the stack of AAN
layers, and the gating with the post-processing; and for a depth `d >= 1`, on an average
of four axes and width `w`, the stack applies the `d - 1` first transforms of the
feed-forward stack (to width `transformer-dim-aan`, with the activation), and the last one
(back to the model width, with no activation) only when the width reached, which is
`transformer-dim-aan` for `d >= 2` and `w` for `d = 1`, differs from the model width: `d`
dense transforms in that case, `d - 1` otherwise. -/
theorem LayerAAN_dense_stack {α : Type} [Field α] (K : Kernels α) (self : DecoderTransformer)
    (pre : String) (x average : Tensor α) (actFn : Tensor α → Tensor α)
    (hdepth : 1 ≤ self.options_.transformer_aan_depth)
    (hact : activationByName K self.options_.transformer_aan_activation = .ok actFn) :
    LayerAAN K self pre x average
      = (dimBack x.shape 1 >>= fun dimModel =>
          preProcess K (pre ++ "_ffn") self.options_.transformer_preprocess average
            (if self.inference_ then 0 else self.options_.transformer_dropout) >>= fun y =>
          LayerAANStack K self pre dimModel actFn y >>= fun y =>
          LayerAANGate K self pre dimModel x y) ∧
    ∀ (dimModel : Nat) (y : Tensor α) (a b c w : Nat), y.shape = [a, b, c, w] →
      ((if self.options_.transformer_aan_depth = 1 then w
          else self.options_.transformer_dim_aan) ≠ dimModel →
        LayerAANStack K self pre dimModel actFn y
          = applyAll (specDenseStack K pre self.options_.transformer_dim_aan dimModel actFn
              (if self.inference_ then 0 else self.options_.transformer_dropout_ffn)
              self.options_.transformer_aan_depth.toNat) y) ∧
      ((if self.options_.transformer_aan_depth = 1 then w
          else self.options_.transformer_dim_aan) = dimModel →
        LayerAANStack K self pre dimModel actFn y
          = applyAll ((specDenseStack K pre self.options_.transformer_dim_aan dimModel actFn
              (if self.inference_ then 0 else self.options_.transformer_dropout_ffn)
              self.options_.transformer_aan_depth.toNat).take
                (self.options_.transformer_aan_depth.toNat - 1)) y) ∧
      ∃ out, LayerAANStack K self pre dimModel actFn y = .ok out ∧
        out.shape = [a, b, c, dimModel] := by
  refine ⟨?_, fun dimModel y a b c w hy =>
    LayerAANStack_cases K self pre dimModel actFn y a b c w hdepth hact hy⟩
  rw [LayerAAN_eq]
  simp only [hact, ok_bind]

/-- C19, as stated, fails: with `transformer-aan-depth` 1 the loop does not run and an
average that has the model width already skips the last transform, so that no dense
transform is applied to it, where the one dense transform of the claim would turn the
values 1, 2 into 4, 4. -/
theorem LayerAAN_depth_one_applies_no_dense :
    LayerAANStack exampleKernels
        { exampleDecoder with options_ := { exampleOptions with transformer_aan_depth := 1 } }
        "p" 2 (relu exampleKernels) (Tensor.mk [1, 1, 1, 2] [1, 2])
      = .ok (Tensor.mk [1, 1, 1, 2] [1, 2]) ∧
    applyAll (specDenseStack exampleKernels "p" 2 2 (relu exampleKernels) 0 1)
        (Tensor.mk [1, 1, 1, 2] [1, 2])
      = .ok (Tensor.mk [1, 1, 1, 2] [4, 4]) := by
  constructor
  · rfl
  · simp [applyAll, specDenseStack, specDenseTransform, dense, affine, dimBack, graphParam,
      exampleKernels, add, zipWithB, broadcastShape, padShape, broadcastDims, elements, readB,
      ravel, unravel, bind, Except.bind, pure, Except.pure, List.range_succ]
    norm_num

/-! ## Checks of `step` -/

theorem decoderLayer_unknown_type {α : Type} [Field α] (K : Kernels α)
    (self : DecoderTransformer) (prevDecoderStates : List (State α)) (selfMask : Tensor α)
    (startPos : Nat) (encoders : List (Tensor α × Tensor α)) (query : Tensor α)
    (h1 : self.options_.transformer_decoder_autoreg ≠ "self-attention")
    (h2 : self.options_.transformer_decoder_autoreg ≠ "average-attention") :
    decoderLayer K self prevDecoderStates selfMask startPos encoders 1 query
      = .error (.abort ("Unknown auto-regressive layer type in transformer decoder "
          ++ self.options_.transformer_decoder_autoreg)) := by
  unfold decoderLayer
  have hprev : ∃ p, (if prevDecoderStates.length > 0 then
        orFail prevDecoderStates[1 - 1]? (.undefined "prevDecoderStates[i - 1] out of bounds")
      else pure ({ output := none, cell := none } : State α)) = .ok p := by
    cases prevDecoderStates with
    | nil => exact ⟨_, rfl⟩
    | cons s rest => exact ⟨s, by simp [orFail]⟩
  obtain ⟨p, hp⟩ := hprev
  rw [hp, ok_bind]
  simp only [if_neg h1, if_neg h2]
  rfl

theorem stepState_unknown_type {α : Type} [Field α] (K : Kernels α)
    (self : DecoderTransformer) (state : TransformerState α)
    (hdepth : 1 ≤ self.options_.dec_depth)
    (h1 : self.options_.transformer_decoder_autoreg ≠ "self-attention")
    (h2 : self.options_.transformer_decoder_autoreg ≠ "average-attention") :
    self.stepState K state
      = (self.stepPrologue K state >>= fun _ =>
          .error (.abort ("Unknown auto-regressive layer type in transformer decoder "
            ++ self.options_.transformer_decoder_autoreg))) := by
  obtain ⟨m, hm⟩ : ∃ m, self.options_.dec_depth.toNat = m + 1 :=
    ⟨self.options_.dec_depth.toNat - 1, by omega⟩
  unfold DecoderTransformer.stepState
  cases hpro : self.stepPrologue K state with
  | error e => rfl
  | ok r =>
    obtain ⟨query, selfMask, encoders⟩ := r
    simp only [ok_bind]
    have hidx : self.layerIndices = 1 :: (List.range m).map (· + 1 + 1) := by
      unfold DecoderTransformer.layerIndices
      rw [hm, List.range_succ_eq_map, List.map_cons, List.map_map]
      rfl
    rw [hidx]
    unfold decoderLayers
    rw [decoderLayer_unknown_type K self _ _ _ _ _ h1 h2]
    rfl

theorem isOk_bind_error {β γ : Type} (x : Result β) (e : Failure) :
    (x >>= fun _ => (.error e : Result γ)).isOk = false := by
  cases x with
  | error e' => rfl
  | ok a => rfl

/-- C15 as amended: with at least one decoder layer and an autoregressive layer type that
is neither `"self-attention"` nor `"average-attention"`, `step` is the part before the
loop over the layers followed by `ABORT("Unknown auto-regressive layer type ...")` in the
first iteration: it never returns a state, and it ends in that `ABORT` whenever the part
before the loop completes.  And `step(graph, state)` on a graph other than the one given
to `startState` ends in `ABORT`, whatever the creation of the output layer would do. -/
theorem step_rejects_unknown_layer_type {α : Type} [Field α] (K : Kernels α)
    (self : DecoderTransformer) (graph : Nat) (state : TransformerState α)
    (hdepth : 1 ≤ self.options_.dec_depth)
    (h1 : self.options_.transformer_decoder_autoreg ≠ "self-attention")
    (h2 : self.options_.transformer_decoder_autoreg ≠ "average-attention") :
    self.stepState K state
      = (self.stepPrologue K state >>= fun _ =>
          .error (.abort ("Unknown auto-regressive layer type in transformer decoder "
            ++ self.options_.transformer_decoder_autoreg))) ∧
    (self.stepState K state).isOk = false ∧
    (self.step K graph state).isOk = false ∧
    (∀ r, self.stepPrologue K state = .ok r →
      self.stepState K state
        = .error (.abort ("Unknown auto-regressive layer type in transformer decoder "
            ++ self.options_.transformer_decoder_autoreg))) ∧
    (∀ (dec : DecoderTransformer) (g g' batch : Nat) (encStates : List (EncoderState α))
      (st : TransformerState α), g' ≠ g →
      (dec.startState g batch encStates).1.step K g' st
        = .error (.abort "An inconsistent graph parameter was passed to step().")) := by
  have heq := stepState_unknown_type K self state hdepth h1 h2
  refine ⟨heq, ?_, ?_, ?_, ?_⟩
  · rw [heq]
    exact isOk_bind_error _ _
  · unfold DecoderTransformer.step
    by_cases hg : some graph ≠ self.graph_
    · rw [if_pos hg]; rfl
    · rw [if_neg hg]
      cases hl : self.LazyCreateOutputLayer (self.prefix_ ++ "_ff_logit_out") with
      | error e => rfl
      | ok self' =>
        have hopt := LazyCreateOutputLayer_options self self' _ hl
        rw [ok_bind, stepState_unknown_type K self' state (by rw [hopt]; exact hdepth)
          (by rw [hopt]; exact h1) (by rw [hopt]; exact h2)]
        cases self'.stepPrologue K state with
        | error e => rfl
        | ok r => rfl
  · intro r hr
    rw [heq, hr]
    rfl
  · intro dec g g' batch encStates st hne
    unfold DecoderTransformer.step DecoderTransformer.startState
    rw [if_pos (by simpa using hne)]

/-- C15, as stated, fails: a decoder without layers (`dec-depth` 0) never reads the layer
type, and `step` returns a state although the type is not a known one. -/
theorem step_returns_without_layers :
    exampleDecoderNoLayers.options_.transformer_decoder_autoreg ≠ "self-attention" ∧
    exampleDecoderNoLayers.options_.transformer_decoder_autoreg ≠ "average-attention" ∧
    ((exampleDecoderNoLayers.startState 7 0 ([] : List (EncoderState ℚ))).1.step exampleKernels 7
      exampleStartNoLayers).isOk = true := by
  decide

/-- Witness of C15 as amended: with one layer, `step` of `exampleDecoderNoLayers` ends in
the `ABORT` of the unknown layer type. -/
theorem step_rejects_unknown_layer_type_witness :
    ({ exampleDecoderNoLayers with
        options_ := { exampleDecoderNoLayers.options_ with dec_depth := 1 },
        graph_ := some 7 } : DecoderTransformer).stepState exampleKernels exampleStartNoLayers
      = .error (.abort ("Unknown auto-regressive layer type in transformer decoder " ++ "rnn")) := by
  cases hr : ({ exampleDecoderNoLayers with
        options_ := { exampleDecoderNoLayers.options_ with dec_depth := 1 },
        graph_ := some 7 } : DecoderTransformer).stepPrologue exampleKernels exampleStartNoLayers with
  | error e =>
    have h : (({ exampleDecoderNoLayers with
        options_ := { exampleDecoderNoLayers.options_ with dec_depth := 1 },
        graph_ := some 7 } : DecoderTransformer).stepPrologue exampleKernels
        exampleStartNoLayers).isOk = true := by decide
    rw [hr] at h; cases h
  | ok r =>
    exact (step_rejects_unknown_layer_type exampleKernels
      { exampleDecoderNoLayers with
        options_ := { exampleDecoderNoLayers.options_ with dec_depth := 1 }, graph_ := some 7 }
      7 exampleStartNoLayers (by decide) (by decide) (by decide)).2.2.2.1 r hr

/-! ## Rows of `softmax` -/

theorem ravel_unravel (s : List Nat) (p : Nat) : ravel s (unravel s p) = p % elements s := by
  induction s with
  | nil => simp [ravel, unravel, elements, Nat.mod_one]
  | cons d ds ih =>
    simp only [unravel, ravel, ih, Nat.mod_mod]
    have : elements (d :: ds) = elements ds * d := by
      simp [elements, Nat.mul_comm]
    rw [this, Nat.mod_mul, Nat.mul_comm, Nat.add_comm]

theorem readB_same_shape {α : Type} [Zero α] (t : Tensor α) (p : Nat)
    (hp : p < elements t.shape) : readB t t.shape p = t.data.getD p 0 := by
  unfold readB padShape
  simp only [Nat.sub_self, List.replicate_zero, List.nil_append]
  rw [ravel_unravel, Nat.mod_eq_of_lt hp]

theorem elements_append_singleton (lead : List Nat) (n : Nat) :
    elements (lead ++ [n]) = elements lead * n := by
  simp [elements]

theorem dimBack_append_singleton (lead : List Nat) (n : Nat) :
    dimBack (lead ++ [n]) 1 = .ok n := by
  unfold dimBack
  simp

theorem broadcastDims_rowsum : ∀ (lead : List Nat) (n : Nat),
    broadcastDims (lead ++ [n]) (lead ++ [1]) = .ok (lead ++ [n])
  | [], n => by
      simp only [List.nil_append, broadcastDims]
      by_cases h : n = 1 <;> simp [h]
  | d :: ds, n => by
      have ih := broadcastDims_rowsum ds n
      show broadcastDims (d :: (ds ++ [n])) (d :: (ds ++ [1])) = .ok (d :: (ds ++ [n]))
      rw [broadcastDims, ih]
      simp

theorem broadcastShape_rowsum (lead : List Nat) (n : Nat) :
    broadcastShape (lead ++ [n]) (lead ++ [1]) = .ok (lead ++ [n]) := by
  unfold broadcastShape padShape
  simp only [List.length_append, List.length_singleton, Nat.max_self, Nat.sub_self,
    List.replicate_zero, List.nil_append]
  exact broadcastDims_rowsum lead n

theorem ravel_rowsum (n p : Nat) : ∀ (lead : List Nat),
    ravel (lead ++ [1]) (unravel (lead ++ [n]) p) = p / n % elements lead
  | [] => by
      simp [ravel, unravel, elements, Nat.mod_one]
  | d :: ds => by
      have ih := ravel_rowsum n p ds
      show ravel (d :: (ds ++ [1])) (unravel (d :: (ds ++ [n])) p) = _
      rw [unravel, ravel, ih, Nat.mod_mod, elements_append_singleton, elements_append_singleton,
        Nat.mul_one]
      have : elements (d :: ds) = elements ds * d := by
        simp [elements, Nat.mul_comm]
      rw [this, Nat.mod_mul, Nat.div_div_eq_div_mul, Nat.mul_comm n, Nat.mul_comm _ (elements ds),
        Nat.add_comm]

theorem sum_map_div {α : Type} [Field α] (l : List α) (c : α) :
    (l.map (fun x => x / c)).sum = l.sum / c := by
  induction l with
  | nil => simp
  | cons a l ih => simp [ih, add_div]

/-- Row `r` of a buffer of `E` rows of `n` entries. -/
theorem row_eq_map {α : Type} [Zero α] (data : List α) (E n r : Nat)
    (hlen : data.length = E * n) (hr : r < E) :
    (data.drop (r * n)).take n = (List.range n).map (fun j => data.getD (r * n + j) 0) := by
  apply List.ext_getElem?
  intro l
  rw [List.getElem?_map, List.getElem?_take, List.getElem?_drop]
  by_cases hl : l < n
  · have hq : r * n + l < data.length := by
      rw [hlen]
      calc r * n + l < r * n + n := by omega
        _ = (r + 1) * n := by rw [Nat.succ_mul]
        _ ≤ E * n := Nat.mul_le_mul_right n hr
    rw [if_pos hl, List.getElem?_range hl, List.getElem?_eq_getElem hq]
    simp [List.getD_eq_getElem?_getD, List.getElem?_eq_getElem hq]
  · rw [if_neg hl, List.getElem?_eq_none_iff.mpr (by simp; omega)]
    rfl

theorem getD_map_range {α : Type} [Zero α] (f : Nat → α) (N p : Nat) (hp : p < N) :
    ((List.range N).map f).getD p 0 = f p := by
  rw [List.getD_eq_getElem?_getD, List.getElem?_map, List.getElem?_range hp]
  rfl

/-- What `normalizedMask` returns on a well-formed mask whose innermost axis has `n`
entries: entry `j` of row `r` is the entry of the mask divided by the sum of its row. -/
theorem normalizedMask_entries {α : Type} [Field α] (M : Tensor α) (lead : List Nat) (n : Nat)
    (hs : M.shape = lead ++ [n]) (hwf : M.WellFormed) :
    ∃ N, normalizedMask M = .ok N ∧ N.shape = lead ++ [n] ∧
      N.data.length = elements lead * n ∧
      ∀ r j, r < elements lead → j < n →
        N.data.getD (r * n + j) 0
          = M.data.getD (r * n + j) 0 / ((M.data.drop (r * n)).take n).sum := by
  have hlen : M.data.length = elements lead * n := by
    rw [hwf, hs]; exact elements_append_singleton lead n
  unfold normalizedMask sumLast
  rw [hs, dimBack_append_singleton, ok_bind]
  simp only [pure, Except.pure, ok_bind, List.dropLast_concat]
  unfold div zipWithB
  simp only [hs, broadcastShape_rowsum]
  refine ⟨_, rfl, rfl, by simp [elements_append_singleton], ?_⟩
  intro r j hr hj
  have hp : r * n + j < elements lead * n := by
    calc r * n + j < r * n + n := by omega
      _ = (r + 1) * n := by rw [Nat.succ_mul]
      _ ≤ elements lead * n := Nat.mul_le_mul_right n hr
  have hn : 0 < n := by omega
  have hdiv : (r * n + j) / n = r := by
    rw [Nat.add_comm, Nat.add_mul_div_right _ _ hn, Nat.div_eq_of_lt hj, Nat.zero_add]
  simp only [elements_append_singleton]
  rw [getD_map_range _ _ _ hp]
  have h1 : readB M (lead ++ [n]) (r * n + j) = M.data.getD (r * n + j) 0 := by
    have := readB_same_shape M (r * n + j) (by rw [hs, elements_append_singleton]; exact hp)
    rw [hs] at this
    exact this
  have h2 : readB (Tensor.mk (lead ++ [1]) ((List.range (elements lead)).map
        (fun r => ((M.data.drop (r * n)).take n).sum))) (lead ++ [n]) (r * n + j)
      = ((M.data.drop (r * n)).take n).sum := by
    unfold readB padShape
    simp only [List.length_append, List.length_singleton, Nat.sub_self, List.replicate_zero,
      List.nil_append]
    rw [ravel_rowsum, hdiv, Nat.mod_eq_of_lt hr, getD_map_range _ _ _ hr]
  rw [h1, h2]

theorem triangleMask_wellFormed {α : Type} [Zero α] [One α] (L : Nat) :
    (triangleMask L : Tensor α).WellFormed := by
  unfold Tensor.WellFormed triangleMask constant
  rw [show (triangleMaskBuffer L : List α).length = L * L from
    (@triangleFill_spec α _ _ L L (Nat.le_refl L)).1]
  simp

/-- The rows of a normalised mask sum to 1 where the rows of the mask have a sum other
than 0. -/
theorem normalizedMask_rows {α : Type} [Field α] (M : Tensor α) (lead : List Nat) (n : Nat)
    (hs : M.shape = lead ++ [n]) (hwf : M.WellFormed) :
    ∃ N, normalizedMask M = .ok N ∧ N.shape = M.shape ∧
      ∀ r, r < elements lead → ((M.data.drop (r * n)).take n).sum ≠ 0 →
        ((N.data.drop (r * n)).take n).sum = 1 := by
  obtain ⟨N, hN, hNs, hNlen, hNe⟩ := normalizedMask_entries M lead n hs hwf
  refine ⟨N, hN, by rw [hNs, hs], ?_⟩
  intro r hr hsum
  have hlen : M.data.length = elements lead * n := by
    rw [hwf, hs]; exact elements_append_singleton lead n
  rw [row_eq_map N.data (elements lead) n r hNlen hr]
  have hrow : (List.range n).map (fun j => N.data.getD (r * n + j) 0)
      = ((List.range n).map (fun j => M.data.getD (r * n + j) 0)).map
          (fun x => x / ((M.data.drop (r * n)).take n).sum) := by
    rw [List.map_map]
    apply List.map_congr_left
    intro j hj
    exact hNe r j hr (List.mem_range.mp hj)
  rw [hrow, sum_map_div, ← row_eq_map M.data (elements lead) n r hlen hr]
  exact div_self hsum

/-- The sum of a list of zeros and ones that holds a one is not 0 in a field of
characteristic 0. -/
theorem sum_zero_one_ne_zero {α : Type} [Field α] [CharZero α] (l : List α)
    (h01 : ∀ x ∈ l, x = 0 ∨ x = 1) (h1 : (1 : α) ∈ l) : l.sum ≠ 0 := by
  have hcount : ∀ (l : List α), (∀ x ∈ l, x = 0 ∨ x = 1) →
      ∃ k : Nat, l.sum = (k : α) ∧ ((1 : α) ∈ l → 0 < k) := by
    intro l
    induction l with
    | nil => intro _; exact ⟨0, by simp, by simp⟩
    | cons a l ih =>
      intro h
      obtain ⟨k, hk, hpos⟩ := ih (fun x hx => h x (List.mem_cons_of_mem _ hx))
      rcases h a (List.mem_cons_self _ _) with rfl | rfl
      · refine ⟨k, by simp [hk], ?_⟩
        intro hmem
        rcases List.mem_cons.mp hmem with h0 | hl
        · exact absurd h0 one_ne_zero
        · exact hpos hl
      · exact ⟨k + 1, by rw [List.sum_cons, hk]; push_cast; ring, fun _ => Nat.succ_pos k⟩
  obtain ⟨k, hk, hpos⟩ := hcount l h01
  rw [hk]
  exact_mod_cast (Nat.pos_iff_ne_zero.mp (hpos h1))

/-- C18: in the full-sequence branch of `DecoderLayerAAN` (`startPos = 0`, more than one
time step) the input is multiplied by `selfMask / sum(selfMask, axis=-1)`; in that mask
every row whose entries in `selfMask` have a sum other than 0 sums to 1, which for a mask
of zeros and ones is every row that holds a one; and for the plain triangle mask of length
`L` every row `i < L` sums to 1 and holds `1 / (i + 1)` at the columns `j <= i` and 0 at
the others. -/
theorem normalized_mask_row_stochastic {α : Type} [Field α] [CharZero α] :
    (∀ (prev : State α) (input selfMask : Tensor α) (L : Nat),
      dimBack input.shape 2 = .ok L → 1 < L →
      DecoderLayerAANAverage prev input selfMask 0
        = (normalizedMask selfMask >>= fun N => bdot N input false false 1)) ∧
    (∀ (M : Tensor α) (lead : List Nat) (n : Nat), M.shape = lead ++ [n] → M.WellFormed →
      ∃ N, normalizedMask M = .ok N ∧ N.shape = M.shape ∧
        (∀ r, r < elements lead → ((M.data.drop (r * n)).take n).sum ≠ 0 →
          ((N.data.drop (r * n)).take n).sum = 1) ∧
        ((∀ x ∈ M.data, x = 0 ∨ x = 1) →
          ∀ r j, r < elements lead → j < n → M.data.getD (r * n + j) 0 = 1 →
            ((N.data.drop (r * n)).take n).sum = 1)) ∧
    (∀ L : Nat, ∃ N, normalizedMask (triangleMask L : Tensor α) = .ok N ∧
      N.shape = [1, L, L] ∧
      ∀ i, i < L → ((N.data.drop (i * L)).take L).sum = 1 ∧
        ∀ j, j < L → N.data[i * L + j]? = some (if j ≤ i then 1 / ((i : α) + 1) else 0)) := by
  refine ⟨?_, ?_, ?_⟩
  · intro prev input selfMask L hL h1
    unfold DecoderLayerAANAverage normalizedMask
    simp only [Nat.lt_irrefl, if_false, gt_iff_lt, hL, ok_bind, true_and, h1, if_true, bind_assoc]
  · intro M lead n hs hwf
    obtain ⟨N, hN, hNs, hrows⟩ := normalizedMask_rows M lead n hs hwf
    refine ⟨N, hN, hNs, hrows, ?_⟩
    intro h01 r j hr hj hone
    have hlen : M.data.length = elements lead * n := by
      rw [hwf, hs]; exact elements_append_singleton lead n
    apply hrows r hr
    apply sum_zero_one_ne_zero
    · intro x hx
      exact h01 x (List.mem_of_mem_drop (List.mem_of_mem_take hx))
    · rw [row_eq_map M.data (elements lead) n r hlen hr]
      exact List.mem_map.mpr ⟨j, List.mem_range.mpr hj, hone⟩
  · intro L
    have hshape : (triangleMask L : Tensor α).shape = [1, L] ++ [L] := rfl
    have hwf := @triangleMask_wellFormed α _ _ L
    have hel : elements [1, L] = L := by simp [elements]
    obtain ⟨N, hN, hNs, hNlen, hNe⟩ :=
      normalizedMask_entries (triangleMask L : Tensor α) [1, L] L hshape hwf
    obtain ⟨N', hN', -, hrows⟩ := normalizedMask_rows (triangleMask L : Tensor α) [1, L] L hshape hwf
    rw [hN] at hN'
    cases hN'
    rw [hel] at hNlen hNe hrows
    refine ⟨N, hN, hNs, ?_⟩
    intro i hi
    have hsum : (((triangleMask L : Tensor α).data.drop (i * L)).take L).sum = (i : α) + 1 :=
      triangleMask_row_sum L i hi
    have hne : ((i : α) + 1) ≠ 0 := by exact_mod_cast Nat.succ_ne_zero i
    refine ⟨hrows i hi (by rw [hsum]; exact hne), ?_⟩
    intro j hj
    have hp : i * L + j < N.data.length := by
      rw [hNlen]
      calc i * L + j < i * L + L := by omega
        _ = (i + 1) * L := by rw [Nat.succ_mul]
        _ ≤ L * L := Nat.mul_le_mul_right L hi
    have he := hNe i j hi hj
    rw [hsum] at he
    rw [List.getD_eq_getElem?_getD, List.getElem?_eq_getElem hp, Option.getD_some] at he
    rw [List.getElem?_eq_getElem hp, he]
    have hm : (triangleMask L : Tensor α).data.getD (i * L + j) 0 = if j ≤ i then 1 else 0 := by
      rw [List.getD_eq_getElem?_getD]
      show ((triangleMaskBuffer L : List α)[i * L + j]?).getD 0 = _
      rw [(triangleMask_lower_triangular_aux L i j hi hj).1]
      rfl
    rw [hm]
    by_cases hji : j ≤ i
    · simp [hji]
    · simp [hji]

/-- Witness of C18 over the rationals: the normalised triangle mask of length 3. -/
theorem normalized_mask_row_stochastic_witness :
    ∃ N, normalizedMask (triangleMask 3 : Tensor ℚ) = .ok N ∧ N.shape = [1, 3, 3] ∧
      ∀ i, i < 3 → ((N.data.drop (i * 3)).take 3).sum = 1 ∧
        ∀ j, j < 3 → N.data[i * 3 + j]? = some (if j ≤ i then 1 / ((i : ℚ) + 1) else 0) :=
  (@normalized_mask_row_stochastic ℚ _ _).2.2 3

/-! ## The beam broadcast of `Attention` -/

/-- C20: in `Attention`, for a query of leading dimension `Q >= 1` and keys and values of
leading dimension `K` dividing `Q`, the broadcast step returns keys and values of leading
dimension `Q`, so that `q`, `k` and `v` have the same first dimension before the scores
are computed: `k` and `v` themselves when `Q = K`, and `repeat(k, Q / K, axis=-4)` and
`repeat(v, Q / K, axis=-4)`, which hold `Q / K` copies of their values, when `Q / K > 1`. -/
theorem beam_broadcast_equalises {α : Type} [Field α] (K : Kernels α)
    (self : DecoderTransformer) (pre : String) (q k v values mask : Tensor α)
    (Q Kk h Tq L d dv : Nat)
    (hq : q.shape = [Q, h, Tq, d]) (hk : k.shape = [Kk, h, L, d]) (hv : v.shape = [Kk, h, L, dv])
    (hQ : 1 ≤ Q) (hdiv : Kk ∣ Q) :
    1 ≤ Kk ∧
    ∃ k' v', beamBroadcast q k v = .ok (k', v') ∧
      Attention K self pre q k v values mask = attend K self d q k' v' mask ∧
      k'.shape = [Q, h, L, d] ∧ v'.shape = [Q, h, L, dv] ∧
      dimBack k'.shape 4 = dimBack q.shape 4 ∧ dimBack v'.shape 4 = dimBack q.shape 4 ∧
      (Q = Kk → k' = k ∧ v' = v) ∧
      (1 < Q / Kk → repeatOp k (Q / Kk) 4 = .ok k' ∧ repeatOp v (Q / Kk) 4 = .ok v') ∧
      (k.WellFormed → k'.data = (List.replicate (Q / Kk) k.data).flatten) ∧
      (v.WellFormed → v'.data = (List.replicate (Q / Kk) v.data).flatten) := by
  have hK : 1 ≤ Kk := by
    rcases Nat.eq_zero_or_pos Kk with h0 | h0
    · subst h0
      have := Nat.eq_zero_of_zero_dvd hdiv
      omega
    · exact h0
  obtain ⟨k', v', hb, hks, hvs, h1, h2, h3, h4⟩ :=
    beamBroadcast_returns q k v Q Kk h Tq L d dv hq hk hv hQ hdiv
  refine ⟨hK, k', v', hb, ?_, hks, hvs, by rw [hks, hq]; rfl, by rw [hvs, hq]; rfl, h1, h2, h3,
    h4⟩
  rw [Attention_eq, hk, dimBack_four_1, ok_bind, hb, ok_bind]

/-- Witness of C20: a query of leading dimension 4 against keys and values of leading
dimension 2. -/
theorem beam_broadcast_equalises_witness :
    ∃ k' v', beamBroadcast (Tensor.mk [4, 1, 1, 1] [1, 2, 3, (4 : ℚ)])
        (Tensor.mk [2, 1, 1, 1] [5, 6]) (Tensor.mk [2, 1, 1, 1] [7, 8]) = .ok (k', v') ∧
      k'.shape = [4, 1, 1, 1] ∧ v'.shape = [4, 1, 1, 1] ∧
      k'.data = (List.replicate (4 / 2) [5, 6]).flatten ∧
      v'.data = (List.replicate (4 / 2) [7, 8]).flatten := by
  obtain ⟨-, k', v', hb, -, hks, hvs, -, -, -, -, hkd, hvd⟩ :=
    beam_broadcast_equalises exampleKernels exampleDecoder "p"
      (Tensor.mk [4, 1, 1, 1] [1, 2, 3, (4 : ℚ)]) (Tensor.mk [2, 1, 1, 1] [5, 6])
      (Tensor.mk [2, 1, 1, 1] [7, 8]) (Tensor.mk [2, 1, 1, 1] [7, 8])
      (Tensor.mk [1, 1, 1, 1] [0]) 4 2 1 1 1 1 1 rfl rfl rfl (by decide) (by decide)
  exact ⟨k', v', hb, hks, hvs, hkd rfl, hvd rfl⟩

/-! ## Witnesses of the claims on the layers -/

theorem exampleMask_fits (h : Nat) :
    FitsScores (Tensor.mk [1, 1, 1, 1] [(0 : ℚ)]) [1 * 1, h, 1, 1] :=
  List.Forall₂.cons (Or.inl rfl) (List.Forall₂.cons (Or.inl rfl)
    (List.Forall₂.cons (Or.inl rfl) (List.Forall₂.cons (Or.inl rfl) List.Forall₂.nil)))

theorem exampleSources_shaped (i : Nat) (hi : i < 2) :
    ∃ key value mask,
      [Tensor.mk [1, 1, 1, 2] [1, (2 : ℚ)], Tensor.mk [1, 1, 1, 2] [3, 4]][i]? = some key ∧
      [Tensor.mk [1, 1, 1, 2] [1, (2 : ℚ)], Tensor.mk [1, 1, 1, 2] [3, 4]][i]? = some value ∧
      [Tensor.mk [1, 1, 1, 1] [(0 : ℚ)], Tensor.mk [1, 1, 1, 1] [0]][i]? = some mask ∧
      SourceShaped 2 1 1 1 2 key value mask := by
  have h : i = 0 ∨ i = 1 := by omega
  rcases h with rfl | rfl
  · exact ⟨_, _, _, rfl, rfl, rfl, 1, 1, 1, rfl, rfl, by decide, by decide, exampleMask_fits 2⟩
  · exact ⟨_, _, _, rfl, rfl, rfl, 1, 1, 1, rfl, rfl, by decide, by decide, exampleMask_fits 2⟩

/-- Witness of C11: two sources, two heads, model width 2 and output width 3. -/
theorem MultiHead_output_width_witness :
    ∃ out, MultiHead exampleKernels exampleDecoder "p" 3 2 (Tensor.mk [1, 1, 1, 2] [1, 2])
        [Tensor.mk [1, 1, 1, 2] [1, 2], Tensor.mk [1, 1, 1, 2] [3, 4]]
        [Tensor.mk [1, 1, 1, 2] [1, 2], Tensor.mk [1, 1, 1, 2] [3, 4]]
        [Tensor.mk [1, 1, 1, 1] [0], Tensor.mk [1, 1, 1, 1] [0]] = .ok out ∧
      out.shape = [1, 1, 1, 3] ∧ dimBack out.shape 1 = .ok 3 :=
  (MultiHead_output_width exampleKernels exampleDecoder "p" 3 2 (Tensor.mk [1, 1, 1, 2] [1, 2])
    [Tensor.mk [1, 1, 1, 2] [1, 2], Tensor.mk [1, 1, 1, 2] [3, 4]]
    [Tensor.mk [1, 1, 1, 2] [1, 2], Tensor.mk [1, 1, 1, 2] [3, 4]]
    [Tensor.mk [1, 1, 1, 1] [0], Tensor.mk [1, 1, 1, 1] [0]] 1 1 1 2 rfl (by decide) (by decide)
    (by decide) (by decide) exampleSources_shaped).1

theorem exampleSource_shaped (i : Nat) (hi : i < 1) :
    ∃ key value mask,
      [Tensor.mk [1, 1, 1, 2] [1, (2 : ℚ)]][i]? = some key ∧
      [Tensor.mk [1, 1, 1, 2] [1, (2 : ℚ)]][i]? = some value ∧
      [Tensor.mk [1, 1, 1, 1] [(0 : ℚ)]][i]? = some mask ∧
      SourceShaped 1 1 1 1 2 key value mask := by
  have h : i = 0 := by omega
  subst h
  exact ⟨_, _, _, rfl, rfl, rfl, 1, 1, 1, rfl, rfl, by decide, by decide, exampleMask_fits 1⟩

/-- Witness of C12: `exampleDecoder` has `transformer-no-projection` disabled; on a
single source of the output width its `MultiHead` applies the projection. -/
theorem projection_skipped_iff_witness :
    ∃ output, MultiHeadConcat exampleKernels exampleDecoder "p" 1
        (Tensor.mk [1, 1, 1, 2] [1, 2]) [Tensor.mk [1, 1, 1, 2] [1, 2]]
        [Tensor.mk [1, 1, 1, 2] [1, 2]] [Tensor.mk [1, 1, 1, 1] [0]] = .ok output ∧
      MultiHead exampleKernels exampleDecoder "p" 2 1 (Tensor.mk [1, 1, 1, 2] [1, 2])
        [Tensor.mk [1, 1, 1, 2] [1, 2]] [Tensor.mk [1, 1, 1, 2] [1, 2]]
        [Tensor.mk [1, 1, 1, 1] [0]]
        = affine output (graphParam exampleKernels ("p" ++ "_Wo") [2, 2])
            (graphParam exampleKernels ("p" ++ "_bo") [1, 2]) := by
  obtain ⟨output, hc, hs⟩ := MultiHeadConcat_returns exampleKernels exampleDecoder "p" 1
    (Tensor.mk [1, 1, 1, 2] [1, 2]) [Tensor.mk [1, 1, 1, 2] [1, 2]]
    [Tensor.mk [1, 1, 1, 2] [1, 2]] [Tensor.mk [1, 1, 1, 1] [0]] 1 1 1 2 rfl (by decide)
    (by decide) (by decide) (by decide) exampleSource_shaped
  have hd : dimBack output.shape 1 = .ok 2 := by rw [hs]; rfl
  exact ⟨output, hc, (projection_skipped_iff exampleKernels exampleDecoder "p" 2 1
    (Tensor.mk [1, 1, 1, 2] [1, 2]) [Tensor.mk [1, 1, 1, 2] [1, 2]]
    [Tensor.mk [1, 1, 1, 2] [1, 2]] [Tensor.mk [1, 1, 1, 1] [0]] output 2 hc hd).2.2
    rfl rfl rfl⟩

/-- Witness of C14: the feed-forward sublayer of `exampleDecoder` with depth 0. -/
theorem feed_forward_configuration_validated_witness :
    (LayerFFN exampleKernels
      { exampleDecoder with options_ := { exampleOptions with transformer_ffn_depth := 0 } }
      "p" (Tensor.mk [1, 1, 1, 2] [1, 2])).aborts = true :=
  (feed_forward_configuration_validated exampleKernels
    { exampleDecoder with options_ := { exampleOptions with transformer_ffn_depth := 0 } }
    "p" (Tensor.mk [1, 1, 1, 2] [1, 2])).1 (by decide)

/-- Witness of C17: `MultiHead` of `exampleDecoder` on a query of width 2 and no source. -/
theorem MultiHead_without_sources_undefined_witness :
    (MultiHead exampleKernels exampleDecoder "p" 2 1 (Tensor.mk [1, 1, 1, 2] [1, 2])
      [] [] []).isOk = false ∧
    MultiHead exampleKernels exampleDecoder "p" 2 1 (Tensor.mk [1, 1, 1, 2] [1, 2]) [] [] []
      = .error (.undefined "front() of an empty vector") :=
  ⟨(MultiHead_without_sources_undefined exampleKernels exampleDecoder "p" 2 1
      (Tensor.mk [1, 1, 1, 2] [1, 2])).1,
    ((MultiHead_without_sources_undefined exampleKernels exampleDecoder "p" 2 1
      (Tensor.mk [1, 1, 1, 2] [1, 2])).2.2 1 1 1 2 rfl (by decide) (by decide)).1⟩

/-- Witness of C19 as amended: the AAN stack of `exampleDecoder`, of depth 2 and hidden
width 2, on an average of the model width 2 applies the first transform only. -/
theorem LayerAAN_dense_stack_witness :
    LayerAANStack exampleKernels exampleDecoder "p" 2 (relu exampleKernels)
        (Tensor.mk [1, 1, 1, 2] [1, 2])
      = applyAll ((specDenseStack exampleKernels "p" 2 2 (relu exampleKernels) 0 2).take 1)
          (Tensor.mk [1, 1, 1, 2] [1, 2]) :=
  ((LayerAAN_dense_stack exampleKernels exampleDecoder "p" (Tensor.mk [1, 1, 1, 2] [1, 2])
    (Tensor.mk [1, 1, 1, 2] [1, 2]) (relu exampleKernels) (by decide) rfl).2 2
    (Tensor.mk [1, 1, 1, 2] [1, 2]) 1 1 1 2 rfl).2.1 rfl

/-! ## Operation strings in two stages -/

theorem processOps_append {α : Type} (body : Tensor α → Char → Result (Tensor α)) :
    ∀ (s1 s2 : List Char) (x : Tensor α),
      processOps body (s1 ++ s2) x = (processOps body s1 x >>= processOps body s2)
  | [], _, _ => rfl
  | op :: s1, s2, x => by
    rw [List.cons_append, processOps, processOps]
    cases h : body x op with
    | error e => rfl
    | ok y => exact processOps_append body s1 s2 y

theorem toList_append (s1 s2 : String) : (s1 ++ s2).toList = s1.toList ++ s2.toList := by
  simp

theorem preProcess_append {α : Type} [Field α] (K : Kernels α) (pre s1 s2 : String)
    (input : Tensor α) (dropProb : ℚ) :
    preProcess K pre (s1 ++ s2) input dropProb
      = (preProcess K pre s1 input dropProb >>= fun y => preProcess K pre s2 y dropProb) := by
  unfold preProcess
  rw [toList_append, processOps_append]

theorem postProcess_append {α : Type} [Field α] (K : Kernels α) (pre s1 s2 : String)
    (input prevInput : Tensor α) (dropProb : ℚ) :
    postProcess K pre (s1 ++ s2) input prevInput dropProb
      = (postProcess K pre s1 input prevInput dropProb >>= fun y =>
          processOps (postProcessOp K pre input prevInput dropProb) s2.toList y) := by
  unfold postProcess
  rw [toList_append, processOps_append]

theorem postProcessOp_width {α : Type} [Field α] (K : Kernels α) (pre : String)
    (input input' prevInput : Tensor α) (dropProb : ℚ) (output : Tensor α) (op : Char)
    (h : op = 'h' → dimBack input'.shape 1 = dimBack input.shape 1) :
    postProcessOp K pre input' prevInput dropProb output op
      = postProcessOp K pre input prevInput dropProb output op := by
  unfold postProcessOp
  by_cases hd : op = 'd' ∧ dropProb > 0
  · rw [if_pos hd, if_pos hd]
  · rw [if_neg hd, if_neg hd]
    by_cases ha : op = 'a'
    · rw [if_pos ha, if_pos ha]
    · rw [if_neg ha, if_neg ha]
      by_cases hh : op = 'h'
      · rw [if_pos hh, if_pos hh, h hh]
      · rw [if_neg hh, if_neg hh]

theorem processOps_congr {α : Type} (body body' : Tensor α → Char → Result (Tensor α)) :
    ∀ (ops : List Char) (x : Tensor α), (∀ op ∈ ops, ∀ y, body y op = body' y op) →
      processOps body ops x = processOps body' ops x
  | [], _, _ => rfl
  | op :: ops, x, h => by
    rw [processOps, processOps, h op (List.mem_cons_self _ _) x]
    cases body' x op with
    | error e => rfl
    | ok y =>
      exact processOps_congr body body' ops y (fun o ho => h o (List.mem_cons_of_mem _ ho))

theorem postProcess_split {α : Type} [Field α] (K : Kernels α) (pre s1 s2 : String)
    (input prevInput : Tensor α) (dropProb : ℚ)
    (h : 'h' ∈ s2.toList → ∀ y, postProcess K pre s1 input prevInput dropProb = .ok y →
      dimBack y.shape 1 = dimBack input.shape 1) :
    postProcess K pre (s1 ++ s2) input prevInput dropProb
      = (postProcess K pre s1 input prevInput dropProb >>= fun y =>
          postProcess K pre s2 y prevInput dropProb) := by
  rw [postProcess_append]
  cases hy : postProcess K pre s1 input prevInput dropProb with
  | error e => rfl
  | ok y =>
    rw [ok_bind, ok_bind]
    unfold postProcess
    apply processOps_congr
    intro op hop out
    symm
    apply postProcessOp_width
    intro hh
    subst hh
    exact h hop y hy

theorem postProcessOp_residual {α : Type} [Field α] (K : Kernels α) (pre : String)
    (input prevInput : Tensor α) (dropProb : ℚ) (output : Tensor α) :
    postProcessOp K pre input prevInput dropProb output 'a' = add output prevInput ∧
    postProcessOp K pre input prevInput dropProb output 'h'
      = (dimBack input.shape 1 >>= fun dimModel =>
          dense K prevInput pre "h" dimModel none 0 >>= fun t =>
          highway K output prevInput t) := by
  constructor
  · unfold postProcessOp
    rw [if_neg (by intro h; exact absurd h.1 (by decide)), if_pos rfl]
  · unfold postProcessOp
    rw [if_neg (by intro h; exact absurd h.1 (by decide)), if_neg (by decide), if_pos rfl]

theorem postProcess_split_counterexample :
    postProcess indexedKernels "p" ("a" ++ "h") (Tensor.mk [1, 1, 1, 1] [2])
        (Tensor.mk [1, 1, 1, 2] [0, 0]) 0 = .ok (Tensor.mk [1, 1, 1, 2] [1, 1]) ∧
    (postProcess indexedKernels "p" "a" (Tensor.mk [1, 1, 1, 1] [2])
        (Tensor.mk [1, 1, 1, 2] [0, 0]) 0 >>= fun y =>
      postProcess indexedKernels "p" "h" y (Tensor.mk [1, 1, 1, 2] [0, 0]) 0)
      = .ok (Tensor.mk [1, 1, 1, 2] [1, 2]) := by
  constructor
  · simp [postProcess, processOps, postProcessOp, highway, sigmoid, mapT, mul,
      dense, affine, dimBack, graphParam,
      indexedKernels, exampleKernels, add, zipWithB, broadcastShape, padShape, broadcastDims,
      elements, readB, dropout, dropoutShaped,
      ravel, unravel, bind, Except.bind, pure, Except.pure, List.range_succ]
    norm_num [List.singleton]
  · simp [postProcess, processOps, postProcessOp, highway, sigmoid, mapT, mul,
      dense, affine, dimBack, graphParam,
      indexedKernels, exampleKernels, add, zipWithB, broadcastShape, padShape, broadcastDims,
      elements, readB, dropout, dropoutShaped,
      ravel, unravel, bind, Except.bind, pure, Except.pure, List.range_succ]
    norm_num [List.singleton]

/-- C21, as amended: `preProcess` and `postProcess` interpret their operation string left
to right.  `preProcess(s1 ++ s2, input)` is `preProcess(s2, preProcess(s1, input))`, failing
when either stage fails.  `postProcess(s1 ++ s2, input, prev)` is `postProcess(s1, input,
prev)` followed by the operations of `s2` run with the same `input` and `prev`; it is
`postProcess(s2, postProcess(s1, input, prev), prev)` when `s2` holds no `h`, and when
`input` and `prev` have the same feature width, because `h` sizes its gate by the feature
width of the argument `input` of the call.  The residual added by `a` and gated by `h` is
always `prev`. -/
theorem postProcess_left_to_right {α : Type} [Field α] (K : Kernels α) (pre s1 s2 : String)
    (input prevInput : Tensor α) (dropProb : ℚ) :
    preProcess K pre (s1 ++ s2) input dropProb
      = (preProcess K pre s1 input dropProb >>= fun y => preProcess K pre s2 y dropProb) ∧
    postProcess K pre (s1 ++ s2) input prevInput dropProb
      = (postProcess K pre s1 input prevInput dropProb >>= fun y =>
          processOps (postProcessOp K pre input prevInput dropProb) s2.toList y) ∧
    ('h' ∉ s2.toList →
      postProcess K pre (s1 ++ s2) input prevInput dropProb
        = (postProcess K pre s1 input prevInput dropProb >>= fun y =>
            postProcess K pre s2 y prevInput dropProb)) ∧
    (∀ n, dimBack input.shape 1 = .ok n → dimBack prevInput.shape 1 = .ok n →
      postProcess K pre (s1 ++ s2) input prevInput dropProb
        = (postProcess K pre s1 input prevInput dropProb >>= fun y =>
            postProcess K pre s2 y prevInput dropProb)) ∧
    (∀ output : Tensor α,
      postProcessOp K pre input prevInput dropProb output 'a' = add output prevInput ∧
      postProcessOp K pre input prevInput dropProb output 'h'
        = (dimBack input.shape 1 >>= fun dimModel =>
            dense K prevInput pre "h" dimModel none 0 >>= fun t =>
            highway K output prevInput t)) := by
  refine ⟨preProcess_append K pre s1 s2 input dropProb,
    postProcess_append K pre s1 s2 input prevInput dropProb, ?_, ?_,
    postProcessOp_residual K pre input prevInput dropProb⟩
  · intro hno
    exact postProcess_split K pre s1 s2 input prevInput dropProb (fun hh => absurd hh hno)
  · intro n hi hp
    apply postProcess_split
    intro _ y hy
    rw [hi]
    exact postProcess_width K pre s1 input prevInput y dropProb n hi hp hy

/-- C21, as stated, fails: with the operation strings `"a"` and `"h"`, an input of feature
width 1 and a residual input of feature width 2, the single call `postProcess("ah", ...)`
gates with one value for both features (the gate has the width 1 of `input`) and returns
the values 1, 1, while the second of two calls gates feature by feature (the gate has the
width 2 of the intermediate value) and returns 1, 2. -/
theorem postProcess_gate_width_differs :
    postProcess indexedKernels "p" ("a" ++ "h") (Tensor.mk [1, 1, 1, 1] [2])
        (Tensor.mk [1, 1, 1, 2] [0, 0]) 0 = .ok (Tensor.mk [1, 1, 1, 2] [1, 1]) ∧
    (postProcess indexedKernels "p" "a" (Tensor.mk [1, 1, 1, 1] [2])
        (Tensor.mk [1, 1, 1, 2] [0, 0]) 0 >>= fun y =>
      postProcess indexedKernels "p" "h" y (Tensor.mk [1, 1, 1, 2] [0, 0]) 0)
      = .ok (Tensor.mk [1, 1, 1, 2] [1, 2]) ∧
    postProcess indexedKernels "p" ("a" ++ "h") (Tensor.mk [1, 1, 1, 1] [2])
        (Tensor.mk [1, 1, 1, 2] [0, 0]) 0
      ≠ (postProcess indexedKernels "p" "a" (Tensor.mk [1, 1, 1, 1] [2])
          (Tensor.mk [1, 1, 1, 2] [0, 0]) 0 >>= fun y =>
        postProcess indexedKernels "p" "h" y (Tensor.mk [1, 1, 1, 2] [0, 0]) 0) := by
  obtain ⟨h1, h2⟩ := postProcess_split_counterexample
  refine ⟨h1, h2, ?_⟩
  rw [h1, h2]
  intro h
  have hd := congrArg Tensor.data (Except.ok.inj h)
  simp at hd

/-- Witness of C21: for an input and a residual input of the same feature width,
`postProcess("a" ++ "h", ...)` is `postProcess("h", postProcess("a", ...), ...)`. -/
theorem postProcess_left_to_right_witness :
    (postProcess exampleKernels "p" ("a" ++ "h") (Tensor.mk [1, 1, 1, 2] [1, 2])
        (Tensor.mk [1, 1, 1, 2] [3, 4]) 0).isOk = true ∧
    postProcess exampleKernels "p" ("a" ++ "h") (Tensor.mk [1, 1, 1, 2] [1, 2])
        (Tensor.mk [1, 1, 1, 2] [3, 4]) 0
      = (postProcess exampleKernels "p" "a" (Tensor.mk [1, 1, 1, 2] [1, 2])
          (Tensor.mk [1, 1, 1, 2] [3, 4]) 0 >>= fun y =>
        postProcess exampleKernels "p" "h" y (Tensor.mk [1, 1, 1, 2] [3, 4]) 0) :=
  ⟨by decide,
    (postProcess_left_to_right exampleKernels "p" "a" "h" (Tensor.mk [1, 1, 1, 2] [1, 2])
      (Tensor.mk [1, 1, 1, 2] [3, 4]) 0).2.2.2.1 2 rfl rfl⟩

/-! ## The positional signal by absolute position -/

theorem positionalSignal_entry {α : Type} [Field α] (K : Kernels α)
    (dimEmb dimWords start : Nat) :
    (positionalSignal K dimEmb dimWords start).length = dimEmb * dimWords ∧
    ∀ r c, r < dimWords → c < dimEmb →
      (positionalSignal K dimEmb dimWords start)[r * dimEmb + c]?
        = some (if c < dimEmb / 2 then
            K.sin (((start + r : Nat) : α) * K.exp ((c : α) *
              -(K.log 10000 / (((dimEmb / 2 : Nat) : α) - 1))))
          else if c < 2 * (dimEmb / 2) then
            K.cos (((start + r : Nat) : α) * K.exp (((c - dimEmb / 2 : Nat) : α) *
              -(K.log 10000 / (((dimEmb / 2 : Nat) : α) - 1))))
          else 0) := by
  have hnt : 2 * (dimEmb / 2) ≤ dimEmb := by omega
  rw [positionalSignal_eq]
  obtain ⟨hlen, h⟩ := signalFill_spec dimEmb dimWords (dimEmb / 2)
    (fun r i => K.sin (((start + r : Nat) : α) * K.exp ((i : α) *
      -(K.log 10000 / (((dimEmb / 2 : Nat) : α) - 1)))))
    (fun r i => K.cos (((start + r : Nat) : α) * K.exp ((i : α) *
      -(K.log 10000 / (((dimEmb / 2 : Nat) : α) - 1)))))
    hnt dimWords (Nat.le_refl _)
  refine ⟨hlen, ?_⟩
  intro r c hr hc
  have := h r c hr hc
  rw [if_pos hr] at this
  exact this

theorem signalRow_getElem?_drop {α : Type} [Field α] (K : Kernels α)
    (dimEmb dimWords start r c : Nat) (hr : r < dimWords) :
    (((positionalSignal K dimEmb dimWords start).drop (r * dimEmb)).take dimEmb)[c]?
      = if c < dimEmb then
          some (if c < dimEmb / 2 then
            K.sin (((start + r : Nat) : α) * K.exp ((c : α) *
              -(K.log 10000 / (((dimEmb / 2 : Nat) : α) - 1))))
          else if c < 2 * (dimEmb / 2) then
            K.cos (((start + r : Nat) : α) * K.exp (((c - dimEmb / 2 : Nat) : α) *
              -(K.log 10000 / (((dimEmb / 2 : Nat) : α) - 1))))
          else 0)
        else none := by
  by_cases hc : c < dimEmb
  · rw [if_pos hc, List.getElem?_take_of_lt hc, List.getElem?_drop]
    exact (positionalSignal_entry K dimEmb dimWords start).2 r c hr hc
  · rw [if_neg hc]
    rw [List.getElem?_eq_none]
    rw [List.length_take]
    omega

theorem positionalSignal_row_shift {α : Type} [Field α] (K : Kernels α)
    (dimEmb L L' s r : Nat) (hr : r < L) (hrs : r + s < L') :
    ((positionalSignal K dimEmb L s).drop (r * dimEmb)).take dimEmb
      = ((positionalSignal K dimEmb L' 0).drop ((r + s) * dimEmb)).take dimEmb := by
  apply List.ext_getElem?
  intro c
  rw [signalRow_getElem?_drop K dimEmb L s r c hr,
    signalRow_getElem?_drop K dimEmb L' 0 (r + s) c hrs]
  rw [Nat.zero_add, Nat.add_comm s r]

theorem positionalSignal_single {α : Type} [Field α] (K : Kernels α)
    (dimEmb L s : Nat) (hs : s < L) :
    positionalSignal K dimEmb 1 s
      = ((positionalSignal K dimEmb L 0).drop (s * dimEmb)).take dimEmb := by
  have h := positionalSignal_row_shift K dimEmb 1 L s 0 (by omega) (by omega)
  rw [Nat.zero_add] at h
  rw [← h, Nat.zero_mul, List.drop_zero]
  have hlen := (positionalSignal_entry K dimEmb 1 s).1
  rw [List.take_of_length_le (by omega)]

/-- C22: the positional signal depends only on the absolute position.  The node that
`addPositionalEmbeddings(input, start)` adds to its input holds the buffer
`positionalSignal(dimEmb, dimWords, start)`; for every feature width, every length `L` and
every `s < L`, the buffer for length 1 at start offset `s` is row `s` of the buffer for
length `L` at start offset 0; and row `r` of a buffer at start offset `s` is row `r + s` of
a buffer at start offset 0. -/
theorem positional_signal_absolute_position {α : Type} [Field α] (K : Kernels α)
    (dimEmb L s : Nat) :
    (∀ (input : Tensor α) (start dimWords : Nat), dimBack input.shape 1 = .ok dimEmb →
      dimBack input.shape 3 = .ok dimWords →
      addPositionalEmbeddings K input start
        = add input (constant [dimWords, 1, dimEmb]
            (positionalSignal K dimEmb dimWords start))) ∧
    (s < L →
      positionalSignal K dimEmb 1 s
        = ((positionalSignal K dimEmb L 0).drop (s * dimEmb)).take dimEmb) ∧
    (∀ r L', r < L → r + s < L' →
      ((positionalSignal K dimEmb L s).drop (r * dimEmb)).take dimEmb
        = ((positionalSignal K dimEmb L' 0).drop ((r + s) * dimEmb)).take dimEmb) := by
  refine ⟨?_, positionalSignal_single K dimEmb L s, ?_⟩
  · intro input start dimWords h1 h3
    unfold addPositionalEmbeddings
    rw [h1, h3]
    rfl
  · intro r L' hr hrs
    exact positionalSignal_row_shift K dimEmb L L' s r hr hrs

/-- Witness of C22: with feature width 4, the signal of a single token at position 2 is row 2
of the signal of a sequence of 3 tokens at position 0. -/
theorem positional_signal_absolute_position_witness :
    positionalSignal exampleKernels 4 1 2
      = ((positionalSignal exampleKernels 4 3 0).drop (2 * 4)).take 4 :=
  (positional_signal_absolute_position exampleKernels 4 3 2).2.1 (by decide)

/-! ## The heads: `SplitHeads` and `JoinHeads` -/

theorem perm_0213 (u0 u1 u2 u3 : Nat) :
    (List.range 4).map (fun m => [u0, u1, u2, u3].getD (([0, 2, 1, 3] : List Nat).indexOf m) 0)
      = [u0, u2, u1, u3] := by
  rfl

theorem unravel_four (a b c d p : Nat) :
    unravel [a, b, c, d] p = [p / (b * (c * d)) % a, p / (c * d) % b, p / d % c, p % d] := by
  simp [unravel, elements]

theorem elements_cons (d : Nat) (ds : List Nat) : elements (d :: ds) = d * elements ds := by
  simp [elements]

theorem ravel_lt : ∀ (s idx : List Nat), List.Forall₂ (fun i d => i < d) idx s →
    ravel s idx < elements s
  | [], [], _ => by simp [ravel, elements]
  | [], _ :: _, h => by cases h
  | _ :: _, [], h => by cases h
  | d :: ds, i :: is, h => by
    cases h with
    | cons hid htail =>
      have ih := ravel_lt ds is htail
      rw [ravel, elements_cons, Nat.mod_eq_of_lt hid]
      calc i * elements ds + ravel ds is < i * elements ds + elements ds := by omega
        _ = (i + 1) * elements ds := by ring
        _ ≤ d * elements ds := Nat.mul_le_mul_right _ hid

theorem unravel_add_mul : ∀ (s : List Nat) (k r : Nat),
    unravel s (k * elements s + r) = unravel s r
  | [], _, _ => rfl
  | d :: ds, k, r => by
    rw [unravel, unravel, elements_cons]
    have h1 : k * (d * elements ds) + r = (k * d) * elements ds + r := by ring
    rw [h1, unravel_add_mul ds (k * d) r]
    congr 1
    rcases Nat.eq_zero_or_pos (elements ds) with h0 | hpos
    · simp [h0]
    · rw [Nat.add_comm, Nat.add_mul_div_right _ _ hpos, Nat.add_mul_mod_self_right]

theorem unravel_ravel : ∀ (s idx : List Nat), List.Forall₂ (fun i d => i < d) idx s →
    unravel s (ravel s idx) = idx
  | [], [], _ => rfl
  | [], _ :: _, h => by cases h
  | _ :: _, [], h => by cases h
  | d :: ds, i :: is, h => by
    cases h with
    | cons hid htail =>
      have hlt := ravel_lt ds is htail
      rw [ravel, Nat.mod_eq_of_lt hid, unravel, unravel_add_mul, unravel_ravel ds is htail]
      congr 1
      have hpos : 0 < elements ds := by omega
      rw [Nat.add_comm, Nat.add_mul_div_right _ _ hpos, Nat.div_eq_of_lt hlt, Nat.zero_add,
        Nat.mod_eq_of_lt hid]

theorem transpose_0213_data {α : Type} [Zero α] (x : Tensor α) (a b c d : Nat)
    (hx : x.shape = [a, b, c, d]) :
    transpose x [0, 2, 1, 3] = .ok (Tensor.mk [a, c, b, d]
      ((List.range (elements [a, c, b, d])).map (fun p =>
        x.data.getD (ravel [a, b, c, d]
          [p / (c * (b * d)) % a, p / d % b, p / (b * d) % c, p % d]) 0))) := by
  unfold transpose
  rw [hx]
  have hperm : ([0, 2, 1, 3] : List Nat).length = [a, b, c, d].length ∧
      ([0, 2, 1, 3] : List Nat).Perm (List.range [a, b, c, d].length) := by
    constructor
    · rfl
    · show ([0, 2, 1, 3] : List Nat).Perm [0, 1, 2, 3]
      decide
  rw [if_pos hperm]
  have hs : ([0, 2, 1, 3] : List Nat).map (fun ax => [a, b, c, d].getD ax 0) = [a, c, b, d] := rfl
  simp only [hs]
  congr 2
  apply List.map_congr_left
  intro p _
  rw [unravel_four]
  show x.data.getD (ravel [a, b, c, d] ((List.range 4).map _)) 0 = _
  rw [perm_0213]

/-- Entries of a tensor of four axes after `transpose(x, {0, 2, 1, 3})`. -/
theorem transpose_0213_entry {α : Type} [Zero α] (x : Tensor α) (a b c d : Nat)
    (hx : x.shape = [a, b, c, d]) :
    ∃ y, transpose x [0, 2, 1, 3] = .ok y ∧ y.shape = [a, c, b, d] ∧
      y.data.length = a * c * b * d ∧
      ∀ i k j l, i < a → k < c → j < b → l < d →
        y.data.getD (((i * c + k) * b + j) * d + l) 0
          = x.data.getD (((i * b + j) * c + k) * d + l) 0 := by
  refine ⟨_, transpose_0213_data x a b c d hx, rfl, ?_, ?_⟩
  · simp [elements_four]
  · intro i k j l hi hk hj hl
    have hall : List.Forall₂ (fun i d => i < d) [i, k, j, l] [a, c, b, d] :=
      .cons hi (.cons hk (.cons hj (.cons hl .nil)))
    have hq : ((i * c + k) * b + j) * d + l = ravel [a, c, b, d] [i, k, j, l] := by
      simp only [ravel, elements, List.prod_cons, List.prod_nil, Nat.mod_eq_of_lt hi,
        Nat.mod_eq_of_lt hk, Nat.mod_eq_of_lt hj, Nat.mod_eq_of_lt hl]
      ring
    have hlt := ravel_lt _ _ hall
    have hun := unravel_ravel _ _ hall
    rw [unravel_four] at hun
    simp only [List.cons.injEq, and_true] at hun
    obtain ⟨h0, h1, h2, h3⟩ := hun
    rw [hq]
    simp only [List.getD_eq_getElem?_getD, List.getElem?_map, List.getElem?_range hlt,
      Option.map_some', Option.getD_some]
    rw [h0, h1, h2, h3]
    congr 1
    simp only [ravel, elements, List.prod_cons, List.prod_nil, Nat.mod_eq_of_lt hi,
      Nat.mod_eq_of_lt hk, Nat.mod_eq_of_lt hj, Nat.mod_eq_of_lt hl]
    ring_nf

theorem decompose_four (a b c d p : Nat) (hp : p < a * b * c * d) :
    ∃ i j k l, i < a ∧ j < b ∧ k < c ∧ l < d ∧ p = ((i * b + j) * c + k) * d + l := by
  have hd : 0 < d := by
    rcases Nat.eq_zero_or_pos d with h | h
    · subst h; simp at hp
    · exact h
  have hc : 0 < c := by
    rcases Nat.eq_zero_or_pos c with h | h
    · subst h; simp at hp
    · exact h
  have hb : 0 < b := by
    rcases Nat.eq_zero_or_pos b with h | h
    · subst h; simp at hp
    · exact h
  have h1 : p / d < a * b * c := Nat.div_lt_of_lt_mul (by rw [Nat.mul_comm]; exact hp)
  have h2 : p / d / c < a * b := Nat.div_lt_of_lt_mul (by rw [Nat.mul_comm]; exact h1)
  have h3 : p / d / c / b < a := Nat.div_lt_of_lt_mul (by rw [Nat.mul_comm]; exact h2)
  refine ⟨p / d / c / b, p / d / c % b, p / d % c, p % d, h3, Nat.mod_lt _ hb,
    Nat.mod_lt _ hc, Nat.mod_lt _ hd, ?_⟩
  have e1 := Nat.div_add_mod p d
  have e2 := Nat.div_add_mod (p / d) c
  have e3 := Nat.div_add_mod (p / d / c) b
  have e3' : p / d / c / b * b + p / d / c % b = p / d / c := by rw [Nat.mul_comm]; exact e3
  have e2' : p / d / c * c + p / d % c = p / d := by rw [Nat.mul_comm]; exact e2
  have e1' : p / d * d + p % d = p := by rw [Nat.mul_comm]; exact e1
  rw [e3', e2', e1']

/-- Transposing the two middle axes twice gives the tensor back. -/
theorem transpose_0213_twice {α : Type} [Zero α] (x : Tensor α) (a b c d : Nat)
    (hx : x.shape = [a, b, c, d]) (hw : x.WellFormed) :
    ∃ y, transpose x [0, 2, 1, 3] = .ok y ∧ y.shape = [a, c, b, d] ∧ y.WellFormed ∧
      transpose y [0, 2, 1, 3] = .ok x := by
  obtain ⟨y, hy, hys, hyl, hye⟩ := transpose_0213_entry x a b c d hx
  obtain ⟨z, hz, hzs, hzl, hze⟩ := transpose_0213_entry y a c b d hys
  have hxl : x.data.length = a * b * c * d := by
    have := hw
    unfold Tensor.WellFormed at this
    rw [this, hx]
    simp [Nat.mul_assoc]
  refine ⟨y, hy, hys, ?_, ?_⟩
  · unfold Tensor.WellFormed
    rw [hyl, hys]
    simp [Nat.mul_assoc]
  · rw [hz]
    congr 1
    cases z with
    | mk zs zd =>
      cases x with
      | mk xs xd =>
        simp only at hzs hx hzl hxl hze hye ⊢
        subst hzs hx
        congr 1
        apply List.ext_getElem (by rw [hzl, hxl])
        intro p hp1 hp2
        rw [hxl] at hp2
        obtain ⟨i, j, k, l, hi, hj, hk, hl, rfl⟩ := decompose_four a b c d p hp2
        have e1 := hze i j k l hi hj hk hl
        have e2 := hye i k j l hi hk hj hl
        rw [e2] at e1
        rw [List.getD_eq_getElem?_getD, List.getD_eq_getElem?_getD,
          List.getElem?_eq_getElem hp1, List.getElem?_eq_getElem (by rw [hxl]; exact hp2)] at e1
        simpa using e1

theorem transpose_0213_getElem? {α : Type} [Zero α] (x : Tensor α) (a b c d : Nat)
    (hx : x.shape = [a, b, c, d]) (hw : x.WellFormed) :
    ∃ y, transpose x [0, 2, 1, 3] = .ok y ∧ y.shape = [a, c, b, d] ∧ y.WellFormed ∧
      transpose y [0, 2, 1, 3] = .ok x ∧
      ∀ i k j l, i < a → k < c → j < b → l < d →
        ((i * b + j) * c + k) * d + l < x.data.length ∧
        y.data[((i * c + k) * b + j) * d + l]? = x.data[((i * b + j) * c + k) * d + l]? := by
  obtain ⟨y, hy, hys, hyw, hback⟩ := transpose_0213_twice x a b c d hx hw
  obtain ⟨y', hy', -, hyl, hye⟩ := transpose_0213_entry x a b c d hx
  rw [hy] at hy'
  cases hy'
  refine ⟨y, hy, hys, hyw, hback, ?_⟩
  intro i k j l hi hk hj hl
  have hxl : x.data.length = a * b * c * d := by
    have := hw
    unfold Tensor.WellFormed at this
    rw [this, hx]
    simp [Nat.mul_assoc]
  have h1 : ((i * b + j) * c + k) * d + l < a * b * c * d := by
    have := ravel_lt [a, b, c, d] [i, j, k, l] (.cons hi (.cons hj (.cons hk (.cons hl .nil))))
    simp only [ravel, elements, List.prod_cons, List.prod_nil, Nat.mod_eq_of_lt hi,
      Nat.mod_eq_of_lt hk, Nat.mod_eq_of_lt hj, Nat.mod_eq_of_lt hl] at this
    calc ((i * b + j) * c + k) * d + l
        = i * (b * (c * (d * 1))) + (j * (c * (d * 1)) + (k * (d * 1) + (l * 1 + 0))) := by ring
      _ < a * (b * (c * (d * 1))) := this
      _ = a * b * c * d := by ring
  have h2 : ((i * c + k) * b + j) * d + l < a * c * b * d := by
    have := ravel_lt [a, c, b, d] [i, k, j, l] (.cons hi (.cons hk (.cons hj (.cons hl .nil))))
    simp only [ravel, elements, List.prod_cons, List.prod_nil, Nat.mod_eq_of_lt hi,
      Nat.mod_eq_of_lt hk, Nat.mod_eq_of_lt hj, Nat.mod_eq_of_lt hl] at this
    calc ((i * c + k) * b + j) * d + l
        = i * (c * (b * (d * 1))) + (k * (b * (d * 1)) + (j * (d * 1) + (l * 1 + 0))) := by ring
      _ < a * (c * (b * (d * 1))) := this
      _ = a * c * b * d := by ring
  refine ⟨by rw [hxl]; exact h1, ?_⟩
  have e := hye i k j l hi hk hj hl
  rw [List.getD_eq_getElem?_getD, List.getD_eq_getElem?_getD,
    List.getElem?_eq_getElem (by rw [hyl]; exact h2),
    List.getElem?_eq_getElem (by rw [hxl]; exact h1)] at e
  rw [List.getElem?_eq_getElem (by rw [hyl]; exact h2),
    List.getElem?_eq_getElem (by rw [hxl]; exact h1)]
  simpa using e

theorem SplitHeads_JoinHeads {α : Type} [Zero α] (x : Tensor α)
    (beam batch steps model h : Nat) (hx : x.shape = [beam, batch, steps, model])
    (hw : x.WellFormed) (hh : 1 ≤ h) (hdiv : h ∣ model) :
    ∃ y, SplitHeads x h = .ok y ∧ y.shape = [batch * beam, h, steps, model / h] ∧
      y.WellFormed ∧
      (∀ n c t j, n < batch * beam → c < h → t < steps → j < model / h →
        (n * steps + t) * model + (c * (model / h) + j) < x.data.length ∧
        y.data[((n * h + c) * steps + t) * (model / h) + j]?
          = x.data[(n * steps + t) * model + (c * (model / h) + j)]?) ∧
      (1 ≤ beam → JoinHeads y beam = .ok x) ∧
      (beam = 0 → JoinHeads y beam = .error (.undefined "division by zero")) := by
  have hmod : h * (model / h) = model := Nat.mul_div_cancel' hdiv
  have hel : elements x.shape = elements [batch * beam, steps, h, model / h] := by
    rw [hx]
    simp only [elements, List.prod_cons, List.prod_nil, Nat.mul_one]
    rw [hmod]
    ring
  obtain ⟨z, hz, hzs, hzd⟩ := reshape_returns x _ hel
  have hzw : z.WellFormed := by
    unfold Tensor.WellFormed at hw ⊢
    rw [hzd, hw, hzs]
    exact hel
  obtain ⟨y, hy, hys, hyw, hback, hent⟩ :=
    transpose_0213_getElem? z (batch * beam) steps h (model / h) hzs hzw
  have hsplit : SplitHeads x h = .ok y := by
    unfold SplitHeads
    rw [hx, dimBack_four_1, dimBack_four_2, dimBack_four_3, dimBack_four_4]
    have hne : h ≠ 0 := by omega
    simp only [ok_bind, divide, if_neg hne]
    rw [hz, ok_bind]
    exact hy
  refine ⟨y, hsplit, hys, hyw, ?_, ?_, ?_⟩
  · intro n c t j hn hc ht hj
    have := hent n c t j hn hc ht hj
    have hidx : ((n * steps + t) * h + c) * (model / h) + j
        = (n * steps + t) * model + (c * (model / h) + j) := by
      calc ((n * steps + t) * h + c) * (model / h) + j
          = (n * steps + t) * (h * (model / h)) + (c * (model / h) + j) := by ring
        _ = (n * steps + t) * model + (c * (model / h) + j) := by rw [hmod]
    rw [hidx, hzd] at this
    exact this
  · intro hbeam
    unfold JoinHeads
    rw [hys, dimBack_four_1, dimBack_four_2, dimBack_four_3, dimBack_four_4]
    have hne : beam ≠ 0 := by omega
    simp only [ok_bind, divide, if_neg hne]
    rw [hback, ok_bind]
    unfold reshape
    rw [Nat.mul_div_cancel _ (by omega : 0 < beam), hmod, hzs, hzd]
    rw [hx] at hel
    rw [if_pos hel.symm, ← hx]
  · intro hbeam
    unfold JoinHeads
    rw [hys, dimBack_four_1, dimBack_four_2, dimBack_four_3, dimBack_four_4]
    simp only [ok_bind, divide, hbeam]
    rfl

/-- C23: for a tensor `x` of shape `[beam, batch, steps, model]` holding one value per
element and a head count `h >= 1` dividing `model`, `SplitHeads(x, h)` returns a tensor of
shape `[batch*beam, h, steps, model/h]` whose entry `(n, c, t, j)` is the entry
`(n, t, c*(model/h) + j)` of `x`, so that head `c` holds the features `c*(model/h)` to
`(c+1)*(model/h) - 1`; and for `beam >= 1`, `JoinHeads` of it with `dimBeam = beam` returns
`x`: the shape `[beam, batch, steps, model]` and the same entries. -/
theorem JoinHeads_undoes_SplitHeads {α : Type} [Zero α] (x : Tensor α)
    (beam batch steps model h : Nat) (hx : x.shape = [beam, batch, steps, model])
    (hw : x.WellFormed) (hh : 1 ≤ h) (hdiv : h ∣ model) (hbeam : 1 ≤ beam) :
    ∃ y, SplitHeads x h = .ok y ∧ y.shape = [batch * beam, h, steps, model / h] ∧
      y.WellFormed ∧
      (∀ n c t j, n < batch * beam → c < h → t < steps → j < model / h →
        (n * steps + t) * model + (c * (model / h) + j) < x.data.length ∧
        y.data[((n * h + c) * steps + t) * (model / h) + j]?
          = x.data[(n * steps + t) * model + (c * (model / h) + j)]?) ∧
      JoinHeads y beam = .ok x ∧
      ∃ z, JoinHeads y beam = .ok z ∧ z.shape = [beam, batch, steps, model] ∧
        z.data = x.data := by
  obtain ⟨y, h1, h2, h3, h4, h5, -⟩ :=
    SplitHeads_JoinHeads x beam batch steps model h hx hw hh hdiv
  exact ⟨y, h1, h2, h3, h4, h5 hbeam, x, h5 hbeam, hx, rfl⟩

/-- Witness of C23: a tensor of shape `[2, 1, 2, 4]` split into 2 heads and joined again. -/
theorem JoinHeads_undoes_SplitHeads_witness :
    ∃ y, SplitHeads (Tensor.mk [2, 1, 2, 4] (List.range 16)) 2 = .ok y ∧
      y.shape = [1 * 2, 2, 2, 4 / 2] ∧
      JoinHeads y 2 = .ok (Tensor.mk [2, 1, 2, 4] (List.range 16)) := by
  obtain ⟨y, h1, h2, -, -, h5, -⟩ := JoinHeads_undoes_SplitHeads
    (Tensor.mk [2, 1, 2, 4] (List.range 16)) 2 1 2 4 2 rfl
    (by unfold Tensor.WellFormed; decide) (by decide) (by decide) (by decide)
  exact ⟨y, h1, h2, h5⟩

/-! ## Caches of the states returned by `step` -/

theorem DecoderLayerSelfAttention_cache {α : Type} [Field α] (K : Kernels α)
    (self : DecoderTransformer) (decoderState prevDecoderState : State α) (pre : String)
    (input selfMask : Tensor α) (startPos : Nat) (ds : State α) (out : Tensor α)
    (h : DecoderLayerSelfAttention K self decoderState prevDecoderState pre input selfMask
      startPos = .ok (ds, out)) :
    ∃ c, ds.output = some c := by
  unfold DecoderLayerSelfAttention at h
  rw [bind_eq_ok] at h
  obtain ⟨m, -, h⟩ := h
  rw [bind_eq_ok] at h
  obtain ⟨values, -, h⟩ := h
  simp only at h
  rw [bind_eq_ok] at h
  obtain ⟨o, -, h⟩ := h
  simp only [pure, Except.pure, Except.ok.injEq, Prod.mk.injEq] at h
  obtain ⟨rfl, -⟩ := h
  exact ⟨values, rfl⟩

theorem DecoderLayerAAN_cache {α : Type} [Field α] (K : Kernels α)
    (self : DecoderTransformer) (decoderState prevDecoderState : State α) (pre : String)
    (input selfMask : Tensor α) (startPos : Nat) (ds : State α) (out : Tensor α)
    (h : DecoderLayerAAN K self decoderState prevDecoderState pre input selfMask
      startPos = .ok (ds, out)) :
    ∃ c, ds.output = some c := by
  unfold DecoderLayerAAN at h
  rw [bind_eq_ok] at h
  obtain ⟨output, -, h⟩ := h
  simp only at h
  rw [bind_eq_ok] at h
  obtain ⟨o, -, h⟩ := h
  simp only [pure, Except.pure, Except.ok.injEq, Prod.mk.injEq] at h
  obtain ⟨rfl, -⟩ := h
  exact ⟨output, rfl⟩

/-- The state pushed by one iteration of the loop over the decoder layers holds a cache. -/
theorem decoderLayer_cache {α : Type} [Field α] (K : Kernels α) (self : DecoderTransformer)
    (prevDecoderStates : List (State α)) (selfMask : Tensor α) (startPos : Nat)
    (encoders : List (Tensor α × Tensor α)) (i : Nat) (query : Tensor α) (ds : State α)
    (out : Tensor α)
    (h : decoderLayer K self prevDecoderStates selfMask startPos encoders i query
      = .ok (ds, out)) :
    (∃ c, ds.output = some c) ∧
    (prevDecoderStates ≠ [] → ∃ prevState, prevDecoderStates[i - 1]? = some prevState) := by
  unfold decoderLayer at h
  rw [bind_eq_ok] at h
  obtain ⟨prevState, hprev, h⟩ := h
  rw [bind_eq_ok] at h
  obtain ⟨⟨ds', q1⟩, hauto, h⟩ := h
  simp only at h
  rw [bind_eq_ok] at h
  obtain ⟨q2, -, h⟩ := h
  rw [bind_eq_ok] at h
  obtain ⟨q3, -, h⟩ := h
  simp only [pure, Except.pure, Except.ok.injEq, Prod.mk.injEq] at h
  obtain ⟨rfl, rfl⟩ := h
  constructor
  · by_cases hs : self.options_.transformer_decoder_autoreg = "self-attention"
    · rw [if_pos hs] at hauto
      exact DecoderLayerSelfAttention_cache K self _ _ _ _ _ _ _ _ hauto
    · rw [if_neg hs] at hauto
      by_cases ha : self.options_.transformer_decoder_autoreg = "average-attention"
      · rw [if_pos ha] at hauto
        exact DecoderLayerAAN_cache K self _ _ _ _ _ _ _ _ hauto
      · rw [if_neg ha] at hauto
        cases hauto
  · intro hne
    have hlen : prevDecoderStates.length > 0 := List.length_pos.mpr hne
    rw [if_pos hlen, orFail_eq_ok] at hprev
    exact ⟨prevState, hprev⟩

/-- The states pushed by the loop over the decoder layers: one per index, pushed by the
iteration of that index on the value `query` has at its entry. -/
theorem decoderLayers_caches {α : Type} [Field α] (K : Kernels α) (self : DecoderTransformer)
    (prevDecoderStates : List (State α)) (selfMask : Tensor α) (startPos : Nat)
    (encoders : List (Tensor α × Tensor α)) :
    ∀ (is : List Nat) (query : Tensor α) (states : List (State α)) (out : Tensor α),
      decoderLayers K self prevDecoderStates selfMask startPos encoders is query
        = .ok (states, out) →
      states.length = is.length ∧
      ∀ (idx i : Nat), is[idx]? = some i →
        ∃ s input out',
          states[idx]? = some s ∧
          (decoderLayerInputs K self prevDecoderStates selfMask startPos encoders is query)[idx]?
            = some input ∧
          decoderLayer K self prevDecoderStates selfMask startPos encoders i input
            = .ok (s, out')
  | [], query, states, out, h => by
      unfold decoderLayers at h
      simp only [Except.ok.injEq, Prod.mk.injEq] at h
      obtain ⟨rfl, rfl⟩ := h
      refine ⟨rfl, ?_⟩
      intro idx i hi
      simp at hi
  | i0 :: is, query, states, out, h => by
      unfold decoderLayers at h
      cases hl : decoderLayer K self prevDecoderStates selfMask startPos encoders i0 query with
      | error e => rw [hl] at h; cases h
      | ok r =>
        obtain ⟨ds, q1⟩ := r
        rw [hl] at h
        simp only at h
        cases hrest : decoderLayers K self prevDecoderStates selfMask startPos encoders is q1 with
        | error e => rw [hrest] at h; cases h
        | ok r' =>
          obtain ⟨states', out'⟩ := r'
          rw [hrest] at h
          simp only [Except.ok.injEq, Prod.mk.injEq] at h
          obtain ⟨rfl, rfl⟩ := h
          obtain ⟨g1, g3⟩ := decoderLayers_caches K self prevDecoderStates selfMask startPos
            encoders is q1 states' out' hrest
          refine ⟨by simp [g1], ?_⟩
          intro idx i hi
          cases idx with
          | zero =>
            simp only [List.getElem?_cons_zero, Option.some.injEq] at hi
            subst hi
            refine ⟨ds, query, q1, by simp, ?_, hl⟩
            unfold decoderLayerInputs
            simp
          | succ idx =>
            simp only [List.getElem?_cons_succ] at hi
            obtain ⟨s, input, o, k0, k1, k2⟩ := g3 idx i hi
            refine ⟨s, input, o, by simpa using k0, ?_, k2⟩
            unfold decoderLayerInputs
            rw [hl]
            simpa using k1

theorem layerIndices_length (self : DecoderTransformer) :
    self.layerIndices.length = self.options_.dec_depth.toNat := by
  unfold DecoderTransformer.layerIndices
  simp

theorem mem_layerIndices (self : DecoderTransformer) (i : Nat) :
    i ∈ self.layerIndices ↔ 1 ≤ i ∧ i ≤ self.options_.dec_depth.toNat := by
  unfold DecoderTransformer.layerIndices
  simp only [List.mem_map, List.mem_range]
  constructor
  · rintro ⟨a, ha, rfl⟩
    omega
  · rintro ⟨h1, h2⟩
    exact ⟨i - 1, by omega, by omega⟩

/-- The caches of the state returned by `step`: one per decoder layer, the one at index
`idx` pushed by decoder layer `idx + 1`. -/
theorem step_caches {α : Type} [Field α] (K : Kernels α) (self self' : DecoderTransformer)
    (graph : Nat) (st stAfter st' : TransformerState α)
    (h : self.step K graph st = .ok (self', stAfter, st')) :
    self'.options_ = self.options_ ∧
    st'.getPosition = st.getPosition + 1 ∧
    st'.states_.length = self.options_.dec_depth.toNat ∧
    (∀ s ∈ st'.states_, ∃ c, s.output = some c) ∧
    (st.states_ ≠ [] → ∀ i ∈ self.layerIndices, ∃ prevState, st.states_[i - 1]? = some prevState) ∧
    ∃ (query selfMask : Tensor α) (encoders : List (Tensor α × Tensor α)),
      self'.stepPrologue K st = .ok (query, selfMask, encoders) ∧
      ∀ idx, idx < self.options_.dec_depth.toNat →
        ∃ s input out,
          st'.states_[idx]? = some s ∧
          (self'.stepLayerInputs K st)[idx]? = some input ∧
          decoderLayer K self' st.states_ selfMask st.getPosition encoders (idx + 1) input
            = .ok (s, out) := by
  obtain ⟨-, hlazy, hst⟩ := step_ok_elim K self self' graph st stAfter st' h
  have hopt : self'.options_ = self.options_ := LazyCreateOutputLayer_options self self' _ hlazy
  obtain ⟨query, selfMask, encoders, decoderStates, out, logits, hpro, hlayers, -, rfl⟩ :=
    stepState_ok_elim K self' st stAfter st' hst
  obtain ⟨hlen, hall⟩ := decoderLayers_caches K self' st.states_ selfMask st.getPosition
    encoders self'.layerIndices query decoderStates out hlayers
  have hlen' : decoderStates.length = self.options_.dec_depth.toNat := by
    rw [hlen, layerIndices_length, hopt]
  have hidx : ∀ idx, idx < self.options_.dec_depth.toNat →
      self'.layerIndices[idx]? = some (idx + 1) := by
    intro idx hi
    exact layerIndices_getElem? self' idx (by rw [layerIndices_length, hopt]; exact hi)
  refine ⟨hopt, rfl, hlen', ?_, ?_, query, selfMask, encoders, hpro, ?_⟩
  · intro s hs
    have hs' : s ∈ decoderStates := hs
    obtain ⟨idx, hget⟩ := List.mem_iff_getElem?.mp hs'
    have hlt : idx < self.options_.dec_depth.toNat := by
      rw [← hlen']
      by_contra hcon
      rw [List.getElem?_eq_none_iff.mpr (by omega)] at hget
      cases hget
    obtain ⟨s', input, o, k0, -, k2⟩ := hall idx (idx + 1) (hidx idx hlt)
    rw [hget] at k0
    cases k0
    exact (decoderLayer_cache K self' _ _ _ _ _ _ _ _ k2).1
  · intro hne i hi
    obtain ⟨h1, h2⟩ := (mem_layerIndices self i).mp hi
    obtain ⟨s', input, o, -, -, k2⟩ := hall (i - 1) i (by
      have := hidx (i - 1) (by omega)
      rw [this]
      congr 1
      omega)
    exact (decoderLayer_cache K self' _ _ _ _ _ _ _ _ k2).2 hne
  · intro idx hi
    obtain ⟨s, input, o, k0, k1, k2⟩ := hall idx (idx + 1) (hidx idx hi)
    refine ⟨s, input, o, k0, ?_, k2⟩
    unfold DecoderTransformer.stepLayerInputs
    rw [hpro]
    exact k1

/-- What holds of every state reached by `step` and `select`: the decoder keeps its
options, the position counts the steps, before the first step the state is the start state,
and after it the state holds one cache per decoder layer. -/
theorem reached_invariant {α : Type} [Field α] (K : Kernels α) (dec : DecoderTransformer)
    (graph batch : Nat) (encStates : List (EncoderState α))
    (n : Nat) (d : DecoderTransformer) (st : TransformerState α)
    (hr : Reached K dec graph batch encStates n d st) :
    d.options_ = dec.options_ ∧ st.getPosition = n ∧
    (n = 0 → st = (dec.startState graph batch encStates).2) ∧
    (1 ≤ n → st.states_.length = dec.options_.dec_depth.toNat ∧
      ∀ s ∈ st.states_, ∃ c, s.output = some c) := by
  induction hr with
  | start => exact ⟨rfl, rfl, fun _ => rfl, fun h => by omega⟩
  | @step n d d' st stAfter st' emb mask _ hstep ih =>
    obtain ⟨ih1, ih2, -, -⟩ := ih
    obtain ⟨hopt, hpos, hlen, hcache, -, -⟩ := step_caches K d d' graph _ stAfter st' hstep
    refine ⟨by rw [hopt, ih1], ?_, fun h => by omega, fun _ => ⟨by rw [hlen, ih1], hcache⟩⟩
    rw [hpos]
    show st.getPosition + 1 = n + 1
    rw [ih2]
  | @select n d st st' selIdx beamSize _ hsel ih =>
    obtain ⟨ih1, ih2, ih3, ih4⟩ := ih
    obtain ⟨s, rest, first, dimDepth, dimTime, selected, hs, hout, -, ht, -, hf, rfl⟩ :=
      select_ok_elim st st' selIdx beamSize hsel
    refine ⟨ih1, ih2, ?_, ?_⟩
    · intro hn
      rw [ih3 hn] at hs
      cases hs
    · intro hn
      obtain ⟨hlen, -⟩ := ih4 hn
      refine ⟨?_, ?_⟩
      · show selected.length = _
        rw [forEach_ok_length _ _ _ hf, hlen]
      · intro s' hs'
        obtain ⟨x, -, hx⟩ := forEach_ok_mem _ _ _ hf s' hs'
        obtain ⟨sel, h1, -⟩ := selectState_shape _ _ _ _ _ x s' hx
        exact ⟨sel, h1⟩

/-- C24: every state returned by `step` holds exactly `dec-depth` layer caches (none for a
negative `dec-depth`), whatever the caches of the input state, and the cache at index `idx`
is the one pushed by decoder layer `idx + 1` on the value `query` has at its entry;
consequently, for `dec-depth >= 1`, a state reached from `startState` by `n` calls of `step`
and any calls of `select` is the start state, without caches, when `n = 0`, and otherwise
holds `dec-depth` caches, none of them null, so that the read `states_[0].output` of `select`
and the reads `prevDecoderStates[i - 1]` of `step` for `i = 1, ..., dec-depth` are in
bounds. -/
theorem step_returns_one_cache_per_layer {α : Type} [Field α] (K : Kernels α)
    (dec : DecoderTransformer) (graph batch : Nat) (encStates : List (EncoderState α)) :
    (∀ (d d' : DecoderTransformer) (g : Nat) (st stAfter st' : TransformerState α),
      d.step K g st = .ok (d', stAfter, st') →
        st'.states_.length = d.options_.dec_depth.toNat ∧
        (0 ≤ d.options_.dec_depth → (st'.states_.length : Int) = d.options_.dec_depth) ∧
        (∀ s ∈ st'.states_, ∃ c, s.output = some c) ∧
        ∃ (query selfMask : Tensor α) (encoders : List (Tensor α × Tensor α)),
          d'.stepPrologue K st = .ok (query, selfMask, encoders) ∧
          ∀ idx, idx < d.options_.dec_depth.toNat →
            ∃ s input out,
              st'.states_[idx]? = some s ∧
              (d'.stepLayerInputs K st)[idx]? = some input ∧
              decoderLayer K d' st.states_ selfMask st.getPosition encoders (idx + 1) input
                = .ok (s, out)) ∧
    (1 ≤ dec.options_.dec_depth →
      ∀ (n : Nat) (d : DecoderTransformer) (st : TransformerState α),
        Reached K dec graph batch encStates n d st →
          st.getPosition = n ∧
          ((n = 0 ∧ st = (dec.startState graph batch encStates).2 ∧ st.states_ = []) ∨
           (1 ≤ n ∧ st.states_ ≠ [] ∧
            (st.states_.length : Int) = dec.options_.dec_depth ∧
            (∀ s ∈ st.states_, ∃ c, s.output = some c) ∧
            (∃ s0 first, st.states_[0]? = some s0 ∧ s0.output = some first) ∧
            ∀ i ∈ d.layerIndices, ∃ prevState prev,
              st.states_[i - 1]? = some prevState ∧ prevState.output = some prev))) := by
  constructor
  · intro d d' g st stAfter st' hstep
    obtain ⟨-, -, hlen, hcache, -, hex⟩ := step_caches K d d' g st stAfter st' hstep
    refine ⟨hlen, ?_, hcache, hex⟩
    intro h0
    rw [hlen]
    exact Int.toNat_of_nonneg h0
  · intro hdepth n d st hr
    obtain ⟨hopt, hpos, h0, h1⟩ := reached_invariant K dec graph batch encStates n d st hr
    refine ⟨hpos, ?_⟩
    rcases Nat.eq_zero_or_pos n with hn | hn
    · left
      refine ⟨hn, h0 hn, ?_⟩
      rw [h0 hn]
      rfl
    · right
      obtain ⟨hlen, hcache⟩ := h1 hn
      have hpos' : 1 ≤ dec.options_.dec_depth.toNat := by omega
      have hget : ∀ k, k < dec.options_.dec_depth.toNat →
          ∃ s c, st.states_[k]? = some s ∧ s.output = some c := by
        intro k hk
        have hk' : k < st.states_.length := by rw [hlen]; exact hk
        obtain ⟨c, hc⟩ := hcache (st.states_[k]) (List.getElem_mem _)
        exact ⟨st.states_[k], c, List.getElem?_eq_getElem hk', hc⟩
      refine ⟨hn, ?_, ?_, hcache, hget 0 (by omega), ?_⟩
      · intro hnil
        rw [hnil] at hlen
        simp at hlen
        omega
      · rw [hlen]
        exact Int.toNat_of_nonneg (by omega)
      · intro i hi
        obtain ⟨i1, i2⟩ := (mem_layerIndices d i).mp hi
        rw [hopt] at i2
        exact hget (i - 1) (by omega)

/-- Witness of C24: after two steps of `exampleDecoder`, which has one layer, with a `select`
in between, the state holds one cache. -/
theorem step_returns_one_cache_per_layer_witness :
    ∃ d st, Reached exampleKernels exampleDecoder 7 0 [] 2 d st ∧ st.states_ ≠ [] ∧
      (st.states_.length : Int) = exampleDecoder.options_.dec_depth := by
  have hok := exampleTwoSteps_isOk
  cases hrun : exampleTwoSteps with
  | error e => rw [hrun] at hok; cases hok
  | ok r =>
    obtain ⟨d2, s2⟩ := r
    unfold exampleTwoSteps at hrun
    rw [bind_eq_ok] at hrun
    obtain ⟨⟨d1, stA, s1⟩, h1, hrun⟩ := hrun
    simp only at hrun
    rw [bind_eq_ok] at hrun
    obtain ⟨s1', hsel, hrun⟩ := hrun
    rw [bind_eq_ok] at hrun
    obtain ⟨⟨d2', stA', s2'⟩, h2, hrun⟩ := hrun
    simp only [pure, Except.pure, Except.ok.injEq, Prod.mk.injEq] at hrun
    obtain ⟨rfl, rfl⟩ := hrun
    have r1 : Reached exampleKernels exampleDecoder 7 0 [] 1 d1 s1 :=
      Reached.step (some (Tensor.mk [1, 1, 1, 2] [1, 2])) none Reached.start h1
    have r2 : Reached exampleKernels exampleDecoder 7 0 [] 2 d2' s2' :=
      Reached.step (some (Tensor.mk [1, 1, 1, 2] [3, 4])) none (Reached.select [0] 1 r1 hsel) h2
    obtain ⟨-, hcase⟩ := (step_returns_one_cache_per_layer exampleKernels exampleDecoder 7 0
      ([] : List (EncoderState ℚ))).2 (by decide) 2 d2' s2' r2
    rcases hcase with ⟨h0, -⟩ | ⟨-, hne, hlen, -⟩
    · cases h0
    · exact ⟨d2', s2', r2, hne, hlen⟩

/-! ## Masked positions under `softmax` -/

end Marian
